import Mathlib

/-!
# OpenRCT2 text layout: a verification development

Shallow embedding of `src/openrct2/drawing/Drawing.String.cpp` and of the struct
`RCTObjectEntry` of `src/openrct2/object/Object.h`.

Modelling conventions.

* A text buffer (`utf8*`, `std::string`, `std::string_view`) is a `List Nat` of
  cells.  One cell holds one decoded unit of the text: a Unicode scalar value, or a
  control code together with its integer argument.  Cell `0` is the NUL terminator.
  Buffer indices of the source (`buffer.size()`, `splitIndex`, ...) are cell indices.
* A `char*` that is read as a C string is read through `cstr` (up to the first NUL).
* `int32_t` cursor arithmetic is carried out in `Int`; the bit mask `flags` is a `Nat`
  holding the 32-bit pattern.  The namespace `Machine` holds the draw state machine a
  second time, with `int32_t` arithmetic modulo 2^32 and with the process-wide
  variables `gTextPalette` and `_ttfGlId` as part of the state; statements about sums
  of widths and about process-wide state are made there.
* Collaborators that are not part of the translated file (glyph metrics, the outline
  font engine, line heights, image table, colour tables, the control-code table of
  the tokenizer) are fields of `Env`.
-/

namespace OpenRCT2

/-! ## Collaborator types -/

/-- Font styles of the sprite font. -/
inductive FontStyle
  | Small
  | Medium
  | Tiny
  deriving DecidableEq, Repr

/-- Token kinds produced by the format tokenizer.  `Colour i` stands for the direct
colour tokens (`FormatTokenIsColour`), `i` being `FormatTokenGetTextColourIndex`;
`Codepoint c` is a token for which `IsCodepoint()` holds and `GetCodepoint()` is `c`;
`Other` collects every kind the drawing code has no case for (argument placeholders
and the like). -/
inductive FormatToken
  | Literal
  | Newline
  | NewlineSmall
  | FontTiny
  | FontSmall
  | FontMedium
  | OutlineEnable
  | OutlineDisable
  | ColourWindow1
  | ColourWindow2
  | ColourWindow3
  | Move
  | InlineSprite
  | Colour (index : Nat)
  | Codepoint (scalar : Nat)
  | Other
  deriving DecidableEq, Repr

/-- One token of a format string: `FmtString::token`. -/
structure token where
  kind : FormatToken
  text : List Nat
  parameter : Int
  deriving DecidableEq, Repr

/-- The member `token::IsLiteral`. -/
def token.IsLiteral (t : token) : Bool :=
  decide (t.kind = FormatToken.Literal)

/-- The member `token::IsCodepoint`. -/
def token.IsCodepoint (t : token) : Bool :=
  match t.kind with
  | FormatToken.Codepoint _ => true
  | _ => false

/-- The member `token::GetCodepoint`. -/
def token.GetCodepoint (t : token) : Nat :=
  match t.kind with
  | FormatToken.Codepoint c => c
  | _ => 0

/-- The predicate `FormatTokenIsColour`. -/
def FormatTokenIsColour (k : FormatToken) : Bool :=
  match k with
  | FormatToken.Colour _ => true
  | _ => false

/-- The function `FormatTokenGetTextColourIndex`. -/
def FormatTokenGetTextColourIndex (k : FormatToken) : Nat :=
  match k with
  | FormatToken.Colour i => i
  | _ => 0

/-- The fields of `rct_g1_element` that the text code reads. -/
structure rct_g1_element where
  width : Int
  height : Int
  offset : List Nat
  deriving DecidableEq, Repr

/-- The shades of one `ColourMapA` row that the text code reads. -/
structure rct_colour_map where
  dark : Nat
  mid_dark : Nat
  mid_light : Nat
  light : Nat
  lighter : Nat
  colour_11 : Nat
  deriving DecidableEq, Repr

/-- The fields of `TTFFontDescriptor` that the text code reads; `font` is the
engine handle, `none` for a null handle. -/
structure TTFFontDescriptor where
  font : Option Nat
  offset_x : Int
  offset_y : Int
  hinting_threshold : Int
  deriving DecidableEq, Repr

/-- Geometry of a cached `TTFSurface`. -/
structure TTFSurface where
  w : Int
  h : Int
  pitch : Int
  deriving DecidableEq, Repr

/-- The codepoints named in namespace `UnicodeChar`. -/
structure UnicodeCharTable where
  up : Nat
  down : Nat
  leftguillemet : Nat
  tick : Nat
  cross : Nat
  right : Nat
  rightguillemet : Nat
  small_up : Nat
  small_down : Nat
  left : Nat
  quote_open : Nat
  quote_close : Nat
  german_quote_open : Nat
  plus : Nat
  minus : Nat
  variation_selector : Nat
  eye : Nat
  road : Nat
  railway : Nat

/-- Everything the translated functions obtain from outside the file. -/
structure Env where
  /-- control-code table of the tokenizer: kind and argument of a control cell -/
  formatCode : Nat → Option (FormatToken × Int)
  /-- glyph metrics of the sprite font -/
  font_sprite_get_codepoint_width : FontStyle → Nat → Int
  font_get_line_height : FontStyle → Int
  font_get_line_height_small : FontStyle → Int
  /-- the setting read by `LocalisationService_UseTrueTypeFont` -/
  UseTrueTypeFont : Bool
  ttf_initialise : Bool
  ttf_get_font_from_sprite_base : FontStyle → TTFFontDescriptor
  ttf_getwidth_cache_get_or_add : Nat → List Nat → Int
  ttf_surface_cache_get_or_add : Nat → List Nat → Option TTFSurface
  /-- whether the drawing engine type is `DrawingEngine::OpenGL` -/
  DrawingEngineOpenGL : Bool
  /-- the image table behind `GfxGetG1Element`, indexed by image index -/
  GfxGetG1Element : Nat → Option rct_g1_element
  /-- the index selected by `ImageId::FromUInt32(p).GetIndex()` -/
  ImageIdGetIndex : Int → Nat
  SPR_TEXT_PALETTE : Nat
  ColourMapA : Nat → rct_colour_map
  NOT_TRANSLUCENT : Nat → Nat
  gCurrentWindowColours : Nat → Nat
  UnicodeChar : UnicodeCharTable

/-! ## Text buffers -/

/-- The contents of a NUL-terminated string starting at the head of `mem`. -/
def cstr (mem : List Nat) : List Nat :=
  mem.takeWhile (fun c => c != 0)

/-- The three periods appended by `GfxClipString`. -/
def ellipsis : List Nat := [46, 46, 46]

/-- Modelled from the spec: `CodepointView` (the CodepointScanner) is not part of the
translated file.  It "decodes a byte sequence into a lazy sequence of Unicode scalar
values"; a buffer holds one scalar per cell, so the scalars are the cells in order. -/
def CodepointView (text : List Nat) : List Nat := text

/-- Modelled from the spec: `utf8_write_codepoint` is not part of the translated file.
It writes the encoding of one scalar value, which occupies one cell. -/
def utf8_write_codepoint (codepoint : Nat) : List Nat := [codepoint]

/-- Modelled from the spec: the classification of cells by the FormatTokenizer, which
is not part of the translated file.  A cell "outside sentinel ranges" is literal
text; a control cell has a kind and an argument, read from the table of the
environment (a table entry naming the kind `Literal` does not make a cell a control
code). -/
def controlCode (env : Env) (c : Nat) : Option (FormatToken × Int) :=
  match env.formatCode c with
  | some (k, p) => if k = FormatToken.Literal then none else some (k, p)
  | none => none

/-- Modelled from the spec: `FmtString` (the FormatTokenizer) is not part of the
translated file.  It "parses an annotated text buffer into a sequence of tokens":
a control cell is a token of its own, carrying its argument and slicing that one
cell of the buffer; "any byte outside sentinel ranges accumulates into a literal run
until a control code or the buffer end". -/
def FmtString (env : Env) : List Nat → List token
  | [] => []
  | c :: rest =>
    match controlCode env c with
    | some (k, p) => ⟨k, [c], p⟩ :: FmtString env rest
    | none =>
      match FmtString env rest with
      | ⟨FormatToken.Literal, t, _⟩ :: ts => ⟨FormatToken.Literal, c :: t, 0⟩ :: ts
      | ts => ⟨FormatToken.Literal, [c], 0⟩ :: ts

/-! ## Draw state -/

def TEXT_DRAW_FLAG_INSET : Nat := 1 <<< 0
def TEXT_DRAW_FLAG_OUTLINE : Nat := 1 <<< 1
def TEXT_DRAW_FLAG_DARK : Nat := 1 <<< 2
def TEXT_DRAW_FLAG_EXTRA_DARK : Nat := 1 <<< 3
def TEXT_DRAW_FLAG_NO_FORMATTING : Nat := 1 <<< 28
def TEXT_DRAW_FLAG_Y_OFFSET_EFFECT : Nat := 1 <<< 29
def TEXT_DRAW_FLAG_TTF : Nat := 1 <<< 30
def TEXT_DRAW_FLAG_NO_DRAW : Nat := 1 <<< 31

/-- Test of a flag mask: `flags & mask` is non-zero. -/
def hasFlag (flags mask : Nat) : Bool :=
  (flags &&& mask) != 0

/-- The update `flags &= ~mask` on a 32-bit pattern. -/
def clearFlag (flags mask : Nat) : Nat :=
  flags &&& (0xFFFFFFFF ^^^ mask)

/-- The struct `text_draw_info`.  The pointer `y_offset` is the list of the offsets
it still has to walk over. -/
structure text_draw_info where
  startX : Int
  startY : Int
  x : Int
  y : Int
  maxX : Int
  maxY : Int
  flags : Nat
  palette : List Nat
  FontStyle : FontStyle
  y_offset : List Int
  deriving DecidableEq, Repr

/-- A call made on the destination pixel buffer. -/
inductive DrawCall
  | glyph (style : FontStyle) (codepoint : Nat) (x y : Int) (palette : List Nat)
  | sprite (imageId : Int) (x y : Int)
  | bitmap (text : List Nat) (x y : Int)
  | surface (text : List Nat) (drawX drawY width height : Int)
  deriving DecidableEq, Repr

/-- The fields of `rct_drawpixelinfo` that the text code reads, and the calls made
on it so far (latest last). -/
structure rct_drawpixelinfo where
  x : Int
  y : Int
  width : Int
  height : Int
  pitch : Int
  calls : List DrawCall
  deriving DecidableEq, Repr

/-- Little-endian value of the four bytes at `idx` (the `memcpy` into `colour32`). -/
def readLE32 (bytes : List Nat) (idx : Nat) : Nat :=
  bytes.getD idx 0 + 256 * bytes.getD (idx + 1) 0 + 65536 * bytes.getD (idx + 2) 0
    + 16777216 * bytes.getD (idx + 3) 0

/-- The four stores `palette_pointer[1..4] = bytes of v`. -/
def setPalette (palette : List Nat) (v : Nat) : List Nat :=
  (((palette.set 1 (v &&& 0xFF)).set 2 ((v >>> 8) &&& 0xFF)).set 3
    ((v >>> 16) &&& 0xFF)).set 4 ((v >>> 24) &&& 0xFF)

/-- The function `colour_char`: `current_font_flags` is the `uint16_t` copy of the
draw flags. -/
def colour_char (env : Env) (colour : Nat) (current_font_flags : Nat)
    (palette_pointer : List Nat) : List Nat :=
  let colour32 : Nat :=
    match env.GfxGetG1Element env.SPR_TEXT_PALETTE with
    | some g1 => readLE32 g1.offset ((colour &&& 0xFF) * 4)
    | none => 0
  let colour32 : Nat :=
    if !(hasFlag current_font_flags TEXT_DRAW_FLAG_OUTLINE) then colour32 &&& 0x0FF0000FF
    else colour32
  setPalette palette_pointer colour32

/-- The function `colour_char_window`. -/
def colour_char_window (env : Env) (colour : Nat) (current_font_flags : Nat)
    (palette_pointer : List Nat) : List Nat :=
  let colour := env.NOT_TRANSLUCENT colour
  let eax : Nat := (env.ColourMapA colour).colour_11
  let eax : Nat :=
    if hasFlag current_font_flags TEXT_DRAW_FLAG_OUTLINE then eax ||| 0x0A0A00 else eax
  setPalette palette_pointer eax

/-- The function `ttf_draw_character_sprite`. -/
def ttf_draw_character_sprite (env : Env) (dpi : rct_drawpixelinfo) (codepoint : Nat)
    (info : text_draw_info) : rct_drawpixelinfo × text_draw_info :=
  let characterWidth := env.font_sprite_get_codepoint_width info.FontStyle codepoint
  if !(hasFlag info.flags TEXT_DRAW_FLAG_NO_DRAW) then
    if hasFlag info.flags TEXT_DRAW_FLAG_Y_OFFSET_EFFECT then
      let call := DrawCall.glyph info.FontStyle codepoint info.x
        (info.y + info.y_offset.headD 0) info.palette
      ({ dpi with calls := dpi.calls ++ [call] },
        { info with y_offset := info.y_offset.tail, x := info.x + characterWidth })
    else
      let call := DrawCall.glyph info.FontStyle codepoint info.x info.y info.palette
      ({ dpi with calls := dpi.calls ++ [call] }, { info with x := info.x + characterWidth })
  else
    (dpi, { info with x := info.x + characterWidth })

/-- The function `ttf_draw_string_raw_sprite`. -/
def ttf_draw_string_raw_sprite (env : Env) (dpi : rct_drawpixelinfo) (text : List Nat)
    (info : text_draw_info) : rct_drawpixelinfo × text_draw_info :=
  (CodepointView text).foldl
    (fun st codepoint => ttf_draw_character_sprite env st.1 codepoint st.2) (dpi, info)

/-- The function `ttf_draw_string_raw_ttf`.  The pixel loops of the software
blitter are recorded as one `surface` call with the clipped extent. -/
def ttf_draw_string_raw_ttf (env : Env) (dpi : rct_drawpixelinfo) (text : List Nat)
    (info : text_draw_info) : rct_drawpixelinfo × text_draw_info :=
  if !env.ttf_initialise then (dpi, info)
  else
    let fontDesc := env.ttf_get_font_from_sprite_base info.FontStyle
    match fontDesc.font with
    | none => ttf_draw_string_raw_sprite env dpi text info
    | some font =>
      if hasFlag info.flags TEXT_DRAW_FLAG_NO_DRAW then
        (dpi, { info with x := info.x + env.ttf_getwidth_cache_get_or_add font text })
      else
        match env.ttf_surface_cache_get_or_add font text with
        | none => (dpi, info)
        | some surface =>
          let drawX := info.x + fontDesc.offset_x
          let drawY := info.y + fontDesc.offset_y
          let width := surface.w
          let height := surface.h
          if env.DrawingEngineOpenGL then
            ({ dpi with calls := dpi.calls ++ [DrawCall.bitmap text drawX drawY] }, info)
          else
            let overflowX := (dpi.x + dpi.width) - (drawX + width)
            let overflowY := (dpi.y + dpi.height) - (drawY + height)
            let width := if overflowX < 0 then width + overflowX else width
            let height := if overflowY < 0 then height + overflowY else height
            let skipX := drawX - dpi.x
            let skipY := drawY - dpi.y
            let info := { info with x := info.x + width }
            let width := if skipX < 0 then width + skipX else width
            let height := if skipY < 0 then height + skipY else height
            ({ dpi with calls := dpi.calls ++ [DrawCall.surface text drawX drawY width height] },
              info)

/-- The function `ttf_process_format_code`. -/
def ttf_process_format_code (env : Env) (dpi : rct_drawpixelinfo) (tok : token)
    (info : text_draw_info) : rct_drawpixelinfo × text_draw_info :=
  match tok.kind with
  | FormatToken.Move => (dpi, { info with x := info.startX + tok.parameter })
  | FormatToken.Newline =>
    (dpi, { info with x := info.startX, y := info.y + env.font_get_line_height info.FontStyle })
  | FormatToken.NewlineSmall =>
    (dpi, { info with x := info.startX,
                      y := info.y + env.font_get_line_height_small info.FontStyle })
  | FormatToken.FontTiny => (dpi, { info with FontStyle := FontStyle.Tiny })
  | FormatToken.FontSmall => (dpi, { info with FontStyle := FontStyle.Small })
  | FormatToken.FontMedium => (dpi, { info with FontStyle := FontStyle.Medium })
  | FormatToken.OutlineEnable =>
    (dpi, { info with flags := info.flags ||| TEXT_DRAW_FLAG_OUTLINE })
  | FormatToken.OutlineDisable =>
    (dpi, { info with flags := clearFlag info.flags TEXT_DRAW_FLAG_OUTLINE })
  | FormatToken.ColourWindow1 =>
    let palette :=
      colour_char_window env (env.gCurrentWindowColours 0) (info.flags % 65536) info.palette
    (dpi, { info with palette := palette })
  | FormatToken.ColourWindow2 =>
    let palette :=
      colour_char_window env (env.gCurrentWindowColours 1) (info.flags % 65536) info.palette
    (dpi, { info with palette := palette })
  | FormatToken.ColourWindow3 =>
    let palette :=
      colour_char_window env (env.gCurrentWindowColours 2) (info.flags % 65536) info.palette
    (dpi, { info with palette := palette })
  | FormatToken.InlineSprite =>
    match env.GfxGetG1Element (env.ImageIdGetIndex tok.parameter) with
    | some g1 =>
      if g1.width ≤ 32 ∧ g1.height ≤ 32 then
        if !(hasFlag info.flags TEXT_DRAW_FLAG_NO_DRAW) then
          ({ dpi with calls := dpi.calls ++ [DrawCall.sprite tok.parameter info.x info.y] },
            { info with x := info.x + g1.width })
        else
          (dpi, { info with x := info.x + g1.width })
      else (dpi, info)
    | none => (dpi, info)
  | k =>
    if FormatTokenIsColour k then
      let colourIndex := FormatTokenGetTextColourIndex k
      let palette := colour_char env (colourIndex % 256) (info.flags % 65536) info.palette
      (dpi, { info with palette := palette })
    else (dpi, info)

/-- The function `ShouldUseSpriteForCodepoint`. -/
def ShouldUseSpriteForCodepoint (env : Env) (codepoint : Nat) : Bool :=
  let u := env.UnicodeChar
  codepoint == u.up || codepoint == u.down || codepoint == u.leftguillemet
    || codepoint == u.tick || codepoint == u.cross || codepoint == u.right
    || codepoint == u.rightguillemet || codepoint == u.small_up
    || codepoint == u.small_down || codepoint == u.left || codepoint == u.quote_open
    || codepoint == u.quote_close || codepoint == u.german_quote_open
    || codepoint == u.plus || codepoint == u.minus || codepoint == u.variation_selector
    || codepoint == u.eye || codepoint == u.road || codepoint == u.railway

/-- The loop of the outline-font branch of `ttf_process_string_literal`: `run` is the
substring from `ttfRunIndex` up to the current position, `none` when `ttfRunIndex`
has no value; the last clause is the final run after the loop. -/
def ttfRuns (env : Env) :
    List Nat → Option (List Nat) → rct_drawpixelinfo × text_draw_info →
      rct_drawpixelinfo × text_draw_info
  | [], none, st => st
  | [], some r, st => ttf_draw_string_raw_ttf env st.1 r st.2
  | codepoint :: rest, run, st =>
    if ShouldUseSpriteForCodepoint env codepoint then
      let st :=
        match run with
        | some r => ttf_draw_string_raw_ttf env st.1 r st.2
        | none => st
      ttfRuns env rest none (ttf_draw_character_sprite env st.1 codepoint st.2)
    else
      match run with
      | some r => ttfRuns env rest (some (r ++ utf8_write_codepoint codepoint)) st
      | none => ttfRuns env rest (some (utf8_write_codepoint codepoint)) st

/-- The function `ttf_process_string_literal`. -/
def ttf_process_string_literal (env : Env) (dpi : rct_drawpixelinfo) (text : List Nat)
    (info : text_draw_info) : rct_drawpixelinfo × text_draw_info :=
  let isTTF := hasFlag info.flags TEXT_DRAW_FLAG_TTF
  if !isTTF then ttf_draw_string_raw_sprite env dpi text info
  else ttfRuns env (CodepointView text) none (dpi, info)

/-- The function `ttf_process_string_codepoint`: the codepoint is written to a
zeroed `char[8]`, which is then read as a C string. -/
def ttf_process_string_codepoint (env : Env) (dpi : rct_drawpixelinfo) (codepoint : Nat)
    (info : text_draw_info) : rct_drawpixelinfo × text_draw_info :=
  ttf_process_string_literal env dpi (cstr (utf8_write_codepoint codepoint)) info

/-- The two statements `info->maxX = max(...)`, `info->maxY = max(...)`. -/
def updateMax (info : text_draw_info) : text_draw_info :=
  { info with maxX := max info.maxX info.x, maxY := max info.maxY info.y }

/-- One iteration of the token loop of `ttf_process_string`. -/
def ttf_process_token (env : Env) (st : rct_drawpixelinfo × text_draw_info) (tok : token) :
    rct_drawpixelinfo × text_draw_info :=
  let r :=
    if tok.IsLiteral then ttf_process_string_literal env st.1 tok.text st.2
    else if tok.IsCodepoint then ttf_process_string_codepoint env st.1 tok.GetCodepoint st.2
    else ttf_process_format_code env st.1 tok st.2
  (r.1, updateMax r.2)

/-- The function `ttf_process_string`. -/
def ttf_process_string (env : Env) (dpi : rct_drawpixelinfo) (text : List Nat)
    (info : text_draw_info) : rct_drawpixelinfo × text_draw_info :=
  if hasFlag info.flags TEXT_DRAW_FLAG_NO_FORMATTING then
    let r := ttf_process_string_literal env dpi text info
    (r.1, updateMax r.2)
  else
    (FmtString env text).foldl (ttf_process_token env) (dpi, info)

/-- The null `dpi` that measurement passes down; it is never used in no-draw mode. -/
def nullDpi : rct_drawpixelinfo := ⟨0, 0, 0, 0, 0, []⟩

/-- The draw state that `ttf_get_string_width` starts from.  The fields the source
leaves uninitialised (`palette`, `y_offset`) are empty. -/
def measureInfo (env : Env) (fontStyle : FontStyle) (noFormatting : Bool) : text_draw_info :=
  let flags := 0 ||| TEXT_DRAW_FLAG_NO_DRAW
  let flags := if env.UseTrueTypeFont then flags ||| TEXT_DRAW_FLAG_TTF else flags
  let flags := if noFormatting then flags ||| TEXT_DRAW_FLAG_NO_FORMATTING else flags
  { startX := 0, startY := 0, x := 0, y := 0, maxX := 0, maxY := 0, flags := flags,
    palette := [], FontStyle := fontStyle, y_offset := [] }

/-- The function `ttf_get_string_width`. -/
def ttf_get_string_width (env : Env) (text : List Nat) (fontStyle : FontStyle)
    (noFormatting : Bool) : Int :=
  (ttf_process_string env nullDpi text (measureInfo env fontStyle noFormatting)).2.maxX

/-- The function `GfxGetStringWidth`. -/
def GfxGetStringWidth (env : Env) (text : List Nat) (fontStyle : FontStyle) : Int :=
  ttf_get_string_width env text fontStyle false

/-- The function `GfxGetStringWidthNoFormatting`. -/
def GfxGetStringWidthNoFormatting (env : Env) (text : List Nat) (fontStyle : FontStyle) : Int :=
  ttf_get_string_width env text fontStyle true

/-! ## GfxClipString -/

/-- The call `buffer.resize(n)` of `std::string`: cut to `n` cells, or pad with NUL. -/
def resize (buffer : List Nat) (n : Nat) : List Nat :=
  buffer.take n ++ List.replicate (n - buffer.length) 0

/-- The loop that puts the ellipsis back: `for (i = bestLength - 1; i >= 0 && i >=
bestLength - 3; i--) buffer[i] = 46`.  The loop runs at most three times, which is
the fuel given by `GfxClipString`. -/
def putEllipsis (bestLength : Nat) : Nat → Int → List Nat → List Nat
  | 0, _, buffer => buffer
  | fuel + 1, i, buffer =>
    if 0 ≤ i ∧ (bestLength : Int) - 3 ≤ i then
      putEllipsis bestLength fuel (i - 1) (buffer.set i.toNat 46)
    else buffer

/-- The local variables of the loop of `GfxClipString`. -/
structure ClipState where
  buffer : List Nat
  bestLength : Nat
  bestWidth : Int
  deriving DecidableEq, Repr

/-- The codepoint loop of `GfxClipString`, over the codepoints of all tokens in
order.  The result is `some (text, width)` when the loop returns from inside (the
clipped text copied back by `strcpy` and the returned width), `none` when the loop
runs to its end. -/
def clipLoop (env : Env) (width : Int) (fontStyle : FontStyle) :
    List Nat → ClipState → Option (List Nat × Int)
  | [], _ => none
  | codepoint :: rest, s =>
    -- Add the ellipsis before checking the width
    let buffer := s.buffer ++ ellipsis
    let currentWidth := GfxGetStringWidth env buffer fontStyle
    if currentWidth < width then
      let bestLength := buffer.length
      let bestWidth := currentWidth
      -- Trim the ellipsis
      let buffer := resize buffer (bestLength - 3)
      clipLoop env width fontStyle rest
        ⟨buffer ++ cstr (utf8_write_codepoint codepoint), bestLength, bestWidth⟩
    else
      -- Width exceeded, rollback to best length and put ellipsis back
      let buffer := resize buffer s.bestLength
      let buffer := putEllipsis s.bestLength 3 ((s.bestLength : Int) - 1) buffer
      some (cstr buffer, s.bestWidth)

/-- The codepoints visited by the nested loops `for token in fmt`, `for codepoint in
CodepointView(token.text)`. -/
def tokenCodepoints (env : Env) (text : List Nat) : List Nat :=
  (FmtString env text).flatMap (fun tok => CodepointView tok.text)

/-- The function `GfxClipString`.  The result is the C string left in `text` and the
returned width. -/
def GfxClipString (env : Env) (text : List Nat) (width : Int) (fontStyle : FontStyle) :
    List Nat × Int :=
  if width < 6 then ([], 0)
  else
    -- If width of the full string is less than allowed width then we don't need to clip
    let clippedWidth := GfxGetStringWidth env (cstr text) fontStyle
    if clippedWidth ≤ width then (text, clippedWidth)
    else
      match clipLoop env width fontStyle (tokenCodepoints env (cstr text)) ⟨[], 0, 0⟩ with
      | some r => r
      | none => (text, GfxGetStringWidth env (cstr text) fontStyle)

/-! ## GfxWrapString -/

/-- The local variables of `GfxWrapString`.  An index equal to `NULL_INDEX` is
`none`. -/
structure WrapState where
  buffer : List Nat
  currentLineIndex : Nat
  splitIndex : Option Nat
  bestSplitIndex : Option Nat
  numLines : Nat
  maxWidth : Int
  deriving DecidableEq, Repr

/-- The call `buffer.insert(buffer.begin() + i, 0)`. -/
def insertNul (buffer : List Nat) (i : Nat) : List Nat :=
  buffer.take i ++ 0 :: buffer.drop i

/-- The loop `while (buffer[i] == 32) buffer.erase(buffer.begin() + i)`. -/
def trimAt (buffer : List Nat) (i : Nat) : List Nat :=
  buffer.take i ++ (buffer.drop i).dropWhile (fun c => c == 32)

/-- The measurement `GfxGetStringWidth(&buffer[currentLineIndex], fontStyle)`: the C
string that starts at `currentLineIndex`. -/
def lineWidthAt (env : Env) (fontStyle : FontStyle) (buffer : List Nat) (i : Nat) : Int :=
  GfxGetStringWidth env (cstr (buffer.drop i)) fontStyle

/-- The body of the codepoint loop of `GfxWrapString`. -/
def wrapCodepoint (env : Env) (width : Int) (fontStyle : FontStyle) (s : WrapState)
    (codepoint : Nat) : WrapState :=
  let buffer := s.buffer ++ cstr (utf8_write_codepoint codepoint)
  let lineWidth := lineWidthAt env fontStyle buffer s.currentLineIndex
  if lineWidth ≤ width ∨ (s.splitIndex = none ∧ s.bestSplitIndex = none) then
    if codepoint = 32 then
      -- Mark line split here
      { s with buffer := buffer, splitIndex := some (buffer.length - 1) }
    else if s.splitIndex = none then
      -- Mark line split here (this is after first character of line)
      { s with buffer := buffer, bestSplitIndex := some buffer.length }
    else { s with buffer := buffer }
  else
    -- Insert new line before current word
    let splitIndex : Nat :=
      match s.splitIndex with
      | some i => i
      | none => s.bestSplitIndex.getD 0
    let buffer := insertNul buffer splitIndex
    -- Recalculate the line length after splitting
    let lineWidth := lineWidthAt env fontStyle buffer s.currentLineIndex
    let maxWidth := max s.maxWidth lineWidth
    let numLines := s.numLines + 1
    let currentLineIndex := splitIndex + 1
    -- Trim the beginning of the new line
    let buffer := trimAt buffer currentLineIndex
    { buffer := buffer, currentLineIndex := currentLineIndex, splitIndex := none,
      bestSplitIndex := none, numLines := numLines, maxWidth := maxWidth }

/-- The body of the token loop of `GfxWrapString`. -/
def wrapToken (env : Env) (width : Int) (fontStyle : FontStyle) (s : WrapState)
    (tok : token) : WrapState :=
  if tok.IsLiteral then
    (CodepointView tok.text).foldl (wrapCodepoint env width fontStyle) s
  else if tok.kind = FormatToken.Newline then
    let buffer := s.buffer ++ [0]
    let lineWidth := lineWidthAt env fontStyle buffer s.currentLineIndex
    { buffer := buffer, currentLineIndex := buffer.length, splitIndex := none,
      bestSplitIndex := none, numLines := s.numLines + 1,
      maxWidth := max s.maxWidth lineWidth }
  else
    { s with buffer := s.buffer ++ tok.text }

/-- The result of `GfxWrapString`: the cells copied back to `text` (their final
terminator left out), the value stored in `outNumLines`, and the returned width. -/
structure WrapResult where
  text : List Nat
  outNumLines : Nat
  width : Int
  deriving DecidableEq, Repr

/-- The state of `GfxWrapString` after its token loop. -/
def wrapLoop (env : Env) (text : List Nat) (width : Int) (fontStyle : FontStyle) : WrapState :=
  (FmtString env (cstr text)).foldl (wrapToken env width fontStyle) ⟨[], 0, none, none, 0, 0⟩

/-- The function `GfxWrapString`. -/
def GfxWrapString (env : Env) (text : List Nat) (width : Int) (fontStyle : FontStyle) :
    WrapResult :=
  let s := wrapLoop env text width fontStyle
  -- Final line width calculation
  let lineWidth := lineWidthAt env fontStyle s.buffer s.currentLineIndex
  let maxWidth := max s.maxWidth lineWidth
  ⟨s.buffer, s.numLines, maxWidth⟩

/-! ## A concrete environment -/

/-- A sprite font in which a full stop is 3 pixels wide, a capital W 11 pixels, and
every other glyph 5 pixels. -/
def demoWidth (_ : FontStyle) (codepoint : Nat) : Int :=
  if codepoint = 46 then 3 else if codepoint = 87 then 11 else 5

/-- A control-code table with two codes: cell 1 is `Newline`, cell 2 is
`NewlineSmall`. -/
def demoCode (c : Nat) : Option (FormatToken × Int) :=
  if c = 1 then some (FormatToken.Newline, 0)
  else if c = 2 then some (FormatToken.NewlineSmall, 0)
  else none

/-- An environment with the sprite font `demoWidth`, the control codes `demoCode`,
the outline font switched off, and empty image and colour tables. -/
def demoEnv : Env where
  formatCode := demoCode
  font_sprite_get_codepoint_width := demoWidth
  font_get_line_height := fun _ => 10
  font_get_line_height_small := fun _ => 5
  UseTrueTypeFont := false
  ttf_initialise := false
  ttf_get_font_from_sprite_base := fun _ => ⟨none, 0, 0, 0⟩
  ttf_getwidth_cache_get_or_add := fun _ _ => 0
  ttf_surface_cache_get_or_add := fun _ _ => none
  DrawingEngineOpenGL := false
  GfxGetG1Element := fun _ => none
  ImageIdGetIndex := fun p => p.toNat
  SPR_TEXT_PALETTE := 0
  ColourMapA := fun _ => ⟨0, 0, 0, 0, 0, 0⟩
  NOT_TRANSLUCENT := fun c => c &&& 0x7F
  gCurrentWindowColours := fun _ => 0
  UnicodeChar := ⟨0x25B2, 0x25BC, 0xAB, 0x2713, 0x274C, 0x25B6, 0xBB, 0x25B4, 0x25BE, 0x25C0,
    0x201C, 0x201D, 0x201E, 0x2B, 0x2D, 0xFE0F, 0x1F441, 0x1F6E3, 0x1F6E4⟩

/-- The lines of a wrapped buffer: the cells between consecutive NUL break markers,
the last line running to the end of the buffer. -/
def wrappedLines : List Nat → List (List Nat)
  | [] => [[]]
  | c :: rest =>
    if c = 0 then [] :: wrappedLines rest
    else
      match wrappedLines rest with
      | l :: ls => (c :: l) :: ls
      | [] => [[c]]

/-- The buffer made of the given lines, each followed by a NUL break marker. -/
def joinLines (lines : List (List Nat)) : List Nat :=
  lines.flatMap (fun l => l ++ [0])

/-- The running maximum `maxWidth = std::max(maxWidth, lineWidth)` over the given
lines, starting from 0. -/
def maxWidths (env : Env) (fontStyle : FontStyle) (lines : List (List Nat)) : Int :=
  lines.foldl (fun m l => max m (GfxGetStringWidth env l fontStyle)) 0

/-- Loop invariant of `GfxWrapString`: the buffer consists of the finished `lines`,
each closed by a NUL, followed by the line in progress `cur`. -/
structure WrapInv (env : Env) (fontStyle : FontStyle) (lines : List (List Nat))
    (cur : List Nat) (s : WrapState) : Prop where
  buffer : s.buffer = joinLines lines ++ cur
  index : s.currentLineIndex = (joinLines lines).length
  count : s.numLines = lines.length
  width : s.maxWidth = maxWidths env fontStyle lines
  lines_nz : ∀ l ∈ lines, ∀ c ∈ l, c ≠ 0
  cur_nz : ∀ c ∈ cur, c ≠ 0
  split : ∀ i, s.splitIndex = some i → s.currentLineIndex ≤ i ∧ i ≤ s.buffer.length
  best : ∀ i, s.bestSplitIndex = some i → s.currentLineIndex ≤ i ∧ i ≤ s.buffer.length

/-- The token that a single cell makes on its own. -/
def cellToken (env : Env) (c : Nat) : token :=
  match controlCode env c with
  | some (k, p) => ⟨k, [c], p⟩
  | none => ⟨FormatToken.Literal, [c], 0⟩

/-- The draw state measures with the sprite font: the no-draw flag is set and the
outline-font flag is clear. -/
def SpriteMeasure (info : text_draw_info) : Prop :=
  hasFlag info.flags TEXT_DRAW_FLAG_NO_DRAW = true ∧
    hasFlag info.flags TEXT_DRAW_FLAG_TTF = false

/-- The sum of the sprite glyph widths of the cells of a literal run. -/
def glyphSum (env : Env) (fontStyle : FontStyle) (text : List Nat) : Int :=
  (text.map (env.font_sprite_get_codepoint_width fontStyle)).sum

/-- No cell of the buffer is a `Newline` control cell. -/
def NoNewlineCell (env : Env) (buffer : List Nat) : Prop :=
  ∀ c ∈ buffer, c ≠ 0 → ∀ p, controlCode env c ≠ some (FormatToken.Newline, p)

/-! ## GfxGetStringWidthNewLined -/

/-- The local variables of `GfxGetStringWidthNewLined`; `maxWidth` is the
`std::optional<int32_t>`. -/
structure NewLinedState where
  buffer : List Nat
  maxWidth : Option Int
  deriving DecidableEq, Repr

/-- The body of the token loop of `GfxGetStringWidthNewLined`. -/
def newLinedToken (env : Env) (fontStyle : FontStyle) (s : NewLinedState) (tok : token) :
    NewLinedState :=
  if tok.kind = FormatToken.Newline ∨ tok.kind = FormatToken.NewlineSmall then
    let width := GfxGetStringWidth env s.buffer fontStyle
    let maxWidth : Option Int :=
      match s.maxWidth with
      | none => some width
      | some m => if m > width then some width else some m
    ⟨[], maxWidth⟩
  else
    ⟨s.buffer ++ tok.text, s.maxWidth⟩

/-- The function `GfxGetStringWidthNewLined`. -/
def GfxGetStringWidthNewLined (env : Env) (text : List Nat) (fontStyle : FontStyle) : Int :=
  let s := (FmtString env text).foldl (newLinedToken env fontStyle) ⟨[], none⟩
  match s.maxWidth with
  | none => GfxGetStringWidth env s.buffer fontStyle
  | some m => m

/-- The segments of a token sequence delimited by the tokens that `isBreak` selects:
the concatenated texts of the tokens between two consecutive breaks, the last segment
running to the end of the sequence. -/
def segments (isBreak : token → Bool) : List token → List (List Nat)
  | [] => [[]]
  | tok :: rest =>
    if isBreak tok then [] :: segments isBreak rest
    else
      match segments isBreak rest with
      | s :: ss => (tok.text ++ s) :: ss
      | [] => [tok.text]

/-- The test `kind == Newline || kind == NewlineSmall`. -/
def isNewlineToken (tok : token) : Bool :=
  decide (tok.kind = FormatToken.Newline ∨ tok.kind = FormatToken.NewlineSmall)

/-- The test `kind == Newline`. -/
def isNewline (tok : token) : Bool :=
  decide (tok.kind = FormatToken.Newline)

/-- The update `if (!maxWidth.has_value() || maxWidth.value() > width) maxWidth = width`
run over a list of widths. -/
def keepSmaller (m : Option Int) (widths : List Int) : Option Int :=
  widths.foldl
    (fun m width =>
      match m with
      | none => some width
      | some v => if v > width then some width else some v) m

/-- The segment list with `buf` put in front of its first segment. -/
def addHead (buf : List Nat) : List (List Nat) → List (List Nat)
  | [] => [buf]
  | s :: ss => (buf ++ s) :: ss

/-- The width list with `x` added to its first entry. -/
def addFirst (x : Int) : List Int → List Int
  | [] => [x]
  | a :: l => (x + a) :: l

/-- The largest entry of a list of widths, 0 for the empty list. -/
def listMax (widths : List Int) : Int :=
  widths.foldr max 0

/-! ## The cursor advance in no-draw mode -/

/-- The draw state without the contents of the two fields that `ttf_get_string_width`
leaves uninitialised. -/
def eraseLocals (info : text_draw_info) : text_draw_info :=
  { info with palette := [], y_offset := [] }

/-- The advance of the cursor by `ttf_draw_string_raw_ttf` in no-draw mode: nothing
when the outline font engine is not initialised, the sprite glyph widths when the
style has no outline font, the cached width of the run otherwise. -/
def ttfAdvance (env : Env) (fontStyle : FontStyle) (text : List Nat) : Int :=
  if !env.ttf_initialise then 0
  else
    match (env.ttf_get_font_from_sprite_base fontStyle).font with
    | none => glyphSum env fontStyle text
    | some font => env.ttf_getwidth_cache_get_or_add font text

/-- The advance of the cursor by the loop `ttfRuns` in no-draw mode. -/
def runsAdvance (env : Env) (fontStyle : FontStyle) : List Nat → Option (List Nat) → Int
  | [], none => 0
  | [], some r => ttfAdvance env fontStyle r
  | codepoint :: rest, run =>
    if ShouldUseSpriteForCodepoint env codepoint then
      (match run with
        | some r => ttfAdvance env fontStyle r
        | none => 0)
        + env.font_sprite_get_codepoint_width fontStyle codepoint
        + runsAdvance env fontStyle rest none
    else
      match run with
      | some r => runsAdvance env fontStyle rest (some (r ++ utf8_write_codepoint codepoint))
      | none => runsAdvance env fontStyle rest (some (utf8_write_codepoint codepoint))

/-- The advance of the cursor by `ttf_process_string_literal` in no-draw mode. -/
def literalAdvance (env : Env) (fontStyle : FontStyle) (flags : Nat) (text : List Nat) : Int :=
  if !(hasFlag flags TEXT_DRAW_FLAG_TTF) then glyphSum env fontStyle text
  else runsAdvance env fontStyle (CodepointView text) none

/-! ## RCTObjectEntry -/

/-- The scoped enumeration `ObjectType : uint8_t`, a named 8-bit value. -/
structure ObjectType where
  value : Nat
  deriving DecidableEq, Repr

def ObjectType.Ride : ObjectType := ⟨0⟩
def ObjectType.SmallScenery : ObjectType := ⟨1⟩
def ObjectType.LargeScenery : ObjectType := ⟨2⟩
def ObjectType.Walls : ObjectType := ⟨3⟩
def ObjectType.Banners : ObjectType := ⟨4⟩
def ObjectType.Paths : ObjectType := ⟨5⟩
def ObjectType.PathBits : ObjectType := ⟨6⟩
def ObjectType.SceneryGroup : ObjectType := ⟨7⟩
def ObjectType.ParkEntrance : ObjectType := ⟨8⟩
def ObjectType.Water : ObjectType := ⟨9⟩
def ObjectType.ScenarioText : ObjectType := ⟨10⟩
def ObjectType.TerrainSurface : ObjectType := ⟨11⟩
def ObjectType.TerrainEdge : ObjectType := ⟨12⟩
def ObjectType.Station : ObjectType := ⟨13⟩
def ObjectType.Music : ObjectType := ⟨14⟩
def ObjectType.FootpathSurface : ObjectType := ⟨15⟩
def ObjectType.FootpathRailings : ObjectType := ⟨16⟩
def ObjectType.Audio : ObjectType := ⟨17⟩
def ObjectType.Count : ObjectType := ⟨18⟩
def ObjectType.None : ObjectType := ⟨255⟩

/-- The array `ObjectTypes` of all defined object types. -/
def ObjectTypes : List ObjectType :=
  [ObjectType.Ride, ObjectType.SmallScenery, ObjectType.LargeScenery, ObjectType.Walls,
    ObjectType.Banners, ObjectType.Paths, ObjectType.PathBits, ObjectType.SceneryGroup,
    ObjectType.ParkEntrance, ObjectType.Water, ObjectType.ScenarioText,
    ObjectType.TerrainSurface, ObjectType.TerrainEdge, ObjectType.Station, ObjectType.Music,
    ObjectType.FootpathSurface, ObjectType.FootpathRailings, ObjectType.Audio]

/-- The struct `RCTObjectEntry`: the 32-bit `flags`, the 8 bytes of `name` and the
32-bit `checksum`. -/
structure RCTObjectEntry where
  flags : Nat
  name : List Nat
  checksum : Nat
  deriving DecidableEq, Repr

/-- The member `RCTObjectEntry::GetType`. -/
def RCTObjectEntry.GetType (e : RCTObjectEntry) : ObjectType :=
  ⟨e.flags &&& 0x0F⟩

/-- The member `RCTObjectEntry::SetType`: `flags &= ~0x0F` on the 32-bit pattern, then
`flags |= (static_cast<uint8_t>(newType) & 0x0F)`. -/
def RCTObjectEntry.SetType (e : RCTObjectEntry) (newType : ObjectType) : RCTObjectEntry :=
  let flags := e.flags &&& (0xFFFFFFFF ^^^ 0x0F)
  let flags := flags ||| ((newType.value % 256) &&& 0x0F)
  { e with flags := flags }

/-- The member `RCTObjectEntry::GetSourceGame`, as the 8-bit value of the enumeration
`ObjectSourceGame`. -/
def RCTObjectEntry.GetSourceGame (e : RCTObjectEntry) : Nat :=
  (e.flags &&& 0xF0) >>> 4

/-! ## More concrete environments -/

/-- The environment `demoEnv` with a sprite font in which every glyph is 5 pixels
wide. -/
def fivePxEnv : Env :=
  { demoEnv with font_sprite_get_codepoint_width := fun _ _ => 5 }

/-- The environment `demoEnv` with the outline font switched on: one font handle for
every style, a run of `n` cells measuring `10 * n` pixels, and a cached surface of
that width and 12 pixels height for every run. -/
def ttfDemoEnv : Env :=
  { demoEnv with
    UseTrueTypeFont := true
    ttf_initialise := true
    ttf_get_font_from_sprite_base := fun _ => ⟨some 1, 0, 0, 0⟩
    ttf_getwidth_cache_get_or_add := fun _ text => 10 * (text.length : Int)
    ttf_surface_cache_get_or_add := fun _ text =>
      some ⟨10 * (text.length : Int), 12, 10 * (text.length : Int)⟩ }

/-- The environment `demoEnv` with three images: image 1 is 10 wide and 40 high,
image 2 is 10 by 10, image 3 is 40 wide and 10 high. -/
def spriteDemoEnv : Env :=
  { demoEnv with
    GfxGetG1Element := fun i =>
      if i = 1 then some ⟨10, 40, []⟩
      else if i = 2 then some ⟨10, 10, []⟩
      else if i = 3 then some ⟨40, 10, []⟩
      else none }

/-- A draw state at the origin with the given flags, an all-zero palette and the
medium font. -/
def originInfo (flags : Nat) : text_draw_info :=
  { startX := 0, startY := 0, x := 0, y := 0, maxX := 0, maxY := 0, flags := flags,
    palette := [0, 0, 0, 0, 0, 0, 0, 0], FontStyle := FontStyle.Medium, y_offset := [] }

/-! ## The initial colour and the draw entry points -/

/-- The colour constants that `ttf_process_initial_colour` reads.  Their declarations
are not part of the translated file, so their values are parameters. -/
structure ColourConstants where
  TEXT_COLOUR_254 : Nat
  TEXT_COLOUR_255 : Nat
  COLOUR_FLAG_OUTLINE : Nat
  COLOUR_FLAG_INSET : Nat
  deriving DecidableEq, Repr

/-- The function `ttf_process_initial_colour`; `colour` is the 32-bit pattern of the
`int32_t` argument. -/
def ttf_process_initial_colour (env : Env) (k : ColourConstants) (colour : Nat)
    (info : text_draw_info) : text_draw_info :=
  if colour ≠ k.TEXT_COLOUR_254 ∧ colour ≠ k.TEXT_COLOUR_255 then
    let info : text_draw_info :=
      { info with
        flags := clearFlag info.flags (TEXT_DRAW_FLAG_INSET ||| TEXT_DRAW_FLAG_OUTLINE) }
    let info : text_draw_info :=
      if hasFlag colour k.COLOUR_FLAG_OUTLINE then
        { info with flags := info.flags ||| TEXT_DRAW_FLAG_OUTLINE }
      else info
    let colour := clearFlag colour k.COLOUR_FLAG_OUTLINE
    if !(hasFlag colour k.COLOUR_FLAG_INSET) then
      if !(hasFlag info.flags TEXT_DRAW_FLAG_INSET) then
        let palette := colour_char_window env (colour % 256) (info.flags % 65536) info.palette
        { info with palette := palette }
      else info
    else
      let info : text_draw_info := { info with flags := info.flags ||| TEXT_DRAW_FLAG_INSET }
      let colour := clearFlag colour k.COLOUR_FLAG_INSET
      let eax : Nat :=
        if hasFlag info.flags TEXT_DRAW_FLAG_DARK then
          if hasFlag info.flags TEXT_DRAW_FLAG_EXTRA_DARK then
            ((env.ColourMapA colour).mid_light <<< 16) ||| (env.ColourMapA colour).dark
          else
            ((env.ColourMapA colour).light <<< 16) ||| (env.ColourMapA colour).mid_dark
        else
          ((env.ColourMapA colour).lighter <<< 16) ||| (env.ColourMapA colour).mid_light
      -- Adjust text palette. Store current colour? ;
      let palette := setPalette info.palette eax
      { info with palette := palette }
  else info

/-- The enumeration `TextDarkness`: the two values the drawing code tests for, and the
value that is neither. -/
inductive TextDarkness
  | Regular
  | Dark
  | ExtraDark
  deriving DecidableEq, Repr

/-- The call `std::memcpy(dst, src, sizeof(info.palette))`: the first 8 cells of `src`
over the first 8 cells of `dst`. -/
def copyPalette (dst src : List Nat) : List Nat :=
  src.take 8 ++ dst.drop 8

/-- What a draw call works on besides its arguments: the destination `dpi`, its field
`lastStringPos`, and the process-wide `gTextPalette`. -/
structure DrawContext where
  dpi : rct_drawpixelinfo
  lastStringPos : Int × Int
  gTextPalette : List Nat
  deriving DecidableEq, Repr

/-- The draw state that `TtfDrawString` sets up before it processes the text.  The
local `text_draw_info` starts with whatever `uninit` holds; the fields assigned by the
source are overwritten. -/
def TtfDrawStringInfo (env : Env) (k : ColourConstants) (gTextPalette : List Nat)
    (colour : Nat) (coords : Int × Int) (noFormatting : Bool) (fontStyle : FontStyle)
    (darkness : TextDarkness) (uninit : text_draw_info) : text_draw_info :=
  let flags := 0
  let flags := if env.UseTrueTypeFont then flags ||| TEXT_DRAW_FLAG_TTF else flags
  let flags := if noFormatting then flags ||| TEXT_DRAW_FLAG_NO_FORMATTING else flags
  let flags :=
    if darkness = TextDarkness.Dark then flags ||| TEXT_DRAW_FLAG_DARK
    else if darkness = TextDarkness.ExtraDark then
      flags ||| (TEXT_DRAW_FLAG_DARK ||| TEXT_DRAW_FLAG_EXTRA_DARK)
    else flags
  let palette := copyPalette uninit.palette gTextPalette
  let info : text_draw_info :=
    { uninit with
      FontStyle := fontStyle, flags := flags, startX := coords.1, startY := coords.2,
      x := coords.1, y := coords.2, palette := palette }
  ttf_process_initial_colour env k colour info

/-- The destination and the draw state of `TtfDrawString` after `ttf_process_string`;
`text` is the C string behind the non-null pointer. -/
def TtfDrawStringState (env : Env) (k : ColourConstants) (ctx : DrawContext)
    (text : List Nat) (colour : Nat) (coords : Int × Int) (noFormatting : Bool)
    (fontStyle : FontStyle) (darkness : TextDarkness) (uninit : text_draw_info) :
    rct_drawpixelinfo × text_draw_info :=
  ttf_process_string env ctx.dpi (cstr text)
    (TtfDrawStringInfo env k ctx.gTextPalette colour coords noFormatting fontStyle darkness
      uninit)

/-- The function `TtfDrawString`; `text` is `none` for a null pointer. -/
def TtfDrawString (env : Env) (k : ColourConstants) (ctx : DrawContext)
    (text : Option (List Nat)) (colour : Nat) (coords : Int × Int) (noFormatting : Bool)
    (fontStyle : FontStyle) (darkness : TextDarkness) (uninit : text_draw_info) :
    DrawContext :=
  match text with
  | none => ctx
  | some text =>
    let r := TtfDrawStringState env k ctx text colour coords noFormatting fontStyle darkness
      uninit
    ⟨r.1, (r.2.x, r.2.y), copyPalette ctx.gTextPalette r.2.palette⟩

/-- The draw state that `GfxDrawStringWithYOffsets` sets up before it processes the
text. -/
def GfxDrawStringWithYOffsetsInfo (env : Env) (k : ColourConstants)
    (gTextPalette : List Nat) (colour : Nat) (coords : Int × Int) (yOffsets : List Int)
    (forceSpriteFont : Bool) (fontStyle : FontStyle) (uninit : text_draw_info) :
    text_draw_info :=
  let flags := 0
  let flags := flags ||| TEXT_DRAW_FLAG_Y_OFFSET_EFFECT
  let flags :=
    if !forceSpriteFont && env.UseTrueTypeFont then flags ||| TEXT_DRAW_FLAG_TTF else flags
  let palette := copyPalette uninit.palette gTextPalette
  let info : text_draw_info :=
    { uninit with
      FontStyle := fontStyle, flags := flags, startX := coords.1, startY := coords.2,
      x := coords.1, y := coords.2, y_offset := yOffsets, palette := palette }
  ttf_process_initial_colour env k colour info

/-- The destination and the draw state of `GfxDrawStringWithYOffsets` after
`ttf_process_string`. -/
def GfxDrawStringWithYOffsetsState (env : Env) (k : ColourConstants) (ctx : DrawContext)
    (text : List Nat) (colour : Nat) (coords : Int × Int) (yOffsets : List Int)
    (forceSpriteFont : Bool) (fontStyle : FontStyle) (uninit : text_draw_info) :
    rct_drawpixelinfo × text_draw_info :=
  ttf_process_string env ctx.dpi (cstr text)
    (GfxDrawStringWithYOffsetsInfo env k ctx.gTextPalette colour coords yOffsets
      forceSpriteFont fontStyle uninit)

/-- The function `GfxDrawStringWithYOffsets`. -/
def GfxDrawStringWithYOffsets (env : Env) (k : ColourConstants) (ctx : DrawContext)
    (text : List Nat) (colour : Nat) (coords : Int × Int) (yOffsets : List Int)
    (forceSpriteFont : Bool) (fontStyle : FontStyle) (uninit : text_draw_info) :
    DrawContext :=
  let r := GfxDrawStringWithYOffsetsState env k ctx text colour coords yOffsets
    forceSpriteFont fontStyle uninit
  ⟨r.1, (r.2.x, r.2.y), copyPalette ctx.gTextPalette r.2.palette⟩

/-- The entries of a palette that the text code never stores to: entry 0, the entries
from 5 on, and the number of entries. -/
def paletteFrame (palette : List Nat) : List Nat × List Nat × Nat :=
  (palette.take 1, palette.drop 5, palette.length)

/-! ## The pieces of a literal in outline-font mode -/

/-- A piece of a literal as `ttf_process_string_literal` renders it: one codepoint
through the sprite-glyph path, or a run of codepoints through the outline-font path. -/
inductive LiteralPiece
  | sprite (codepoint : Nat)
  | outline (run : List Nat)
  deriving DecidableEq, Repr

/-- The cells that a piece covers. -/
def LiteralPiece.cells : LiteralPiece → List Nat
  | LiteralPiece.sprite c => utf8_write_codepoint c
  | LiteralPiece.outline r => r

/-- Whether a piece goes through the outline-font path. -/
def LiteralPiece.isOutline : LiteralPiece → Bool
  | LiteralPiece.sprite _ => false
  | LiteralPiece.outline _ => true

/-- The piece list with the run `r` put in front: joined to a leading outline piece,
a piece of its own otherwise. -/
def addRun (r : List Nat) : List LiteralPiece → List LiteralPiece
  | LiteralPiece.outline r2 :: ps => LiteralPiece.outline (r ++ r2) :: ps
  | ps => LiteralPiece.outline r :: ps

/-- The partition of a literal that the claim describes: each allow-listed codepoint
(`ShouldUseSpriteForCodepoint`) a sprite piece of its own, each maximal run of other
codepoints one outline piece. -/
def literalPieces (env : Env) : List Nat → List LiteralPiece
  | [] => []
  | c :: rest =>
    if ShouldUseSpriteForCodepoint env c then LiteralPiece.sprite c :: literalPieces env rest
    else addRun (utf8_write_codepoint c) (literalPieces env rest)

/-- The call that renders one piece: `ttf_draw_character_sprite` for a sprite piece,
`ttf_draw_string_raw_ttf` for an outline piece. -/
def renderPiece (env : Env) (st : rct_drawpixelinfo × text_draw_info) :
    LiteralPiece → rct_drawpixelinfo × text_draw_info
  | LiteralPiece.sprite c => ttf_draw_character_sprite env st.1 c st.2
  | LiteralPiece.outline r => ttf_draw_string_raw_ttf env st.1 r st.2

/-- A piece is well formed: a sprite piece holds an allow-listed codepoint, an outline
piece is a non-empty run without allow-listed codepoints. -/
def LiteralPiece.wellFormed (env : Env) : LiteralPiece → Prop
  | LiteralPiece.sprite c => ShouldUseSpriteForCodepoint env c = true
  | LiteralPiece.outline r => r ≠ [] ∧ ∀ c ∈ r, ShouldUseSpriteForCodepoint env c = false

/-- No two outline pieces are neighbours: every outline run is maximal. -/
def runsMaximal : List LiteralPiece → Prop
  | [] => True
  | [_] => True
  | p :: q :: ps => ¬ (p.isOutline = true ∧ q.isOutline = true) ∧ runsMaximal (q :: ps)

/-! ## Concrete colour constants and draw contexts -/

/-- Colour constants with the outline flag in bit 5 and the inset flag in bit 6. -/
def demoColours : ColourConstants := ⟨254, 255, 32, 64⟩

/-- The environment `demoEnv` with a colour table of 8-bit shades: with `r = c mod 32`,
row `c` holds the shades `r + 1`, ..., `r + 5` and `colour_11 = r + 6`. -/
def shadeEnv : Env :=
  { demoEnv with
    ColourMapA := fun c =>
      ⟨c % 32 + 1, c % 32 + 2, c % 32 + 3, c % 32 + 4, c % 32 + 5, c % 32 + 6⟩ }

/-! ## StringGetHeightRaw -/

/-- The local variables of the token loop of `StringGetHeightRaw`: the running height
and the parameter `fontStyle`, which the font tokens overwrite. -/
structure HeightState where
  height : Int
  fontStyle : FontStyle
  deriving DecidableEq, Repr

/-- The body of the token loop of `StringGetHeightRaw`. -/
def heightToken (s : HeightState) (tok : token) : HeightState :=
  match tok.kind with
  | FormatToken.Newline =>
    if s.fontStyle = FontStyle.Small ∨ s.fontStyle = FontStyle.Medium then
      { s with height := s.height + 10 }
    else if s.fontStyle = FontStyle.Tiny then { s with height := s.height + 6 }
    else { s with height := s.height + 18 }
  | FormatToken.NewlineSmall =>
    if s.fontStyle = FontStyle.Small ∨ s.fontStyle = FontStyle.Medium then
      { s with height := s.height + 5 }
    else if s.fontStyle = FontStyle.Tiny then { s with height := s.height + 3 }
    else { s with height := s.height + 9 }
  | FormatToken.FontTiny => { s with fontStyle := FontStyle.Tiny }
  | FormatToken.FontMedium => { s with fontStyle := FontStyle.Medium }
  | FormatToken.FontSmall => { s with fontStyle := FontStyle.Small }
  | _ => s

/-- The function `StringGetHeightRaw`.  The declaration of the enumeration `FontStyle`
is not part of the translated file; `styleValue` gives the integer value of each
style, which the comparison `fontStyle <= FontStyle::Medium` reads. -/
def StringGetHeightRaw (env : Env) (styleValue : FontStyle → Nat) (text : List Nat)
    (fontStyle : FontStyle) : Int :=
  let height : Int := 0
  let height : Int :=
    if styleValue fontStyle ≤ styleValue FontStyle.Medium then height + 10
    else if fontStyle = FontStyle.Tiny then height + 6
    else height
  ((FmtString env text).foldl heightToken ⟨height, fontStyle⟩).height

/-- The height of a full line in a font style, in the words of the claim: 6 for `Tiny`,
10 for `Small` and `Medium`. -/
def lineHeightOf (fontStyle : FontStyle) : Int :=
  if fontStyle = FontStyle.Tiny then 6 else 10

/-- The height of a small line break in a font style, in the words of the claim: 3 for
`Tiny`, 5 for `Small` and `Medium`. -/
def smallLineHeightOf (fontStyle : FontStyle) : Int :=
  if fontStyle = FontStyle.Tiny then 3 else 5

/-- The heights added by the tokens of a text, in the words of the claim: every
`Newline` and `NewlineSmall` token adds the amount of the font style in force at that
token, after the font tokens before it. -/
def tokenHeights (fontStyle : FontStyle) : List token → Int
  | [] => 0
  | tok :: rest =>
    match tok.kind with
    | FormatToken.Newline => lineHeightOf fontStyle + tokenHeights fontStyle rest
    | FormatToken.NewlineSmall => smallLineHeightOf fontStyle + tokenHeights fontStyle rest
    | FormatToken.FontTiny => tokenHeights FontStyle.Tiny rest
    | FormatToken.FontSmall => tokenHeights FontStyle.Small rest
    | FormatToken.FontMedium => tokenHeights FontStyle.Medium rest
    | _ => tokenHeights fontStyle rest

/-- Integer values of the font styles in the order `Small`, `Medium`, `Tiny`. -/
def fontStyleValue : FontStyle → Nat
  | FontStyle.Small => 0
  | FontStyle.Medium => 1
  | FontStyle.Tiny => 2

/-! ## ShortenPath -/

/-- The test `c == *PATH_SEPARATOR || c == 47` on a byte of the path; the platform
constant `PATH_SEPARATOR` is a parameter. -/
def isSeparator (PATH_SEPARATOR : Nat) (c : Nat) : Bool :=
  c == PATH_SEPARATOR || c == 47

/-- The loop `do begin++ while (path[begin] != *PATH_SEPARATOR && path[begin] != 47)`.
The byte behind the last cell of `path` is the terminator; `fuel` bounds the number of
rounds. -/
def nextSeparator (PATH_SEPARATOR : Nat) (path : List Nat) : Nat → Int → Int
  | 0, begin => begin
  | fuel + 1, begin =>
    let begin := begin + 1
    if !(isSeparator PATH_SEPARATOR (path.getD begin.toNat 0)) then
      nextSeparator PATH_SEPARATOR path fuel begin
    else begin

/-- The loop `for (x = 0; x < path_separators; x++)` of `ShortenPath`, with the number
of rounds left; the result is the buffer when the loop returns from inside, `none` when
it runs to its end.  The buffer is large enough for every copy. -/
def abbreviateLoop (env : Env) (PATH_SEPARATOR : Nat) (path : List Nat)
    (availableWidth : Int) (fontStyle : FontStyle) : Nat → Int → Option (List Nat)
  | 0, _ => none
  | rounds + 1, begin =>
    let begin := nextSeparator PATH_SEPARATOR path (path.length + 1) begin
    let buffer := ellipsis ++ path.drop begin.toNat
    if GfxGetStringWidth env (cstr buffer) fontStyle ≤ availableWidth then some buffer
    else abbreviateLoop env PATH_SEPARATOR path availableWidth fontStyle rounds begin

/-- The function `ShortenPath` for a buffer that is large enough: the C string left in
`buffer`. -/
def ShortenPath (env : Env) (PATH_SEPARATOR : Nat) (path : List Nat) (availableWidth : Int)
    (fontStyle : FontStyle) : List Nat :=
  let path := cstr path
  -- Return full string if it fits
  if GfxGetStringWidth env path fontStyle ≤ availableWidth then path
  else
    -- Count path separators
    let path_separators := path.countP (isSeparator PATH_SEPARATOR)
    -- Abbreviate beginning with xth separator
    match abbreviateLoop env PATH_SEPARATOR path availableWidth fontStyle path_separators
        (-1) with
    | some buffer => buffer
    | none => path

/-- The suffixes of a path that start at a path separator, earliest first. -/
def separatorSuffixes (PATH_SEPARATOR : Nat) : List Nat → List (List Nat)
  | [] => []
  | c :: rest =>
    if isSeparator PATH_SEPARATOR c then
      (c :: rest) :: separatorSuffixes PATH_SEPARATOR rest
    else separatorSuffixes PATH_SEPARATOR rest

/-- The result of `ShortenPath` in the words of the claim: the path when it fits,
otherwise the ellipsis followed by the earliest separator suffix for which the
abbreviated string fits, and the path when there is none. -/
def shortenedPath (env : Env) (PATH_SEPARATOR : Nat) (path : List Nat) (availableWidth : Int)
    (fontStyle : FontStyle) : List Nat :=
  if GfxGetStringWidth env path fontStyle ≤ availableWidth then path
  else
    match (separatorSuffixes PATH_SEPARATOR path).find?
        (fun s => decide (GfxGetStringWidth env (ellipsis ++ s) fontStyle ≤ availableWidth)) with
    | some s => ellipsis ++ s
    | none => path

/-! ## The pixel loops of the outline-font path -/

/-- The state of the pixel loops of `ttf_draw_string_raw_ttf`: the offset of the
pointer `src` from `surface->pixels`, the offset of `dst` from `dpi->bits`, and the
indices read from the surface and written to the destination so far (latest last). -/
structure BlitState where
  src : Int
  dst : Int
  reads : List Int
  writes : List Int
  deriving DecidableEq, Repr

/-- The byte `*src` of the surface; a byte outside the surface reads as 0. -/
def pixelAt (pixels : List Nat) (src : Int) : Nat :=
  if src < 0 then 0 else pixels.getD src.toNat 0

/-- The body of the inner loop of the shadow/outline pass. -/
def outlinePixel (pixels : List Nat) (dpi : rct_drawpixelinfo)
    (width dstScanSkip skipX skipY yy xx : Int) (s : BlitState) : BlitState :=
  let s : BlitState := { s with reads := s.reads ++ [s.src] }
  let s : BlitState :=
    if pixelAt pixels s.src ≠ 0 then
      -- right
      let s : BlitState :=
        if xx + skipX < dpi.width + dpi.pitch - 1 then
          { s with writes := s.writes ++ [s.dst + 1] }
        else s
      -- left
      let s : BlitState :=
        if xx + skipX > 1 then { s with writes := s.writes ++ [s.dst - 1] } else s
      -- top
      let s : BlitState :=
        if yy + skipY > 1 then { s with writes := s.writes ++ [s.dst - width - dstScanSkip] }
        else s
      -- bottom
      let s : BlitState :=
        if yy + skipY < dpi.height - 1 then
          { s with writes := s.writes ++ [s.dst + width + dstScanSkip] }
        else s
      s
    else s
  { s with src := s.src + 1, dst := s.dst + 1 }

/-- The body of the inner loop of the glyph pass.  Both shading branches store to
`*dst`. -/
def glyphPixel (pixels : List Nat) (flags : Nat) (use_hinting : Bool)
    (hinting_threshold : Nat) (width dstScanSkip : Int) (s : BlitState) : BlitState :=
  let s : BlitState := { s with reads := s.reads ++ [s.src] }
  let s : BlitState :=
    if pixelAt pixels s.src ≠ 0 then
      let s : BlitState :=
        if hasFlag flags TEXT_DRAW_FLAG_INSET then
          { s with writes := s.writes ++ [s.dst + width + dstScanSkip + 1] }
        else s
      if pixelAt pixels s.src > 180 ∨ !use_hinting then
        -- Centre of the glyph: use full colour.
        { s with writes := s.writes ++ [s.dst] }
      else if use_hinting ∧ pixelAt pixels s.src > hinting_threshold then
        -- Simulate font hinting by shading the background colour instead.
        { s with writes := s.writes ++ [s.dst] }
      else s
    else s
  { s with src := s.src + 1, dst := s.dst + 1 }

/-- One row of a pass: the inner loop over `xx`, then the two scan skips. -/
def blitRow (pixel : Int → BlitState → BlitState) (width srcScanSkip dstScanSkip : Int)
    (s : BlitState) : BlitState :=
  let s := (List.range width.toNat).foldl (fun s xx => pixel (xx : Int) s) s
  -- Skip any remaining bits
  { s with src := s.src + srcScanSkip, dst := s.dst + dstScanSkip }

/-- The software branch of `ttf_draw_string_raw_ttf` from the clipping on, as the
indices it reads and writes: `pixels` are the bytes of the surface, `(drawX, drawY)`
the draw position, `use_hinting` the value computed from the font configuration. -/
def ttf_blit (surface : TTFSurface) (pixels : List Nat) (dpi : rct_drawpixelinfo)
    (drawX drawY : Int) (flags : Nat) (use_hinting : Bool) (hinting_threshold : Nat) :
    BlitState :=
  let width := surface.w
  let height := surface.h
  let overflowX := (dpi.x + dpi.width) - (drawX + width)
  let overflowY := (dpi.y + dpi.height) - (drawY + height)
  let width := if overflowX < 0 then width + overflowX else width
  let height := if overflowY < 0 then height + overflowY else height
  let skipX := drawX - dpi.x
  let skipY := drawY - dpi.y
  let src : Int := 0
  let dst : Int := 0
  let width := if skipX < 0 then width + skipX else width
  let src := if skipX < 0 then src + -skipX else src
  let skipX := if skipX < 0 then 0 else skipX
  let height := if skipY < 0 then height + skipY else height
  let src := if skipY < 0 then src + (-skipY * surface.pitch) else src
  let skipY := if skipY < 0 then 0 else skipY
  let dst := dst + skipX
  let dst := dst + skipY * (dpi.width + dpi.pitch)
  let srcScanSkip := surface.pitch - width
  let dstScanSkip := dpi.width + dpi.pitch - width
  let dst_orig := dst
  let src_orig := src
  let s : BlitState := ⟨src, dst, [], []⟩
  -- Draw shadow/outline
  let s : BlitState :=
    if hasFlag flags TEXT_DRAW_FLAG_OUTLINE then
      (List.range height.toNat).foldl
        (fun s yy =>
          blitRow (fun xx => outlinePixel pixels dpi width dstScanSkip skipX skipY (yy : Int) xx)
            width srcScanSkip dstScanSkip s) s
    else s
  let s : BlitState := { s with src := src_orig, dst := dst_orig }
  (List.range height.toNat).foldl
    (fun s _ =>
      blitRow (fun _ => glyphPixel pixels flags use_hinting hinting_threshold width dstScanSkip)
        width srcScanSkip dstScanSkip s) s

/-- The number of bytes of the destination plane: `(width + pitch) * height`. -/
def planeSize (dpi : rct_drawpixelinfo) : Int :=
  (dpi.width + dpi.pitch) * dpi.height

/-! ## Tokens that only change the palette or the outline flag -/

/-- The direct colour tokens and `ColourWindow1`-`3`. -/
def isColourToken (tok : token) : Bool :=
  match tok.kind with
  | FormatToken.Colour _ => true
  | FormatToken.ColourWindow1 => true
  | FormatToken.ColourWindow2 => true
  | FormatToken.ColourWindow3 => true
  | _ => false

/-- The part of a destination and draw state that positions text: the geometry of the
destination, the origin, the cursor, the bounding box, the font style, the
offset pointer, and the draw flags other than OUTLINE. -/
structure CursorView where
  dpiX : Int
  dpiY : Int
  dpiWidth : Int
  dpiHeight : Int
  dpiPitch : Int
  startX : Int
  startY : Int
  x : Int
  y : Int
  maxX : Int
  maxY : Int
  flags : Nat
  FontStyle : FontStyle
  y_offset : List Int
  deriving DecidableEq, Repr

/-- The cursor view of a destination and draw state. -/
def cursorView (st : rct_drawpixelinfo × text_draw_info) : CursorView :=
  { dpiX := st.1.x, dpiY := st.1.y, dpiWidth := st.1.width, dpiHeight := st.1.height,
    dpiPitch := st.1.pitch, startX := st.2.startX, startY := st.2.startY, x := st.2.x, y := st.2.y,
    maxX := st.2.maxX, maxY := st.2.maxY,
    flags := clearFlag st.2.flags TEXT_DRAW_FLAG_OUTLINE,
    FontStyle := st.2.FontStyle, y_offset := st.2.y_offset }

/-- A control-code table over `demoCode`: cell 3 is `OutlineEnable`, cell 4 the direct
colour 7, cell 5 `ColourWindow1`, cell 6 `FontTiny`, cell 7 `Move` by -20. -/
def paintCode (c : Nat) : Option (FormatToken × Int) :=
  if c = 3 then some (FormatToken.OutlineEnable, 0)
  else if c = 4 then some (FormatToken.Colour 7, 0)
  else if c = 5 then some (FormatToken.ColourWindow1, 0)
  else if c = 6 then some (FormatToken.FontTiny, 0)
  else if c = 7 then some (FormatToken.Move, -20)
  else demoCode c

/-- The environment `shadeEnv` with the control codes `paintCode`. -/
def paintEnv : Env :=
  { shadeEnv with formatCode := paintCode }

/-! ## Environments with unusual glyph metrics, and the segments that GfxWrapString checks -/

/-- The environment `ttfDemoEnv` with an outline font whose engine reports 30 pixels
for the run `ab` (cells 97, 98) and 5 pixels per cell for every other run. -/
def pairEnv : Env :=
  { ttfDemoEnv with
    ttf_getwidth_cache_get_or_add := fun _ text =>
      if text = [97, 98] then 30 else 5 * (text.length : Int) }

/-- The initial segment `A` ends in a character (a literal cell) and holds an earlier
character.  These are the segments at which the codepoint loop of `GfxWrapString` can
break the line: the loop measures the line after every character, and an overflow
makes a break only when `splitIndex` or `bestSplitIndex` is set, which an earlier
character of the line has done. -/
def checkedSegment (env : Env) (A : List Nat) : Bool :=
  match A.getLast? with
  | some c =>
    (controlCode env c).isNone && A.dropLast.any (fun d => (controlCode env d).isNone)
  | none => false

/-- The environment `demoEnv` with a sprite font in which every glyph is 2^30 pixels
wide. -/
def wideEnv : Env :=
  { demoEnv with font_sprite_get_codepoint_width := fun _ _ => 1073741824 }

/-! ## The draw state machine with machine integers and process-wide state

The functions of the draw state machine once more, under the names of the source in the
namespace `Machine`, with what the embedding above abstracts from: every `int32_t`
addition and subtraction is reduced modulo 2^32 (`wrap32`), palette bytes are stored
through a pointer (`PalettePointer`), and the process-wide variables `gTextPalette` and
`_ttfGlId` are part of the state (`TextMemory`). -/

/-- The value that an `int32_t` holds after an arithmetic result `v`: `v` reduced
modulo 2^32 into the range from -2^31 to 2^31 - 1. -/
def wrap32 (v : Int) : Int :=
  (v + 2147483648) % 4294967296 - 2147483648

/-- The target of a `uint8_t*` palette pointer: the process-wide array `gTextPalette`,
or the field `palette` of the `text_draw_info` behind the pointer `info`. -/
inductive PalettePointer
  | gTextPalette
  | infoPalette
  deriving DecidableEq, Repr

/-- The state that the text code works on besides the destination `dpi`: the
process-wide array `gTextPalette`, the static counter `_ttfGlId`, and the
`text_draw_info` behind the pointer `info`. -/
structure TextMemory where
  gTextPalette : List Nat
  ttfGlId : Nat
  info : text_draw_info
  deriving DecidableEq, Repr

namespace Machine

/-- The four stores `palette_pointer[1..4] = bytes of v`. -/
def storePalette (palette_pointer : PalettePointer) (v : Nat) (mem : TextMemory) :
    TextMemory :=
  match palette_pointer with
  | PalettePointer.gTextPalette => { mem with gTextPalette := setPalette mem.gTextPalette v }
  | PalettePointer.infoPalette =>
    let info : text_draw_info := { mem.info with palette := setPalette mem.info.palette v }
    { mem with info := info }

/-- The function `colour_char`. -/
def colour_char (env : Env) (colour : Nat) (current_font_flags : Nat)
    (palette_pointer : PalettePointer) (mem : TextMemory) : TextMemory :=
  let colour32 : Nat :=
    match env.GfxGetG1Element env.SPR_TEXT_PALETTE with
    | some g1 => readLE32 g1.offset ((colour &&& 0xFF) * 4)
    | none => 0
  let colour32 : Nat :=
    if !(hasFlag current_font_flags TEXT_DRAW_FLAG_OUTLINE) then colour32 &&& 0x0FF0000FF
    else colour32
  storePalette palette_pointer colour32 mem

/-- The function `colour_char_window`. -/
def colour_char_window (env : Env) (colour : Nat) (current_font_flags : Nat)
    (palette_pointer : PalettePointer) (mem : TextMemory) : TextMemory :=
  let colour := env.NOT_TRANSLUCENT colour
  let eax : Nat := (env.ColourMapA colour).colour_11
  let eax : Nat :=
    if hasFlag current_font_flags TEXT_DRAW_FLAG_OUTLINE then eax ||| 0x0A0A00 else eax
  storePalette palette_pointer eax mem

/-- The function `ttf_draw_character_sprite`. -/
def ttf_draw_character_sprite (env : Env) (dpi : rct_drawpixelinfo) (codepoint : Nat)
    (mem : TextMemory) : rct_drawpixelinfo × TextMemory :=
  let info := mem.info
  let characterWidth := env.font_sprite_get_codepoint_width info.FontStyle codepoint
  if !(hasFlag info.flags TEXT_DRAW_FLAG_NO_DRAW) then
    if hasFlag info.flags TEXT_DRAW_FLAG_Y_OFFSET_EFFECT then
      let call := DrawCall.glyph info.FontStyle codepoint info.x
        (wrap32 (info.y + info.y_offset.headD 0)) info.palette
      let info : text_draw_info :=
        { info with y_offset := info.y_offset.tail, x := wrap32 (info.x + characterWidth) }
      ({ dpi with calls := dpi.calls ++ [call] }, { mem with info := info })
    else
      let call := DrawCall.glyph info.FontStyle codepoint info.x info.y info.palette
      let info : text_draw_info := { info with x := wrap32 (info.x + characterWidth) }
      ({ dpi with calls := dpi.calls ++ [call] }, { mem with info := info })
  else
    let info : text_draw_info := { info with x := wrap32 (info.x + characterWidth) }
    (dpi, { mem with info := info })

/-- The function `ttf_draw_string_raw_sprite`. -/
def ttf_draw_string_raw_sprite (env : Env) (dpi : rct_drawpixelinfo) (text : List Nat)
    (mem : TextMemory) : rct_drawpixelinfo × TextMemory :=
  (CodepointView text).foldl
    (fun st codepoint => ttf_draw_character_sprite env st.1 codepoint st.2) (dpi, mem)

/-- The function `ttf_draw_string_raw_ttf`.  The pixel loops of the software blitter
are recorded as one `surface` call with the clipped extent, the hand-over to the OpenGL
engine as one `bitmap` call, after which the counter `_ttfGlId` is advanced. -/
def ttf_draw_string_raw_ttf (env : Env) (dpi : rct_drawpixelinfo) (text : List Nat)
    (mem : TextMemory) : rct_drawpixelinfo × TextMemory :=
  let info := mem.info
  if !env.ttf_initialise then (dpi, mem)
  else
    let fontDesc := env.ttf_get_font_from_sprite_base info.FontStyle
    match fontDesc.font with
    | none => ttf_draw_string_raw_sprite env dpi text mem
    | some font =>
      if hasFlag info.flags TEXT_DRAW_FLAG_NO_DRAW then
        let info : text_draw_info :=
          { info with x := wrap32 (info.x + env.ttf_getwidth_cache_get_or_add font text) }
        (dpi, { mem with info := info })
      else
        match env.ttf_surface_cache_get_or_add font text with
        | none => (dpi, mem)
        | some surface =>
          let drawX := wrap32 (info.x + fontDesc.offset_x)
          let drawY := wrap32 (info.y + fontDesc.offset_y)
          let width := surface.w
          let height := surface.h
          if env.DrawingEngineOpenGL then
            let ttfGlId := mem.ttfGlId + 1
            let ttfGlId := if ttfGlId ≥ 1023 then 0 else ttfGlId
            ({ dpi with calls := dpi.calls ++ [DrawCall.bitmap text drawX drawY] },
              { mem with ttfGlId := ttfGlId })
          else
            let overflowX := wrap32 (wrap32 (dpi.x + dpi.width) - wrap32 (drawX + width))
            let overflowY := wrap32 (wrap32 (dpi.y + dpi.height) - wrap32 (drawY + height))
            let width := if overflowX < 0 then wrap32 (width + overflowX) else width
            let height := if overflowY < 0 then wrap32 (height + overflowY) else height
            let skipX := wrap32 (drawX - dpi.x)
            let skipY := wrap32 (drawY - dpi.y)
            let info : text_draw_info := { info with x := wrap32 (info.x + width) }
            let width := if skipX < 0 then wrap32 (width + skipX) else width
            let height := if skipY < 0 then wrap32 (height + skipY) else height
            ({ dpi with calls := dpi.calls ++ [DrawCall.surface text drawX drawY width height] },
              { mem with info := info })

/-- The function `ttf_process_format_code`. -/
def ttf_process_format_code (env : Env) (dpi : rct_drawpixelinfo) (tok : token)
    (mem : TextMemory) : rct_drawpixelinfo × TextMemory :=
  let info := mem.info
  match tok.kind with
  | FormatToken.Move =>
    let info : text_draw_info := { info with x := wrap32 (info.startX + tok.parameter) }
    (dpi, { mem with info := info })
  | FormatToken.Newline =>
    let info : text_draw_info :=
      { info with x := info.startX,
                  y := wrap32 (info.y + env.font_get_line_height info.FontStyle) }
    (dpi, { mem with info := info })
  | FormatToken.NewlineSmall =>
    let info : text_draw_info :=
      { info with x := info.startX,
                  y := wrap32 (info.y + env.font_get_line_height_small info.FontStyle) }
    (dpi, { mem with info := info })
  | FormatToken.FontTiny =>
    let info : text_draw_info := { info with FontStyle := FontStyle.Tiny }
    (dpi, { mem with info := info })
  | FormatToken.FontSmall =>
    let info : text_draw_info := { info with FontStyle := FontStyle.Small }
    (dpi, { mem with info := info })
  | FormatToken.FontMedium =>
    let info : text_draw_info := { info with FontStyle := FontStyle.Medium }
    (dpi, { mem with info := info })
  | FormatToken.OutlineEnable =>
    let info : text_draw_info := { info with flags := info.flags ||| TEXT_DRAW_FLAG_OUTLINE }
    (dpi, { mem with info := info })
  | FormatToken.OutlineDisable =>
    let info : text_draw_info :=
      { info with flags := clearFlag info.flags TEXT_DRAW_FLAG_OUTLINE }
    (dpi, { mem with info := info })
  | FormatToken.ColourWindow1 =>
    (dpi, colour_char_window env (env.gCurrentWindowColours 0) (info.flags % 65536)
      PalettePointer.infoPalette mem)
  | FormatToken.ColourWindow2 =>
    (dpi, colour_char_window env (env.gCurrentWindowColours 1) (info.flags % 65536)
      PalettePointer.infoPalette mem)
  | FormatToken.ColourWindow3 =>
    (dpi, colour_char_window env (env.gCurrentWindowColours 2) (info.flags % 65536)
      PalettePointer.infoPalette mem)
  | FormatToken.InlineSprite =>
    match env.GfxGetG1Element (env.ImageIdGetIndex tok.parameter) with
    | some g1 =>
      if g1.width ≤ 32 ∧ g1.height ≤ 32 then
        let moved : text_draw_info := { info with x := wrap32 (info.x + g1.width) }
        if !(hasFlag info.flags TEXT_DRAW_FLAG_NO_DRAW) then
          ({ dpi with calls := dpi.calls ++ [DrawCall.sprite tok.parameter info.x info.y] },
            { mem with info := moved })
        else
          (dpi, { mem with info := moved })
      else (dpi, mem)
    | none => (dpi, mem)
  | k =>
    if FormatTokenIsColour k then
      let colourIndex := FormatTokenGetTextColourIndex k
      (dpi, colour_char env (colourIndex % 256) (info.flags % 65536)
        PalettePointer.infoPalette mem)
    else (dpi, mem)

/-- The loop of the outline-font branch of `ttf_process_string_literal`: `run` is the
substring from `ttfRunIndex` up to the current position, `none` when `ttfRunIndex`
has no value; the last clause is the final run after the loop. -/
def ttfRuns (env : Env) :
    List Nat → Option (List Nat) → rct_drawpixelinfo × TextMemory →
      rct_drawpixelinfo × TextMemory
  | [], none, st => st
  | [], some r, st => ttf_draw_string_raw_ttf env st.1 r st.2
  | codepoint :: rest, run, st =>
    if ShouldUseSpriteForCodepoint env codepoint then
      let st :=
        match run with
        | some r => ttf_draw_string_raw_ttf env st.1 r st.2
        | none => st
      ttfRuns env rest none (ttf_draw_character_sprite env st.1 codepoint st.2)
    else
      match run with
      | some r => ttfRuns env rest (some (r ++ utf8_write_codepoint codepoint)) st
      | none => ttfRuns env rest (some (utf8_write_codepoint codepoint)) st

/-- The function `ttf_process_string_literal`. -/
def ttf_process_string_literal (env : Env) (dpi : rct_drawpixelinfo) (text : List Nat)
    (mem : TextMemory) : rct_drawpixelinfo × TextMemory :=
  let isTTF := hasFlag mem.info.flags TEXT_DRAW_FLAG_TTF
  if !isTTF then ttf_draw_string_raw_sprite env dpi text mem
  else ttfRuns env (CodepointView text) none (dpi, mem)

/-- The function `ttf_process_string_codepoint`. -/
def ttf_process_string_codepoint (env : Env) (dpi : rct_drawpixelinfo) (codepoint : Nat)
    (mem : TextMemory) : rct_drawpixelinfo × TextMemory :=
  ttf_process_string_literal env dpi (cstr (utf8_write_codepoint codepoint)) mem

/-- The two statements `info->maxX = max(...)`, `info->maxY = max(...)`. -/
def updateMax (mem : TextMemory) : TextMemory :=
  { mem with info := OpenRCT2.updateMax mem.info }

/-- One iteration of the token loop of `ttf_process_string`. -/
def ttf_process_token (env : Env) (st : rct_drawpixelinfo × TextMemory) (tok : token) :
    rct_drawpixelinfo × TextMemory :=
  let r :=
    if tok.IsLiteral then ttf_process_string_literal env st.1 tok.text st.2
    else if tok.IsCodepoint then ttf_process_string_codepoint env st.1 tok.GetCodepoint st.2
    else ttf_process_format_code env st.1 tok st.2
  (r.1, updateMax r.2)

/-- The function `ttf_process_string`. -/
def ttf_process_string (env : Env) (dpi : rct_drawpixelinfo) (text : List Nat)
    (mem : TextMemory) : rct_drawpixelinfo × TextMemory :=
  if hasFlag mem.info.flags TEXT_DRAW_FLAG_NO_FORMATTING then
    let r := ttf_process_string_literal env dpi text mem
    (r.1, updateMax r.2)
  else
    (FmtString env text).foldl (ttf_process_token env) (dpi, mem)

/-- The local `info` of `ttf_get_string_width` before the call of `ttf_process_string`:
the fields that the source assigns are overwritten, `palette` and `y_offset` keep what
the local held on entry (`uninit`). -/
def measureInfo (env : Env) (fontStyle : FontStyle) (noFormatting : Bool)
    (uninit : text_draw_info) : text_draw_info :=
  let flags := 0 ||| TEXT_DRAW_FLAG_NO_DRAW
  let flags := if env.UseTrueTypeFont then flags ||| TEXT_DRAW_FLAG_TTF else flags
  let flags := if noFormatting then flags ||| TEXT_DRAW_FLAG_NO_FORMATTING else flags
  { uninit with
    FontStyle := fontStyle, flags := flags, startX := 0, startY := 0, x := 0, y := 0,
    maxX := 0, maxY := 0 }

/-- The destination and the memory of `ttf_get_string_width` after its call of
`ttf_process_string`; `mem.info` is what the local `info` holds on entry. -/
def measureState (env : Env) (mem : TextMemory) (text : List Nat) (fontStyle : FontStyle)
    (noFormatting : Bool) : rct_drawpixelinfo × TextMemory :=
  ttf_process_string env nullDpi text
    { mem with info := measureInfo env fontStyle noFormatting mem.info }

/-- The function `ttf_get_string_width`: the value returned and the memory after the
call. -/
def ttf_get_string_width (env : Env) (mem : TextMemory) (text : List Nat)
    (fontStyle : FontStyle) (noFormatting : Bool) : Int × TextMemory :=
  let r := measureState env mem text fontStyle noFormatting
  (r.2.info.maxX, r.2)

/-- The function `GfxGetStringWidth`. -/
def GfxGetStringWidth (env : Env) (mem : TextMemory) (text : List Nat)
    (fontStyle : FontStyle) : Int × TextMemory :=
  ttf_get_string_width env mem text fontStyle false

/-- The function `GfxGetStringWidthNoFormatting`. -/
def GfxGetStringWidthNoFormatting (env : Env) (mem : TextMemory) (text : List Nat)
    (fontStyle : FontStyle) : Int × TextMemory :=
  ttf_get_string_width env mem text fontStyle true

/-- The function `ttf_process_initial_colour`; `colour` is the 32-bit pattern of the
`int32_t` argument. -/
def ttf_process_initial_colour (env : Env) (k : ColourConstants) (colour : Nat)
    (mem : TextMemory) : TextMemory :=
  if colour ≠ k.TEXT_COLOUR_254 ∧ colour ≠ k.TEXT_COLOUR_255 then
    let info : text_draw_info :=
      { mem.info with
        flags := clearFlag mem.info.flags (TEXT_DRAW_FLAG_INSET ||| TEXT_DRAW_FLAG_OUTLINE) }
    let info : text_draw_info :=
      if hasFlag colour k.COLOUR_FLAG_OUTLINE then
        { info with flags := info.flags ||| TEXT_DRAW_FLAG_OUTLINE }
      else info
    let colour := clearFlag colour k.COLOUR_FLAG_OUTLINE
    if !(hasFlag colour k.COLOUR_FLAG_INSET) then
      if !(hasFlag info.flags TEXT_DRAW_FLAG_INSET) then
        colour_char_window env (colour % 256) (info.flags % 65536) PalettePointer.infoPalette
          { mem with info := info }
      else { mem with info := info }
    else
      let info : text_draw_info := { info with flags := info.flags ||| TEXT_DRAW_FLAG_INSET }
      let colour := clearFlag colour k.COLOUR_FLAG_INSET
      let eax : Nat :=
        if hasFlag info.flags TEXT_DRAW_FLAG_DARK then
          if hasFlag info.flags TEXT_DRAW_FLAG_EXTRA_DARK then
            ((env.ColourMapA colour).mid_light <<< 16) ||| (env.ColourMapA colour).dark
          else
            ((env.ColourMapA colour).light <<< 16) ||| (env.ColourMapA colour).mid_dark
        else
          ((env.ColourMapA colour).lighter <<< 16) ||| (env.ColourMapA colour).mid_light
      -- Adjust text palette. Store current colour? ;
      storePalette PalettePointer.infoPalette eax { mem with info := info }
  else mem

/-- The function `TtfDrawString`: the destination, its field `lastStringPos` and the
memory after the call; `text` is `none` for a null pointer, `mem.info` is what the local
`info` holds on entry. -/
def TtfDrawString (env : Env) (k : ColourConstants) (dpi : rct_drawpixelinfo)
    (lastStringPos : Int × Int) (mem : TextMemory) (text : Option (List Nat)) (colour : Nat)
    (coords : Int × Int) (noFormatting : Bool) (fontStyle : FontStyle)
    (darkness : TextDarkness) : rct_drawpixelinfo × (Int × Int) × TextMemory :=
  match text with
  | none => (dpi, lastStringPos, mem)
  | some text =>
    let flags := 0
    let flags := if env.UseTrueTypeFont then flags ||| TEXT_DRAW_FLAG_TTF else flags
    let flags := if noFormatting then flags ||| TEXT_DRAW_FLAG_NO_FORMATTING else flags
    let flags :=
      if darkness = TextDarkness.Dark then flags ||| TEXT_DRAW_FLAG_DARK
      else if darkness = TextDarkness.ExtraDark then
        flags ||| (TEXT_DRAW_FLAG_DARK ||| TEXT_DRAW_FLAG_EXTRA_DARK)
      else flags
    let palette := copyPalette mem.info.palette mem.gTextPalette
    let info : text_draw_info :=
      { mem.info with
        FontStyle := fontStyle, flags := flags, startX := coords.1, startY := coords.2,
        x := coords.1, y := coords.2, palette := palette }
    let mem := ttf_process_initial_colour env k colour { mem with info := info }
    let r := ttf_process_string env dpi (cstr text) mem
    (r.1, (r.2.info.x, r.2.info.y),
      { r.2 with gTextPalette := copyPalette r.2.gTextPalette r.2.info.palette })

/-- What the cursor arithmetic of the machine reads and writes: the geometry of the
destination and every field of the draw state except `palette` and `y_offset`. -/
def cursor (st : rct_drawpixelinfo × TextMemory) :
    (Int × Int × Int × Int × Int) × (Int × Int × Int × Int × Int × Int × Nat × FontStyle) :=
  ((st.1.x, st.1.y, st.1.width, st.1.height, st.1.pitch),
    (st.2.info.startX, st.2.info.startY, st.2.info.x, st.2.info.y, st.2.info.maxX,
      st.2.info.maxY, st.2.info.flags, st.2.info.FontStyle))

/-- The step from `(dpi, mem)` to `r` made no draw call, left the process-wide variables
as they were and kept the no-draw flag. -/
def Silent (dpi : rct_drawpixelinfo) (mem : TextMemory)
    (r : rct_drawpixelinfo × TextMemory) : Prop :=
  r.1 = dpi ∧ r.2.gTextPalette = mem.gTextPalette ∧ r.2.ttfGlId = mem.ttfGlId ∧
    hasFlag r.2.info.flags TEXT_DRAW_FLAG_NO_DRAW = true

end Machine

/-- A memory with all-zero palettes, the counter `_ttfGlId` at 0 and the draw state
`originInfo 0`. -/
def zeroMemory : TextMemory :=
  ⟨[0, 0, 0, 0, 0, 0, 0, 0], 0, originInfo 0⟩

/-! ## Facts about the draw state machine -/

section DrawState

variable (env : Env)

theorem hasFlag_or_outline (f m : Nat) (hm : m &&& TEXT_DRAW_FLAG_OUTLINE = 0) :
    hasFlag (f ||| TEXT_DRAW_FLAG_OUTLINE) m = hasFlag f m := by
  unfold hasFlag
  have h : (f ||| TEXT_DRAW_FLAG_OUTLINE) &&& m = f &&& m := by
    apply Nat.eq_of_testBit_eq
    intro i
    have hi := congrArg (fun n => Nat.testBit n i) hm
    simp only [Nat.testBit_and, Nat.testBit_or, Nat.zero_testBit] at hi ⊢
    cases h1 : f.testBit i <;> cases h2 : TEXT_DRAW_FLAG_OUTLINE.testBit i <;>
      cases h3 : m.testBit i <;> simp_all
  rw [h]

theorem hasFlag_clear_outline (f m : Nat) (hm : m &&& TEXT_DRAW_FLAG_OUTLINE = 0)
    (hm32 : m &&& 0xFFFFFFFF = m) :
    hasFlag (clearFlag f TEXT_DRAW_FLAG_OUTLINE) m = hasFlag f m := by
  unfold hasFlag clearFlag
  have h : (f &&& (0xFFFFFFFF ^^^ TEXT_DRAW_FLAG_OUTLINE)) &&& m = f &&& m := by
    apply Nat.eq_of_testBit_eq
    intro i
    have hi := congrArg (fun n => Nat.testBit n i) hm
    have hj := congrArg (fun n => Nat.testBit n i) hm32
    simp only [Nat.testBit_and, Nat.testBit_xor, Nat.zero_testBit] at hi hj ⊢
    cases h1 : f.testBit i <;> cases h2 : TEXT_DRAW_FLAG_OUTLINE.testBit i <;>
      cases h3 : m.testBit i <;> cases h4 : Nat.testBit 0xFFFFFFFF i <;> simp_all
  rw [h]

/-! ### The bounding box never shrinks -/

theorem sprite_char_maxX (dpi : rct_drawpixelinfo) (c : Nat) (info : text_draw_info) :
    (ttf_draw_character_sprite env dpi c info).2.maxX = info.maxX := by
  unfold ttf_draw_character_sprite
  split_ifs <;> rfl

theorem raw_sprite_fold_maxX (text : List Nat) (st : rct_drawpixelinfo × text_draw_info) :
    (text.foldl (fun st c => ttf_draw_character_sprite env st.1 c st.2) st).2.maxX
      = st.2.maxX := by
  induction text generalizing st with
  | nil => rfl
  | cons c t ih =>
    rw [List.foldl_cons, ih]
    exact sprite_char_maxX env st.1 c st.2

theorem raw_sprite_maxX (dpi : rct_drawpixelinfo) (text : List Nat) (info : text_draw_info) :
    (ttf_draw_string_raw_sprite env dpi text info).2.maxX = info.maxX :=
  raw_sprite_fold_maxX env (CodepointView text) (dpi, info)

theorem raw_ttf_maxX (dpi : rct_drawpixelinfo) (text : List Nat) (info : text_draw_info) :
    (ttf_draw_string_raw_ttf env dpi text info).2.maxX = info.maxX := by
  unfold ttf_draw_string_raw_ttf
  dsimp only
  repeat' split
  all_goals first | rfl | exact raw_sprite_maxX env dpi text info

theorem ttfRuns_maxX (cps : List Nat) (run : Option (List Nat))
    (st : rct_drawpixelinfo × text_draw_info) :
    (ttfRuns env cps run st).2.maxX = st.2.maxX := by
  induction cps generalizing run st with
  | nil =>
    cases run with
    | none => rfl
    | some r => exact raw_ttf_maxX env st.1 r st.2
  | cons c t ih =>
    unfold ttfRuns
    split_ifs
    · rw [ih, sprite_char_maxX]
      cases run with
      | none => rfl
      | some r => exact raw_ttf_maxX env st.1 r st.2
    · cases run with
      | none => exact ih _ _
      | some r => exact ih _ _

theorem literal_maxX (dpi : rct_drawpixelinfo) (text : List Nat) (info : text_draw_info) :
    (ttf_process_string_literal env dpi text info).2.maxX = info.maxX := by
  unfold ttf_process_string_literal
  dsimp only
  split_ifs
  · exact raw_sprite_maxX env dpi text info
  · exact ttfRuns_maxX env _ none (dpi, info)

theorem format_code_maxX (dpi : rct_drawpixelinfo) (tok : token) (info : text_draw_info) :
    (ttf_process_format_code env dpi tok info).2.maxX = info.maxX := by
  unfold ttf_process_format_code
  split <;> try rfl
  · split
    · split_ifs <;> rfl
    · rfl
  · split_ifs <;> rfl

theorem process_token_maxX_le (st : rct_drawpixelinfo × text_draw_info) (tok : token) :
    st.2.maxX ≤ (ttf_process_token env st tok).2.maxX := by
  unfold ttf_process_token updateMax
  dsimp only
  split_ifs
  · rw [literal_maxX]; exact le_max_left _ _
  · unfold ttf_process_string_codepoint
    rw [literal_maxX]; exact le_max_left _ _
  · rw [format_code_maxX]; exact le_max_left _ _

theorem process_fold_maxX_le (toks : List token) (st : rct_drawpixelinfo × text_draw_info) :
    st.2.maxX ≤ (toks.foldl (ttf_process_token env) st).2.maxX := by
  induction toks generalizing st with
  | nil => exact le_refl _
  | cons t ts ih =>
    rw [List.foldl_cons]
    exact le_trans (process_token_maxX_le env st t) (ih _)

theorem measureInfo_formatting (fontStyle : FontStyle) :
    hasFlag (measureInfo env fontStyle false).flags TEXT_DRAW_FLAG_NO_FORMATTING = false := by
  unfold measureInfo
  cases env.UseTrueTypeFont <;>
    simp [hasFlag, TEXT_DRAW_FLAG_NO_DRAW, TEXT_DRAW_FLAG_TTF, TEXT_DRAW_FLAG_NO_FORMATTING] <;>
    decide

theorem GfxGetStringWidth_eq (text : List Nat) (fontStyle : FontStyle) :
    GfxGetStringWidth env text fontStyle
      = ((FmtString env text).foldl (ttf_process_token env)
          (nullDpi, measureInfo env fontStyle false)).2.maxX := by
  unfold GfxGetStringWidth ttf_get_string_width ttf_process_string
  rw [measureInfo_formatting]
  rfl

theorem GfxGetStringWidth_nonneg (text : List Nat) (fontStyle : FontStyle) :
    0 ≤ GfxGetStringWidth env text fontStyle := by
  rw [GfxGetStringWidth_eq]
  have h := process_fold_maxX_le env (FmtString env text)
    (nullDpi, measureInfo env fontStyle false)
  have h0 : (measureInfo env fontStyle false).maxX = 0 := rfl
  simpa [h0] using h

theorem GfxGetStringWidth_nil (fontStyle : FontStyle) :
    GfxGetStringWidth env [] fontStyle = 0 := by
  rw [GfxGetStringWidth_eq]
  rfl

/-! ### C strings and the tokenizer -/

theorem cstr_eq_self {l : List Nat} (h : ∀ c ∈ l, c ≠ 0) : cstr l = l := by
  unfold cstr
  rw [List.takeWhile_eq_self_iff]
  intro c hc
  simpa using h c hc

theorem cstr_nonzero (l : List Nat) : ∀ c ∈ cstr l, c ≠ 0 := by
  intro c hc
  have h := List.mem_takeWhile_imp hc
  simpa using h

theorem cstr_cstr (l : List Nat) : cstr (cstr l) = cstr l :=
  cstr_eq_self (cstr_nonzero l)

theorem cstr_write {c : Nat} (hc : c ≠ 0) : cstr (utf8_write_codepoint c) = [c] := by
  simp [cstr, utf8_write_codepoint, hc]

theorem cstr_append_nul {l : List Nat} (h : ∀ c ∈ l, c ≠ 0) (r : List Nat) :
    cstr (l ++ 0 :: r) = l := by
  induction l with
  | nil => simp [cstr]
  | cons a t ih =>
    have ha : a ≠ 0 := h a (List.mem_cons_self _ _)
    have ht : ∀ c ∈ t, c ≠ 0 := fun c hc => h c (List.mem_cons_of_mem _ hc)
    have ih2 := ih ht
    unfold cstr at ih2 ⊢
    simp [ha, ih2]

theorem FmtString_texts (t : List Nat) :
    (FmtString env t).flatMap (fun tok => tok.text) = t := by
  induction t with
  | nil => rfl
  | cons c rest ih =>
    unfold FmtString
    split
    · simp [ih]
    · split
      · rename_i heq
        rw [heq] at ih
        simp only [List.flatMap_cons, List.cons_append] at ih ⊢
        rw [ih]
      · simp [ih]

theorem tokenCodepoints_eq (t : List Nat) : tokenCodepoints env t = t := by
  unfold tokenCodepoints CodepointView
  exact FmtString_texts env t

/-! ### The loop of GfxClipString -/

theorem putEllipsis_step (bl fuel : Nat) (i : Int) (buffer : List Nat) (h : 0 ≤ i)
    (h2 : (bl : Int) - 3 ≤ i) :
    putEllipsis bl (fuel + 1) i buffer = putEllipsis bl fuel (i - 1) (buffer.set i.toNat 46) := by
  simp [putEllipsis, h, h2]

theorem set_append_at (P : List Nat) (k : Nat) (X : List Nat) (v : Nat) :
    (P ++ X).set (P.length + k) v = P ++ X.set k v := by
  induction P with
  | nil => simp
  | cons a t ih =>
    simp only [List.cons_append, List.length_cons]
    rw [show t.length + 1 + k = (t.length + k) + 1 by omega, List.set_cons_succ, ih]

theorem putEllipsis_three (P : List Nat) (a b c : Nat) :
    putEllipsis (P.length + 3) 3 (((P.length + 3 : Nat) : Int) - 1) (P ++ [a, b, c])
      = P ++ ellipsis := by
  have e2 : (((P.length + 3 : Nat) : Int) - 1) = ((P.length + 2 : Nat) : Int) := by
    push_cast; ring
  have e1 : (((P.length + 2 : Nat) : Int) - 1) = ((P.length + 1 : Nat) : Int) := by
    push_cast; ring
  have e0 : (((P.length + 1 : Nat) : Int) - 1) = ((P.length + 0 : Nat) : Int) := by
    push_cast; ring
  rw [e2, putEllipsis_step _ _ _ _ (by positivity) (by push_cast; omega), e1,
    putEllipsis_step _ _ _ _ (by positivity) (by push_cast; omega), e0,
    putEllipsis_step _ _ _ _ (by positivity) (by push_cast; omega)]
  simp only [Int.toNat_ofNat, set_append_at]
  rfl

theorem resize_trim (done : List Nat) :
    resize (done ++ ellipsis) ((done ++ ellipsis).length - 3) = done := by
  simp [resize, ellipsis]

theorem resize_rollback (P : List Nat) (c : Nat) :
    resize ((P ++ [c]) ++ ellipsis) (P.length + 3) = P ++ [c, 46, 46] := by
  simp [resize, ellipsis, List.take_append_eq_append_take]

theorem ellipsis_nonzero {P : List Nat} (h : ∀ c ∈ P, c ≠ 0) : ∀ c ∈ P ++ ellipsis, c ≠ 0 := by
  intro c hc
  rcases List.mem_append.mp hc with h1 | h1
  · exact h c h1
  · simp [ellipsis] at h1
    omega

/-- What the loop of `GfxClipString` returns when it returns from inside. -/
theorem clipLoop_some (W : Int) (fs : FontStyle) :
    ∀ (cps done : List Nat) (s : ClipState) (t : List Nat) (w : Int),
      (∀ c ∈ cps, c ≠ 0) → (∀ c ∈ done, c ≠ 0) → s.buffer = done →
      ((done = [] ∧ s.bestLength = 0 ∧ s.bestWidth = 0) ∨
        ∃ P c, done = P ++ [c] ∧ s.bestLength = P.length + 3 ∧
          s.bestWidth = GfxGetStringWidth env (P ++ ellipsis) fs ∧ s.bestWidth < W) →
      clipLoop env W fs cps s = some (t, w) →
      (t = [] ∧ w = 0 ∧ W ≤ GfxGetStringWidth env ellipsis fs) ∨
        ∃ P Q, P ++ Q = done ++ cps ∧ t = P ++ ellipsis ∧
          w = GfxGetStringWidth env (P ++ ellipsis) fs ∧ w < W := by
  intro cps
  induction cps with
  | nil =>
    intro done s t w _ _ _ _ h
    simp [clipLoop] at h
  | cons c rest ih =>
    intro done s t w hcps hdone hbuf hinv h
    have hc : c ≠ 0 := hcps c (List.mem_cons_self _ _)
    have hrest : ∀ c ∈ rest, c ≠ 0 := fun a ha => hcps a (List.mem_cons_of_mem _ ha)
    unfold clipLoop at h
    dsimp only at h
    rw [hbuf] at h
    split_ifs at h with hfit
    · rw [resize_trim, cstr_write hc] at h
      have hdone2 : ∀ a ∈ done ++ [c], a ≠ 0 := by
        intro a ha
        rcases List.mem_append.mp ha with h1 | h1
        · exact hdone a h1
        · rw [List.mem_singleton.mp h1]; exact hc
      have hlen : (done ++ ellipsis).length = done.length + 3 := by simp [ellipsis]
      rcases ih (done ++ [c]) _ t w hrest hdone2 rfl
          (Or.inr ⟨done, c, rfl, hlen, rfl, hfit⟩) h with h1 | ⟨P, Q, hPQ, h2⟩
      · exact Or.inl h1
      · exact Or.inr ⟨P, Q, by rw [hPQ]; simp, h2⟩
    · simp only [Option.some.injEq, Prod.mk.injEq] at h
      obtain ⟨ht, hw⟩ := h
      rcases hinv with ⟨hd, hbl, hbw⟩ | ⟨P, c0, hd, hbl, hbw, hlt⟩
      · left
        subst hd
        rw [hbl] at ht
        rw [hbw] at hw
        refine ⟨?_, hw.symm, ?_⟩
        · rw [← ht]
          simp [resize, putEllipsis, cstr]
        · simpa using hfit
      · right
        subst hd
        have hP : ∀ a ∈ P, a ≠ 0 := fun a ha => hdone a (List.mem_append_left _ ha)
        rw [hbl, resize_rollback, putEllipsis_three, cstr_eq_self (ellipsis_nonzero hP)] at ht
        refine ⟨P, c0 :: c :: rest, by simp, ht.symm, ?_, ?_⟩
        · rw [← hw, hbw]
        · rw [← hw]; exact hlt

/-- When the loop of `GfxClipString` runs to its end, every proper initial segment
of the codepoints, followed by the ellipsis, measured less than the width. -/
theorem clipLoop_none (W : Int) (fs : FontStyle) :
    ∀ (cps done : List Nat) (s : ClipState),
      (∀ c ∈ cps, c ≠ 0) → s.buffer = done → clipLoop env W fs cps s = none →
      ∀ Q R, cps = Q ++ R → R ≠ [] → GfxGetStringWidth env ((done ++ Q) ++ ellipsis) fs < W := by
  intro cps
  induction cps with
  | nil =>
    intro done s _ _ _ Q R hQR hR
    have h1 := List.append_eq_nil.mp hQR.symm
    exact absurd h1.2 hR
  | cons c rest ih =>
    intro done s hcps hbuf h Q R hQR hR
    have hc : c ≠ 0 := hcps c (List.mem_cons_self _ _)
    have hrest : ∀ c ∈ rest, c ≠ 0 := fun a ha => hcps a (List.mem_cons_of_mem _ ha)
    unfold clipLoop at h
    dsimp only at h
    rw [hbuf] at h
    split_ifs at h with hfit
    rw [resize_trim, cstr_write hc] at h
    cases Q with
    | nil => simpa using hfit
    | cons q Q2 =>
      simp only [List.cons_append, List.cons.injEq] at hQR
      obtain ⟨hq, hrest2⟩ := hQR
      subst hq
      have h3 := ih (done ++ [c]) _ hrest rfl h Q2 R hrest2 hR
      simpa using h3

/-! ### The loop of GfxWrapString -/

theorem insertNul_at (J X : List Nat) (k : Nat) :
    insertNul (J ++ X) (J.length + k) = J ++ (X.take k ++ 0 :: X.drop k) := by
  simp [insertNul, List.take_append, List.drop_append]

theorem trimAt_at (A R : List Nat) :
    trimAt (A ++ R) A.length = A ++ R.dropWhile (fun c => c == 32) := by
  simp [trimAt]

theorem joinLines_append (lines : List (List Nat)) (l : List Nat) :
    joinLines (lines ++ [l]) = joinLines lines ++ (l ++ [0]) := by
  simp [joinLines]

theorem maxWidths_append (fs : FontStyle) (lines : List (List Nat)) (l : List Nat) :
    maxWidths env fs (lines ++ [l])
      = max (maxWidths env fs lines) (GfxGetStringWidth env l fs) := by
  simp [maxWidths, List.foldl_append]

theorem lineWidthAt_cur (fs : FontStyle) (J cur : List Nat) (h : ∀ c ∈ cur, c ≠ 0) :
    lineWidthAt env fs (J ++ cur) J.length = GfxGetStringWidth env cur fs := by
  unfold lineWidthAt
  rw [List.drop_left, cstr_eq_self h]

theorem lineWidthAt_nul (fs : FontStyle) (J L R : List Nat) (h : ∀ c ∈ L, c ≠ 0) :
    lineWidthAt env fs (J ++ (L ++ 0 :: R)) J.length = GfxGetStringWidth env L fs := by
  unfold lineWidthAt
  rw [List.drop_left, cstr_append_nul h]

theorem WrapInv_init (fs : FontStyle) : WrapInv env fs [] [] ⟨[], 0, none, none, 0, 0⟩ where
  buffer := rfl
  index := rfl
  count := rfl
  width := rfl
  lines_nz := by simp
  cur_nz := by simp
  split := by simp
  best := by simp

theorem wrapCodepoint_inv (W : Int) (fs : FontStyle) (lines : List (List Nat))
    (cur : List Nat) (s : WrapState) (c : Nat) (h : WrapInv env fs lines cur s) :
    ∃ lines2 cur2, WrapInv env fs lines2 cur2 (wrapCodepoint env W fs s c) := by
  have he : ∀ a ∈ cstr (utf8_write_codepoint c), a ≠ 0 := cstr_nonzero _
  have hcur : ∀ a ∈ cur ++ cstr (utf8_write_codepoint c), a ≠ 0 := by
    intro a ha
    rcases List.mem_append.mp ha with h1 | h1
    · exact h.cur_nz a h1
    · exact he a h1
  have hbuf : s.buffer ++ cstr (utf8_write_codepoint c)
      = joinLines lines ++ (cur ++ cstr (utf8_write_codepoint c)) := by
    rw [h.buffer, List.append_assoc]
  have hmono : s.buffer.length ≤ (s.buffer ++ cstr (utf8_write_codepoint c)).length := by
    rw [List.length_append]; omega
  have hidx : s.currentLineIndex ≤ s.buffer.length := by
    rw [h.index, h.buffer, List.length_append]; omega
  unfold wrapCodepoint
  dsimp only
  split_ifs with hfit hsp hnone
  · refine ⟨lines, cur ++ cstr (utf8_write_codepoint c), ?_⟩
    have hlen : (s.buffer ++ cstr (utf8_write_codepoint c)).length = s.buffer.length + 1 := by
      rw [hsp]; simp [cstr, utf8_write_codepoint]
    exact
      { buffer := hbuf, index := h.index, count := h.count, width := h.width,
        lines_nz := h.lines_nz, cur_nz := hcur,
        split := by
          intro i hi
          simp only [Option.some.injEq] at hi
          dsimp only
          constructor <;> omega
        best := fun i hi => ⟨(h.best i hi).1, le_trans (h.best i hi).2 hmono⟩ }
  · refine ⟨lines, cur ++ cstr (utf8_write_codepoint c), ?_⟩
    exact
      { buffer := hbuf, index := h.index, count := h.count, width := h.width,
        lines_nz := h.lines_nz, cur_nz := hcur,
        split := fun i hi => ⟨(h.split i hi).1, le_trans (h.split i hi).2 hmono⟩
        best := by
          intro i hi
          simp only [Option.some.injEq] at hi
          dsimp only
          constructor <;> omega }
  · refine ⟨lines, cur ++ cstr (utf8_write_codepoint c), ?_⟩
    exact
      { buffer := hbuf, index := h.index, count := h.count, width := h.width,
        lines_nz := h.lines_nz, cur_nz := hcur,
        split := fun i hi => ⟨(h.split i hi).1, le_trans (h.split i hi).2 hmono⟩
        best := fun i hi => ⟨(h.best i hi).1, le_trans (h.best i hi).2 hmono⟩ }
  · -- the line is split
    generalize hi0 : (match s.splitIndex with
      | some i => i
      | none => s.bestSplitIndex.getD 0) = i0
    have hb : s.currentLineIndex ≤ i0 ∧ i0 ≤ s.buffer.length := by
      cases hs : s.splitIndex with
      | some i =>
        rw [hs] at hi0
        rw [← hi0]
        exact h.split i hs
      | none =>
        cases hbs : s.bestSplitIndex with
        | some j =>
          rw [hs, hbs] at hi0
          rw [← hi0]
          exact h.best j hbs
        | none =>
          exact absurd (Or.inr ⟨hs, hbs⟩) hfit
    obtain ⟨k, hk⟩ : ∃ k, i0 = (joinLines lines).length + k :=
      ⟨i0 - (joinLines lines).length, by have := h.index; omega⟩
    have hkle : k ≤ (cur ++ cstr (utf8_write_codepoint c)).length := by
      have h1 := hb.2
      rw [h.buffer, List.length_append] at h1
      rw [List.length_append]
      omega
    have hL : ∀ a ∈ (cur ++ cstr (utf8_write_codepoint c)).take k, a ≠ 0 :=
      fun a ha => hcur a (List.mem_of_mem_take ha)
    have hR : ∀ a ∈ ((cur ++ cstr (utf8_write_codepoint c)).drop k).dropWhile
        (fun c => c == 32), a ≠ 0 :=
      fun a ha => hcur a (List.mem_of_mem_drop ((List.dropWhile_sublist _).subset ha))
    have hins : insertNul (s.buffer ++ cstr (utf8_write_codepoint c)) i0
        = joinLines lines ++ ((cur ++ cstr (utf8_write_codepoint c)).take k
            ++ 0 :: (cur ++ cstr (utf8_write_codepoint c)).drop k) := by
      rw [hbuf, hk, insertNul_at]
    have hjoin : joinLines (lines ++ [(cur ++ cstr (utf8_write_codepoint c)).take k])
        = joinLines lines ++ ((cur ++ cstr (utf8_write_codepoint c)).take k ++ [0]) :=
      joinLines_append _ _
    have hjlen : (joinLines (lines ++ [(cur ++ cstr (utf8_write_codepoint c)).take k])).length
        = i0 + 1 := by
      rw [hjoin, List.length_append, List.length_append, List.length_take,
        List.length_singleton, Nat.min_eq_left hkle, hk]
      omega
    have htrim : trimAt (insertNul (s.buffer ++ cstr (utf8_write_codepoint c)) i0) (i0 + 1)
        = joinLines (lines ++ [(cur ++ cstr (utf8_write_codepoint c)).take k])
          ++ ((cur ++ cstr (utf8_write_codepoint c)).drop k).dropWhile (fun c => c == 32) := by
      rw [hins, ← hjlen, ← trimAt_at, hjoin]
      simp
    refine ⟨lines ++ [(cur ++ cstr (utf8_write_codepoint c)).take k],
      ((cur ++ cstr (utf8_write_codepoint c)).drop k).dropWhile (fun c => c == 32), ?_⟩
    exact
      { buffer := htrim, index := hjlen.symm,
        count := by simp [h.count],
        width := by
          rw [maxWidths_append, ← h.width, hins, h.index, lineWidthAt_nul env fs _ _ _ hL]
        lines_nz := by
          intro l hl
          rcases List.mem_append.mp hl with h1 | h1
          · exact h.lines_nz l h1
          · rw [List.mem_singleton.mp h1]; exact hL
        cur_nz := hR,
        split := by simp
        best := by simp }

theorem wrapCodepoints_inv (W : Int) (fs : FontStyle) (cps : List Nat) :
    ∀ (lines : List (List Nat)) (cur : List Nat) (s : WrapState),
      WrapInv env fs lines cur s →
      ∃ lines2 cur2, WrapInv env fs lines2 cur2 (cps.foldl (wrapCodepoint env W fs) s) := by
  induction cps with
  | nil => exact fun lines cur s h => ⟨lines, cur, h⟩
  | cons c rest ih =>
    intro lines cur s h
    obtain ⟨l2, c2, h2⟩ := wrapCodepoint_inv env W fs lines cur s c h
    exact ih l2 c2 _ h2

theorem wrapToken_inv (W : Int) (fs : FontStyle) (lines : List (List Nat)) (cur : List Nat)
    (s : WrapState) (tok : token) (htok : ∀ c ∈ tok.text, c ≠ 0)
    (h : WrapInv env fs lines cur s) :
    ∃ lines2 cur2, WrapInv env fs lines2 cur2 (wrapToken env W fs s tok) := by
  unfold wrapToken
  split_ifs with hlit hnl
  · exact wrapCodepoints_inv env W fs _ lines cur s h
  · refine ⟨lines ++ [cur], [], ?_⟩
    have hb : s.buffer ++ [0] = joinLines (lines ++ [cur]) ++ [] := by
      rw [h.buffer, joinLines_append]; simp
    exact
      { buffer := hb
        index := by
          dsimp only
          rw [hb, List.append_nil]
        count := by simp [h.count]
        width := by
          dsimp only
          rw [maxWidths_append, ← h.width, h.buffer, h.index, List.append_assoc,
            lineWidthAt_nul env fs _ _ _ h.cur_nz]
        lines_nz := by
          intro l hl
          rcases List.mem_append.mp hl with h1 | h1
          · exact h.lines_nz l h1
          · rw [List.mem_singleton.mp h1]; exact h.cur_nz
        cur_nz := by simp
        split := by simp
        best := by simp }
  · refine ⟨lines, cur ++ tok.text, ?_⟩
    have hmono : s.buffer.length ≤ (s.buffer ++ tok.text).length := by
      rw [List.length_append]; omega
    exact
      { buffer := by
          dsimp only
          rw [h.buffer, List.append_assoc]
        index := h.index, count := h.count, width := h.width, lines_nz := h.lines_nz
        cur_nz := by
          intro a ha
          rcases List.mem_append.mp ha with h1 | h1
          · exact h.cur_nz a h1
          · exact htok a h1
        split := fun i hi => ⟨(h.split i hi).1, le_trans (h.split i hi).2 hmono⟩
        best := fun i hi => ⟨(h.best i hi).1, le_trans (h.best i hi).2 hmono⟩ }

theorem wrapTokens_inv (W : Int) (fs : FontStyle) (toks : List token) :
    ∀ (lines : List (List Nat)) (cur : List Nat) (s : WrapState),
      (∀ tok ∈ toks, ∀ c ∈ tok.text, c ≠ 0) → WrapInv env fs lines cur s →
      ∃ lines2 cur2, WrapInv env fs lines2 cur2 (toks.foldl (wrapToken env W fs) s) := by
  induction toks with
  | nil => exact fun lines cur s _ h => ⟨lines, cur, h⟩
  | cons t rest ih =>
    intro lines cur s htoks h
    obtain ⟨l2, c2, h2⟩ :=
      wrapToken_inv env W fs lines cur s t (htoks t (List.mem_cons_self _ _)) h
    exact ih l2 c2 _ (fun tok ht => htoks tok (List.mem_cons_of_mem _ ht)) h2

theorem FmtString_cells (t : List Nat) : ∀ tok ∈ FmtString env t, ∀ c ∈ tok.text, c ∈ t := by
  intro tok htok c hc
  have h := FmtString_texts env t
  rw [← h]
  exact List.mem_flatMap.mpr ⟨tok, htok, hc⟩

theorem wrapLoop_inv (text : List Nat) (W : Int) (fs : FontStyle) :
    ∃ lines cur, WrapInv env fs lines cur (wrapLoop env text W fs) := by
  unfold wrapLoop
  refine wrapTokens_inv env W fs _ [] [] _ ?_ (WrapInv_init env fs)
  intro tok htok c hc
  exact cstr_nonzero text c (FmtString_cells env _ tok htok c hc)

theorem wrappedLines_single {l : List Nat} (h : ∀ c ∈ l, c ≠ 0) : wrappedLines l = [l] := by
  induction l with
  | nil => rfl
  | cons a t ih =>
    have ha : a ≠ 0 := h a (List.mem_cons_self _ _)
    have ht := ih (fun c hc => h c (List.mem_cons_of_mem _ hc))
    simp [wrappedLines, ha, ht]

theorem wrappedLines_line {l : List Nat} (h : ∀ c ∈ l, c ≠ 0) (rest : List Nat) :
    wrappedLines (l ++ 0 :: rest) = l :: wrappedLines rest := by
  induction l with
  | nil => simp [wrappedLines]
  | cons a t ih =>
    have ha : a ≠ 0 := h a (List.mem_cons_self _ _)
    have ht := ih (fun c hc => h c (List.mem_cons_of_mem _ hc))
    simp [wrappedLines, ha, ht]

theorem wrappedLines_join (lines : List (List Nat)) (cur : List Nat)
    (hl : ∀ l ∈ lines, ∀ c ∈ l, c ≠ 0) (hc : ∀ c ∈ cur, c ≠ 0) :
    wrappedLines (joinLines lines ++ cur) = lines ++ [cur] := by
  induction lines with
  | nil => simpa [joinLines] using wrappedLines_single hc
  | cons l ls ih =>
    have h1 := ih (fun l2 h2 => hl l2 (List.mem_cons_of_mem _ h2))
    have h2 : joinLines (l :: ls) ++ cur = l ++ 0 :: (joinLines ls ++ cur) := by
      simp [joinLines]
    rw [h2, wrappedLines_line (hl l (List.mem_cons_self _ _)), h1]
    rfl

theorem count_nul_join (lines : List (List Nat)) (cur : List Nat)
    (hl : ∀ l ∈ lines, ∀ c ∈ l, c ≠ 0) (hc : ∀ c ∈ cur, c ≠ 0) :
    (joinLines lines ++ cur).count 0 = lines.length := by
  induction lines with
  | nil =>
    simp only [joinLines, List.flatMap_nil, List.nil_append, List.length_nil]
    exact List.count_eq_zero.mpr (fun h => hc 0 h rfl)
  | cons l ls ih =>
    have h1 := ih (fun l2 h2 => hl l2 (List.mem_cons_of_mem _ h2))
    have h2 : joinLines (l :: ls) ++ cur = l ++ 0 :: (joinLines ls ++ cur) := by
      simp [joinLines]
    have h3 : l.count 0 = 0 :=
      List.count_eq_zero.mpr (fun h => hl l (List.mem_cons_self _ _) 0 h rfl)
    rw [h2, List.count_append, h3, List.count_cons_self, h1]
    simp

/-- The shape of the result of `GfxWrapString`: finished lines closed by NUL markers,
the last line, the number of finished lines, and the running maximum of the widths. -/
theorem GfxWrapString_shape (text : List Nat) (W : Int) (fs : FontStyle) :
    ∃ lines cur, (∀ l ∈ lines, ∀ c ∈ l, c ≠ 0) ∧ (∀ c ∈ cur, c ≠ 0) ∧
      (GfxWrapString env text W fs).text = joinLines lines ++ cur ∧
      (GfxWrapString env text W fs).outNumLines = lines.length ∧
      (GfxWrapString env text W fs).width = maxWidths env fs (lines ++ [cur]) := by
  obtain ⟨lines, cur, h⟩ := wrapLoop_inv env text W fs
  refine ⟨lines, cur, h.lines_nz, h.cur_nz, h.buffer, h.count, ?_⟩
  unfold GfxWrapString
  dsimp only
  rw [maxWidths_append, ← h.width, h.buffer, h.index, lineWidthAt_cur env fs _ _ h.cur_nz]

theorem foldl_max_ge_init (fs : FontStyle) (ls : List (List Nat)) (m : Int) :
    m ≤ ls.foldl (fun m l => max m (GfxGetStringWidth env l fs)) m := by
  induction ls generalizing m with
  | nil => exact le_refl _
  | cons l rest ih => exact le_trans (le_max_left _ _) (ih _)

theorem foldl_max_ge_mem (fs : FontStyle) (ls : List (List Nat)) (m : Int) :
    ∀ l ∈ ls, GfxGetStringWidth env l fs
      ≤ ls.foldl (fun m l => max m (GfxGetStringWidth env l fs)) m := by
  induction ls generalizing m with
  | nil => simp
  | cons l rest ih =>
    intro a ha
    rcases List.mem_cons.mp ha with h1 | h1
    · rw [h1]
      exact le_trans (le_max_right _ _) (foldl_max_ge_init env fs rest _)
    · exact ih _ a h1

theorem foldl_max_cases (fs : FontStyle) (ls : List (List Nat)) (m : Int) :
    ls.foldl (fun m l => max m (GfxGetStringWidth env l fs)) m = m ∨
      ∃ l ∈ ls, GfxGetStringWidth env l fs
        = ls.foldl (fun m l => max m (GfxGetStringWidth env l fs)) m := by
  induction ls generalizing m with
  | nil => exact Or.inl rfl
  | cons l rest ih =>
    rcases ih (max m (GfxGetStringWidth env l fs)) with h1 | ⟨a, ha, h2⟩
    · rcases max_cases m (GfxGetStringWidth env l fs) with ⟨h3, _⟩ | ⟨h3, _⟩
      · left
        rw [List.foldl_cons, h1, h3]
      · right
        refine ⟨l, List.mem_cons_self _ _, ?_⟩
        rw [List.foldl_cons, h1, h3]
    · exact Or.inr ⟨a, List.mem_cons_of_mem _ ha, h2⟩

theorem maxWidths_is_max (fs : FontStyle) (ls : List (List Nat)) (hne : ls ≠ []) :
    (∀ l ∈ ls, GfxGetStringWidth env l fs ≤ maxWidths env fs ls) ∧
      ∃ l ∈ ls, GfxGetStringWidth env l fs = maxWidths env fs ls := by
  refine ⟨foldl_max_ge_mem env fs ls 0, ?_⟩
  rcases foldl_max_cases env fs ls 0 with h1 | h1
  · obtain ⟨l, rest, hl⟩ := List.exists_cons_of_ne_nil hne
    have hmem : l ∈ ls := by rw [hl]; exact List.mem_cons_self _ _
    refine ⟨l, hmem, ?_⟩
    have h2 := foldl_max_ge_mem env fs ls 0 l hmem
    rw [h1] at h2
    unfold maxWidths
    rw [h1]
    exact le_antisymm h2 (GfxGetStringWidth_nonneg env l fs)
  · exact h1

/-! ### Measuring with the sprite font, cell by cell -/

theorem sprite_char_nodraw (dpi : rct_drawpixelinfo) (c : Nat) (info : text_draw_info)
    (h : hasFlag info.flags TEXT_DRAW_FLAG_NO_DRAW = true) :
    ttf_draw_character_sprite env dpi c info
      = (dpi, { info with x := info.x + env.font_sprite_get_codepoint_width info.FontStyle c }) := by
  unfold ttf_draw_character_sprite
  simp [h]

theorem raw_sprite_nodraw (dpi : rct_drawpixelinfo) (text : List Nat) (info : text_draw_info)
    (h : hasFlag info.flags TEXT_DRAW_FLAG_NO_DRAW = true) :
    ttf_draw_string_raw_sprite env dpi text info
      = (dpi, { info with x := info.x + glyphSum env info.FontStyle text }) := by
  unfold ttf_draw_string_raw_sprite CodepointView glyphSum
  induction text generalizing info with
  | nil => simp
  | cons c t ih =>
    rw [List.foldl_cons]
    dsimp only
    rw [sprite_char_nodraw env dpi c info h,
      ih { info with x := info.x + env.font_sprite_get_codepoint_width info.FontStyle c } h]
    simp [add_assoc]

theorem literal_sprite (dpi : rct_drawpixelinfo) (text : List Nat) (info : text_draw_info)
    (h : SpriteMeasure info) :
    ttf_process_string_literal env dpi text info
      = (dpi, { info with x := info.x + glyphSum env info.FontStyle text }) := by
  unfold ttf_process_string_literal
  simp only [h.2, Bool.not_false, if_true]
  exact raw_sprite_nodraw env dpi text info h.1

theorem process_literal_sprite (st : rct_drawpixelinfo × text_draw_info) (t : List Nat)
    (p : Int) (h : SpriteMeasure st.2) :
    ttf_process_token env st ⟨FormatToken.Literal, t, p⟩
      = (st.1, updateMax { st.2 with x := st.2.x + glyphSum env st.2.FontStyle t }) := by
  unfold ttf_process_token
  simp [token.IsLiteral, literal_sprite env st.1 t st.2 h]

theorem format_code_flag (dpi : rct_drawpixelinfo) (tok : token) (info : text_draw_info)
    (m : Nat) (hm : m &&& TEXT_DRAW_FLAG_OUTLINE = 0) (hm32 : m &&& 0xFFFFFFFF = m) :
    hasFlag (ttf_process_format_code env dpi tok info).2.flags m = hasFlag info.flags m := by
  unfold ttf_process_format_code
  split <;> try rfl
  · exact hasFlag_or_outline _ _ hm
  · exact hasFlag_clear_outline _ _ hm hm32
  · split
    · split_ifs <;> rfl
    · rfl
  · split_ifs <;> rfl

theorem process_token_sprite (st : rct_drawpixelinfo × text_draw_info) (tok : token)
    (h : SpriteMeasure st.2) : SpriteMeasure (ttf_process_token env st tok).2 := by
  unfold ttf_process_token
  dsimp only
  split_ifs
  · rw [literal_sprite env _ _ _ h]
    exact h
  · unfold ttf_process_string_codepoint
    rw [literal_sprite env _ _ _ h]
    exact h
  · constructor
    · show hasFlag (ttf_process_format_code env st.1 tok st.2).2.flags TEXT_DRAW_FLAG_NO_DRAW = true
      rw [format_code_flag env _ _ _ _ (by decide) (by decide)]
      exact h.1
    · show hasFlag (ttf_process_format_code env st.1 tok st.2).2.flags TEXT_DRAW_FLAG_TTF = false
      rw [format_code_flag env _ _ _ _ (by decide) (by decide)]
      exact h.2

theorem glyphSum_nonneg (hw : ∀ fs c, 0 ≤ env.font_sprite_get_codepoint_width fs c)
    (fs : FontStyle) (t : List Nat) : 0 ≤ glyphSum env fs t := by
  unfold glyphSum
  apply List.sum_nonneg
  intro a ha
  obtain ⟨c, _, hc⟩ := List.mem_map.mp ha
  rw [← hc]
  exact hw fs c

theorem glyphSum_cons (fs : FontStyle) (c : Nat) (t : List Nat) :
    glyphSum env fs (c :: t) = env.font_sprite_get_codepoint_width fs c + glyphSum env fs t := by
  simp [glyphSum]

/-- Measuring a literal run in two pieces gives the same draw state as measuring it
in one piece. -/
theorem process_literal_merge (hw : ∀ fs c, 0 ≤ env.font_sprite_get_codepoint_width fs c)
    (st : rct_drawpixelinfo × text_draw_info) (c : Nat) (t : List Nat) (p q r : Int)
    (h : SpriteMeasure st.2) :
    ttf_process_token env (ttf_process_token env st ⟨FormatToken.Literal, [c], p⟩)
        ⟨FormatToken.Literal, t, q⟩
      = ttf_process_token env st ⟨FormatToken.Literal, c :: t, r⟩ := by
  have h1 : SpriteMeasure (ttf_process_token env st ⟨FormatToken.Literal, [c], p⟩).2 :=
    process_token_sprite env st _ h
  rw [process_literal_sprite env _ t q h1, process_literal_sprite env st [c] p h,
    process_literal_sprite env st (c :: t) r h]
  have h2 := glyphSum_nonneg env hw st.2.FontStyle t
  have h3 : glyphSum env st.2.FontStyle [c]
      = env.font_sprite_get_codepoint_width st.2.FontStyle c := by simp [glyphSum]
  simp only [updateMax, glyphSum_cons, h3, Prod.mk.injEq, true_and, text_draw_info.mk.injEq,
    and_true]
  refine ⟨by ring, ?_, ?_⟩
  · rw [max_assoc]
    congr 1
    rw [max_eq_right]
    · ring
    · linarith
  · rw [max_assoc, max_self]

theorem FmtString_cons_control (c : Nat) (rest : List Nat) (k : FormatToken) (p : Int)
    (h : controlCode env c = some (k, p)) :
    FmtString env (c :: rest) = ⟨k, [c], p⟩ :: FmtString env rest := by
  rw [FmtString, h]

/-- Measuring the tokens of a text gives the same draw state as measuring its cells
one by one. -/
theorem process_cells (hw : ∀ fs c, 0 ≤ env.font_sprite_get_codepoint_width fs c)
    (X : List Nat) :
    ∀ st : rct_drawpixelinfo × text_draw_info, SpriteMeasure st.2 →
      (FmtString env X).foldl (ttf_process_token env) st
        = (X.map (cellToken env)).foldl (ttf_process_token env) st := by
  induction X with
  | nil => intro st _; rfl
  | cons c rest ih =>
    intro st h
    rw [List.map_cons, List.foldl_cons]
    cases hc : controlCode env c with
    | some kp =>
      obtain ⟨k, p⟩ := kp
      have hct : cellToken env c = ⟨k, [c], p⟩ := by simp [cellToken, hc]
      rw [hct, FmtString_cons_control env c rest k p hc, List.foldl_cons]
      exact ih _ (process_token_sprite env st _ h)
    | none =>
      have hct : cellToken env c = ⟨FormatToken.Literal, [c], 0⟩ := by simp [cellToken, hc]
      rw [hct, ← ih _ (process_token_sprite env st _ h), FmtString, hc]
      dsimp only
      split
      · rename_i t q ts heq
        rw [heq, List.foldl_cons, List.foldl_cons, process_literal_merge env hw st c t 0 q 0 h]
      · rw [List.foldl_cons]

theorem measureInfo_sprite (fs : FontStyle) (h : env.UseTrueTypeFont = false) :
    SpriteMeasure (measureInfo env fs false) := by
  unfold SpriteMeasure measureInfo
  rw [h]
  simp [hasFlag, TEXT_DRAW_FLAG_NO_DRAW, TEXT_DRAW_FLAG_TTF]
  decide

/-- With the sprite font and non-negative glyph widths, a text never measures less
than one of its initial segments. -/
theorem GfxGetStringWidth_mono (hw : ∀ fs c, 0 ≤ env.font_sprite_get_codepoint_width fs c)
    (httf : env.UseTrueTypeFont = false) (A B : List Nat) (fs : FontStyle) :
    GfxGetStringWidth env A fs ≤ GfxGetStringWidth env (A ++ B) fs := by
  have hs := measureInfo_sprite env fs httf
  rw [GfxGetStringWidth_eq, GfxGetStringWidth_eq, process_cells env hw A _ hs,
    process_cells env hw (A ++ B) _ hs, List.map_append, List.foldl_append]
  exact process_fold_maxX_le env _ _

/-! ### GfxWrapString on a text all of whose initial segments fit -/

theorem wrapCodepoint_fit (W : Int) (fs : FontStyle) (s : WrapState) (c : Nat)
    (hc : c ≠ 0) (hb : ∀ a ∈ s.buffer, a ≠ 0)
    (hfit : GfxGetStringWidth env (s.buffer ++ [c]) fs ≤ W)
    (h0 : s.currentLineIndex = 0) :
    (wrapCodepoint env W fs s c).buffer = s.buffer ++ [c] ∧
      (wrapCodepoint env W fs s c).currentLineIndex = 0 ∧
      (wrapCodepoint env W fs s c).numLines = s.numLines ∧
      (wrapCodepoint env W fs s c).maxWidth = s.maxWidth := by
  have hnz : ∀ a ∈ s.buffer ++ [c], a ≠ 0 := by
    intro a ha
    rcases List.mem_append.mp ha with h1 | h1
    · exact hb a h1
    · rw [List.mem_singleton.mp h1]; exact hc
  have hlw : lineWidthAt env fs (s.buffer ++ [c]) s.currentLineIndex ≤ W := by
    unfold lineWidthAt
    rw [h0, List.drop_zero, cstr_eq_self hnz]
    exact hfit
  unfold wrapCodepoint
  rw [cstr_write hc]
  dsimp only
  rw [if_pos (Or.inl hlw)]
  split_ifs <;> exact ⟨rfl, h0, rfl, rfl⟩

theorem wrapCodepoints_fit (W : Int) (fs : FontStyle) (S : List Nat) (hS : ∀ c ∈ S, c ≠ 0)
    (hfit : ∀ A B, A ++ B = S → GfxGetStringWidth env A fs ≤ W) :
    ∀ (cps rest : List Nat) (s : WrapState), s.buffer ++ (cps ++ rest) = S →
      s.currentLineIndex = 0 →
      (cps.foldl (wrapCodepoint env W fs) s).buffer ++ rest = S ∧
        (cps.foldl (wrapCodepoint env W fs) s).currentLineIndex = 0 ∧
        (cps.foldl (wrapCodepoint env W fs) s).numLines = s.numLines ∧
        (cps.foldl (wrapCodepoint env W fs) s).maxWidth = s.maxWidth := by
  intro cps
  induction cps with
  | nil =>
    intro rest s hb h0
    exact ⟨by simpa using hb, h0, rfl, rfl⟩
  | cons c t ih =>
    intro rest s hb h0
    have hmem : ∀ a ∈ s.buffer ++ [c], a ∈ S := by
      intro a ha
      rw [← hb]
      rcases List.mem_append.mp ha with h1 | h1
      · exact List.mem_append_left _ h1
      · rw [List.mem_singleton.mp h1]
        exact List.mem_append_right _ (List.mem_append_left _ (List.mem_cons_self _ _))
    have hc : c ≠ 0 := hS c (hmem c (List.mem_append_right _ (List.mem_singleton_self c)))
    have hbz : ∀ a ∈ s.buffer, a ≠ 0 := fun a ha => hS a (hmem a (List.mem_append_left _ ha))
    have hsplit : (s.buffer ++ [c]) ++ (t ++ rest) = S := by
      rw [← hb]; simp
    obtain ⟨h1, h2, h3, h4⟩ :=
      wrapCodepoint_fit env W fs s c hc hbz (hfit _ _ hsplit) h0
    rw [List.foldl_cons]
    obtain ⟨g1, g2, g3, g4⟩ := ih rest (wrapCodepoint env W fs s c) (by rw [h1]; exact hsplit) h2
    exact ⟨g1, g2, by rw [g3, h3], by rw [g4, h4]⟩

theorem wrapTokens_fit (W : Int) (fs : FontStyle) (S : List Nat) (hS : ∀ c ∈ S, c ≠ 0)
    (hfit : ∀ A B, A ++ B = S → GfxGetStringWidth env A fs ≤ W) :
    ∀ (toks : List token) (s : WrapState),
      (∀ tok ∈ toks, tok.kind ≠ FormatToken.Newline) →
      s.buffer ++ toks.flatMap (fun tok => tok.text) = S → s.currentLineIndex = 0 →
      (toks.foldl (wrapToken env W fs) s).buffer = S ∧
        (toks.foldl (wrapToken env W fs) s).currentLineIndex = 0 ∧
        (toks.foldl (wrapToken env W fs) s).numLines = s.numLines ∧
        (toks.foldl (wrapToken env W fs) s).maxWidth = s.maxWidth := by
  intro toks
  induction toks with
  | nil =>
    intro s _ hb h0
    exact ⟨by simpa using hb, h0, rfl, rfl⟩
  | cons tok rest ih =>
    intro s hnl hb h0
    have hk : tok.kind ≠ FormatToken.Newline := hnl tok (List.mem_cons_self _ _)
    have hrest : ∀ t ∈ rest, t.kind ≠ FormatToken.Newline :=
      fun t ht => hnl t (List.mem_cons_of_mem _ ht)
    rw [List.flatMap_cons] at hb
    rw [List.foldl_cons]
    have hstep : (wrapToken env W fs s tok).buffer ++ rest.flatMap (fun tok => tok.text) = S ∧
        (wrapToken env W fs s tok).currentLineIndex = 0 ∧
        (wrapToken env W fs s tok).numLines = s.numLines ∧
        (wrapToken env W fs s tok).maxWidth = s.maxWidth := by
      unfold wrapToken
      split_ifs with hlit
      · exact wrapCodepoints_fit env W fs S hS hfit _ _ s hb h0
      · exact ⟨by simpa using hb, h0, rfl, rfl⟩
    obtain ⟨h1, h2, h3, h4⟩ := hstep
    obtain ⟨g1, g2, g3, g4⟩ := ih _ hrest h1 h2
    exact ⟨g1, g2, by rw [g3, h3], by rw [g4, h4]⟩

/-! ### Newline tokens in GfxWrapString -/

theorem controlCode_ne_literal (c : Nat) (p : Int) :
    controlCode env c ≠ some (FormatToken.Literal, p) := by
  unfold controlCode
  split
  · split_ifs with hk
    · simp
    · intro h
      simp only [Option.some.injEq, Prod.mk.injEq] at h
      exact hk h.1
  · simp

/-- Every token of `FmtString` is a literal run of cells without a control code, or
one control cell together with its kind and argument. -/
theorem FmtString_token (t : List Nat) :
    ∀ tok ∈ FmtString env t,
      (tok.kind = FormatToken.Literal ∧ ∀ c ∈ tok.text, controlCode env c = none) ∨
        ∃ c, tok.text = [c] ∧ controlCode env c = some (tok.kind, tok.parameter) := by
  induction t with
  | nil => simp [FmtString]
  | cons c rest ih =>
    intro tok htok
    cases hc : controlCode env c with
    | some kp =>
      obtain ⟨k, p⟩ := kp
      rw [FmtString_cons_control env c rest k p hc] at htok
      rcases List.mem_cons.mp htok with h1 | h1
      · right
        exact ⟨c, by rw [h1], by rw [h1]; exact hc⟩
      · exact ih tok h1
    | none =>
      rw [FmtString, hc] at htok
      dsimp only at htok
      split at htok
      · rename_i t q ts heq
        rcases List.mem_cons.mp htok with h1 | h1
        · left
          rw [h1]
          refine ⟨rfl, ?_⟩
          intro a ha
          rcases List.mem_cons.mp ha with h2 | h2
          · rw [h2]; exact hc
          · have h3 := ih ⟨FormatToken.Literal, t, q⟩ (by rw [heq]; exact List.mem_cons_self _ _)
            rcases h3 with ⟨_, h4⟩ | ⟨d, _, h5⟩
            · exact h4 a h2
            · exact absurd h5 (controlCode_ne_literal env d q)
        · exact ih tok (by rw [heq]; exact List.mem_cons_of_mem _ h1)
      · rcases List.mem_cons.mp htok with h1 | h1
        · left
          rw [h1]
          refine ⟨rfl, ?_⟩
          intro a ha
          rw [List.mem_singleton.mp ha]
          exact hc
        · exact ih tok h1

theorem wrapCodepoint_numLines (W : Int) (fs : FontStyle) (s : WrapState) (c : Nat) :
    s.numLines ≤ (wrapCodepoint env W fs s c).numLines := by
  unfold wrapCodepoint
  dsimp only
  split_ifs <;> simp

theorem wrapCodepoints_numLines (W : Int) (fs : FontStyle) (cps : List Nat) (s : WrapState) :
    s.numLines ≤ (cps.foldl (wrapCodepoint env W fs) s).numLines := by
  induction cps generalizing s with
  | nil => exact le_refl _
  | cons c t ih =>
    exact le_trans (wrapCodepoint_numLines env W fs s c) (ih _)

theorem wrapTokens_numLines (W : Int) (fs : FontStyle) (toks : List token) (s : WrapState) :
    s.numLines + toks.countP (fun tok => decide (tok.kind = FormatToken.Newline))
      ≤ (toks.foldl (wrapToken env W fs) s).numLines := by
  induction toks generalizing s with
  | nil => simp
  | cons tok rest ih =>
    rw [List.foldl_cons]
    refine le_trans ?_ (ih _)
    rw [List.countP_cons]
    have hstep : s.numLines + (if decide (tok.kind = FormatToken.Newline) = true then 1 else 0)
        ≤ (wrapToken env W fs s tok).numLines := by
      unfold wrapToken
      split_ifs with h1 h2 h3 h4 h5
      all_goals first
        | exact wrapCodepoints_numLines env W fs _ s
        | simp
        | skip
      all_goals simp_all [token.IsLiteral]
    omega

theorem mem_insertNul {a : Nat} {X : List Nat} {i : Nat} (h : a ∈ insertNul X i) :
    a = 0 ∨ a ∈ X := by
  unfold insertNul at h
  rcases List.mem_append.mp h with h1 | h1
  · exact Or.inr (List.mem_of_mem_take h1)
  · rcases List.mem_cons.mp h1 with h2 | h2
    · exact Or.inl h2
    · exact Or.inr (List.mem_of_mem_drop h2)

theorem mem_trimAt {a : Nat} {X : List Nat} {i : Nat} (h : a ∈ trimAt X i) : a ∈ X := by
  unfold trimAt at h
  rcases List.mem_append.mp h with h1 | h1
  · exact List.mem_of_mem_take h1
  · exact List.mem_of_mem_drop ((List.dropWhile_sublist _).subset h1)

theorem wrapCodepoint_cells (W : Int) (fs : FontStyle) (s : WrapState) (c : Nat)
    (hcell : controlCode env c = none) (h : NoNewlineCell env s.buffer) :
    NoNewlineCell env (wrapCodepoint env W fs s c).buffer := by
  have hb : NoNewlineCell env (s.buffer ++ cstr (utf8_write_codepoint c)) := by
    intro a ha hz p
    rcases List.mem_append.mp ha with h1 | h1
    · exact h a h1 hz p
    · have h2 := (List.takeWhile_sublist _).subset h1
      rw [utf8_write_codepoint, List.mem_singleton] at h2
      rw [h2, hcell]
      simp
  unfold wrapCodepoint
  dsimp only
  split_ifs
  · exact hb
  · exact hb
  · exact hb
  · intro a ha hz p
    rcases mem_insertNul (mem_trimAt ha) with h1 | h1
    · exact absurd h1 hz
    · exact hb a h1 hz p

theorem wrapCodepoints_cells (W : Int) (fs : FontStyle) (cps : List Nat) :
    ∀ s : WrapState, (∀ c ∈ cps, controlCode env c = none) → NoNewlineCell env s.buffer →
      NoNewlineCell env (cps.foldl (wrapCodepoint env W fs) s).buffer := by
  induction cps with
  | nil => exact fun s _ h => h
  | cons c t ih =>
    intro s hc h
    exact ih _ (fun a ha => hc a (List.mem_cons_of_mem _ ha))
      (wrapCodepoint_cells env W fs s c (hc c (List.mem_cons_self _ _)) h)

theorem wrapToken_cells (W : Int) (fs : FontStyle) (s : WrapState) (tok : token)
    (htok : (tok.kind = FormatToken.Literal ∧ ∀ c ∈ tok.text, controlCode env c = none) ∨
      ∃ c, tok.text = [c] ∧ controlCode env c = some (tok.kind, tok.parameter))
    (h : NoNewlineCell env s.buffer) :
    NoNewlineCell env (wrapToken env W fs s tok).buffer := by
  unfold wrapToken
  split_ifs with hlit hnl
  · have hk : tok.kind = FormatToken.Literal := by simpa [token.IsLiteral] using hlit
    rcases htok with ⟨_, h1⟩ | ⟨d, _, h2⟩
    · exact wrapCodepoints_cells env W fs _ s h1 h
    · rw [hk] at h2
      exact absurd h2 (controlCode_ne_literal env d _)
  · intro a ha hz p
    rcases List.mem_append.mp ha with h1 | h1
    · exact h a h1 hz p
    · exact absurd (List.mem_singleton.mp h1) hz
  · have hk : tok.kind ≠ FormatToken.Literal := by simpa [token.IsLiteral] using hlit
    intro a ha hz p
    rcases List.mem_append.mp ha with h1 | h1
    · exact h a h1 hz p
    · rcases htok with ⟨h2, _⟩ | ⟨d, h3, h4⟩
      · exact absurd h2 hk
      · rw [h3, List.mem_singleton] at h1
        rw [h1, h4]
        intro h5
        simp only [Option.some.injEq, Prod.mk.injEq] at h5
        exact hnl h5.1

theorem wrapTokens_cells (W : Int) (fs : FontStyle) (toks : List token) :
    ∀ s : WrapState,
      (∀ tok ∈ toks,
        (tok.kind = FormatToken.Literal ∧ ∀ c ∈ tok.text, controlCode env c = none) ∨
          ∃ c, tok.text = [c] ∧ controlCode env c = some (tok.kind, tok.parameter)) →
      NoNewlineCell env s.buffer →
      NoNewlineCell env (toks.foldl (wrapToken env W fs) s).buffer := by
  induction toks with
  | nil => exact fun s _ h => h
  | cons tok rest ih =>
    intro s htoks h
    exact ih _ (fun t ht => htoks t (List.mem_cons_of_mem _ ht))
      (wrapToken_cells env W fs s tok (htoks tok (List.mem_cons_self _ _)) h)

theorem clip_narrow (text : List Nat) (W : Int) (fs : FontStyle) (h : W < 6) :
    GfxClipString env text W fs = ([], 0) := by
  unfold GfxClipString
  rw [if_pos h]

/-- The four ways `GfxClipString` can end, with what it leaves and returns. -/
theorem clip_cases (text : List Nat) (W : Int) (fs : FontStyle) :
    (W < 6 ∧ GfxClipString env text W fs = ([], 0)) ∨
      (6 ≤ W ∧ GfxClipString env text W fs = (text, GfxGetStringWidth env (cstr text) fs)) ∨
      (6 ≤ W ∧ W < GfxGetStringWidth env (cstr text) fs ∧
        W ≤ GfxGetStringWidth env ellipsis fs ∧ GfxClipString env text W fs = ([], 0)) ∨
      (6 ≤ W ∧ W < GfxGetStringWidth env (cstr text) fs ∧
        ∃ P Q, P ++ Q = cstr text ∧ GfxGetStringWidth env (P ++ ellipsis) fs < W ∧
          GfxClipString env text W fs
            = (P ++ ellipsis, GfxGetStringWidth env (P ++ ellipsis) fs)) := by
  by_cases hW : W < 6
  · exact Or.inl ⟨hW, clip_narrow env text W fs hW⟩
  · have hW6 : 6 ≤ W := not_lt.mp hW
    unfold GfxClipString
    rw [if_neg hW]
    dsimp only
    by_cases hfit : GfxGetStringWidth env (cstr text) fs ≤ W
    · rw [if_pos hfit]
      exact Or.inr (Or.inl ⟨hW6, rfl⟩)
    · rw [if_neg hfit]
      have hwide : W < GfxGetStringWidth env (cstr text) fs := not_le.mp hfit
      cases hloop : clipLoop env W fs (tokenCodepoints env (cstr text)) ⟨[], 0, 0⟩ with
      | none => exact Or.inr (Or.inl ⟨hW6, rfl⟩)
      | some r =>
        obtain ⟨t, w⟩ := r
        rw [tokenCodepoints_eq] at hloop
        rcases clipLoop_some env W fs (cstr text) [] ⟨[], 0, 0⟩ t w (cstr_nonzero text)
            (by simp) rfl (Or.inl ⟨rfl, rfl, rfl⟩) hloop with ⟨h1, h2, h3⟩ | ⟨P, Q, h1, h2, h3, h4⟩
        · exact Or.inr (Or.inr (Or.inl ⟨hW6, hwide, h3, by rw [h1, h2]⟩))
        · refine Or.inr (Or.inr (Or.inr ⟨hW6, hwide, P, Q, by simpa using h1, ?_, ?_⟩))
          · rw [← h3]; exact h4
          · rw [h2, h3]

end DrawState

/-! ### GfxWrapString on a text whose checked initial segments fit -/

section CheckedSegments

variable (env : Env)

theorem checkedSegment_concat (A : List Nat) (c : Nat) :
    checkedSegment env (A ++ [c]) = true
      ↔ controlCode env c = none ∧ ∃ d ∈ A, controlCode env d = none := by
  unfold checkedSegment
  rw [List.getLast?_append, List.dropLast_concat]
  simp [Option.isNone_iff_eq_none]

/-- A codepoint that fits the line, or that comes while both break candidates are
unset, is appended without a break. -/
theorem wrapCodepoint_accept (W : Int) (fs : FontStyle) (s : WrapState) (c : Nat)
    (hc : c ≠ 0) (hb : ∀ a ∈ s.buffer, a ≠ 0)
    (hacc : GfxGetStringWidth env (s.buffer ++ [c]) fs ≤ W ∨
      (s.splitIndex = none ∧ s.bestSplitIndex = none))
    (h0 : s.currentLineIndex = 0) :
    (wrapCodepoint env W fs s c).buffer = s.buffer ++ [c] ∧
      (wrapCodepoint env W fs s c).currentLineIndex = 0 ∧
      (wrapCodepoint env W fs s c).numLines = s.numLines ∧
      (wrapCodepoint env W fs s c).maxWidth = s.maxWidth ∧
      ¬ ((wrapCodepoint env W fs s c).splitIndex = none ∧
        (wrapCodepoint env W fs s c).bestSplitIndex = none) := by
  have hnz : ∀ a ∈ s.buffer ++ [c], a ≠ 0 := by
    intro a ha
    rcases List.mem_append.mp ha with h1 | h1
    · exact hb a h1
    · rw [List.mem_singleton.mp h1]; exact hc
  have hlw : lineWidthAt env fs (s.buffer ++ [c]) s.currentLineIndex ≤ W ∨
      (s.splitIndex = none ∧ s.bestSplitIndex = none) := by
    unfold lineWidthAt
    rw [h0, List.drop_zero, cstr_eq_self hnz]
    exact hacc
  unfold wrapCodepoint
  rw [cstr_write hc]
  dsimp only
  rw [if_pos hlw]
  split_ifs with h1 h2
  · exact ⟨rfl, h0, rfl, rfl, by simp⟩
  · exact ⟨rfl, h0, rfl, rfl, by simp⟩
  · exact ⟨rfl, h0, rfl, rfl, fun h => h2 h.1⟩

theorem wrapCodepoints_checked (W : Int) (fs : FontStyle) (S : List Nat)
    (hS : ∀ c ∈ S, c ≠ 0)
    (hfit : ∀ A ∈ S.inits, checkedSegment env A = true → GfxGetStringWidth env A fs ≤ W) :
    ∀ (cps rest : List Nat) (s : WrapState), (∀ c ∈ cps, controlCode env c = none) →
      s.buffer ++ (cps ++ rest) = S → s.currentLineIndex = 0 →
      ((∀ d ∈ s.buffer, controlCode env d ≠ none) →
        s.splitIndex = none ∧ s.bestSplitIndex = none) →
      (cps.foldl (wrapCodepoint env W fs) s).buffer ++ rest = S ∧
        (cps.foldl (wrapCodepoint env W fs) s).currentLineIndex = 0 ∧
        (cps.foldl (wrapCodepoint env W fs) s).numLines = s.numLines ∧
        (cps.foldl (wrapCodepoint env W fs) s).maxWidth = s.maxWidth ∧
        ((∀ d ∈ (cps.foldl (wrapCodepoint env W fs) s).buffer, controlCode env d ≠ none) →
          (cps.foldl (wrapCodepoint env W fs) s).splitIndex = none ∧
            (cps.foldl (wrapCodepoint env W fs) s).bestSplitIndex = none) := by
  intro cps
  induction cps with
  | nil =>
    intro rest s _ hb h0 hinv
    exact ⟨by simpa using hb, h0, rfl, rfl, hinv⟩
  | cons c t ih =>
    intro rest s hlit hb h0 hinv
    have hmem : ∀ a ∈ s.buffer ++ [c], a ∈ S := by
      intro a ha
      rw [← hb]
      rcases List.mem_append.mp ha with h1 | h1
      · exact List.mem_append_left _ h1
      · rw [List.mem_singleton.mp h1]
        exact List.mem_append_right _ (List.mem_append_left _ (List.mem_cons_self _ _))
    have hc : c ≠ 0 := hS c (hmem c (List.mem_append_right _ (List.mem_singleton_self c)))
    have hcl : controlCode env c = none := hlit c (List.mem_cons_self _ _)
    have hbz : ∀ a ∈ s.buffer, a ≠ 0 := fun a ha => hS a (hmem a (List.mem_append_left _ ha))
    have hsplit : (s.buffer ++ [c]) ++ (t ++ rest) = S := by
      rw [← hb]; simp
    have hacc : GfxGetStringWidth env (s.buffer ++ [c]) fs ≤ W ∨
        (s.splitIndex = none ∧ s.bestSplitIndex = none) := by
      by_cases hex : ∃ d ∈ s.buffer, controlCode env d = none
      · left
        exact hfit _ ((List.mem_inits _ _).mpr ⟨t ++ rest, hsplit⟩)
          ((checkedSegment_concat env s.buffer c).mpr ⟨hcl, hex⟩)
      · right
        exact hinv (fun d hd hn => hex ⟨d, hd, hn⟩)
    obtain ⟨h1, h2, h3, h4, h5⟩ := wrapCodepoint_accept env W fs s c hc hbz hacc h0
    rw [List.foldl_cons]
    obtain ⟨g1, g2, g3, g4, g5⟩ := ih rest (wrapCodepoint env W fs s c)
      (fun d hd => hlit d (List.mem_cons_of_mem _ hd)) (by rw [h1]; exact hsplit) h2
      (fun h => absurd hcl (h c (by rw [h1]; simp)))
    exact ⟨g1, g2, by rw [g3, h3], by rw [g4, h4], g5⟩

theorem wrapTokens_checked (W : Int) (fs : FontStyle) (S : List Nat) (hS : ∀ c ∈ S, c ≠ 0)
    (hfit : ∀ A ∈ S.inits, checkedSegment env A = true → GfxGetStringWidth env A fs ≤ W) :
    ∀ (toks : List token) (s : WrapState),
      (∀ tok ∈ toks, tok.kind ≠ FormatToken.Newline) →
      (∀ tok ∈ toks,
        (tok.kind = FormatToken.Literal ∧ ∀ c ∈ tok.text, controlCode env c = none) ∨
          ∃ c, tok.text = [c] ∧ controlCode env c = some (tok.kind, tok.parameter)) →
      s.buffer ++ toks.flatMap (fun tok => tok.text) = S → s.currentLineIndex = 0 →
      ((∀ d ∈ s.buffer, controlCode env d ≠ none) →
        s.splitIndex = none ∧ s.bestSplitIndex = none) →
      (toks.foldl (wrapToken env W fs) s).buffer = S ∧
        (toks.foldl (wrapToken env W fs) s).currentLineIndex = 0 ∧
        (toks.foldl (wrapToken env W fs) s).numLines = s.numLines ∧
        (toks.foldl (wrapToken env W fs) s).maxWidth = s.maxWidth := by
  intro toks
  induction toks with
  | nil =>
    intro s _ _ hb h0 _
    exact ⟨by simpa using hb, h0, rfl, rfl⟩
  | cons tok rest ih =>
    intro s hnl hshape hb h0 hinv
    have hk : tok.kind ≠ FormatToken.Newline := hnl tok (List.mem_cons_self _ _)
    have hrest : ∀ t ∈ rest, t.kind ≠ FormatToken.Newline :=
      fun t ht => hnl t (List.mem_cons_of_mem _ ht)
    have hshape2 := fun t ht => hshape t (List.mem_cons_of_mem _ ht)
    rw [List.flatMap_cons] at hb
    rw [List.foldl_cons]
    have hstep : (wrapToken env W fs s tok).buffer ++ rest.flatMap (fun tok => tok.text) = S ∧
        (wrapToken env W fs s tok).currentLineIndex = 0 ∧
        (wrapToken env W fs s tok).numLines = s.numLines ∧
        (wrapToken env W fs s tok).maxWidth = s.maxWidth ∧
        ((∀ d ∈ (wrapToken env W fs s tok).buffer, controlCode env d ≠ none) →
          (wrapToken env W fs s tok).splitIndex = none ∧
            (wrapToken env W fs s tok).bestSplitIndex = none) := by
      unfold wrapToken
      split_ifs with hlit
      · have hkl : tok.kind = FormatToken.Literal := by simpa [token.IsLiteral] using hlit
        have hcells : ∀ c ∈ tok.text, controlCode env c = none := by
          rcases hshape tok (List.mem_cons_self _ _) with ⟨_, h1⟩ | ⟨d, _, h2⟩
          · exact h1
          · rw [hkl] at h2
            exact absurd h2 (controlCode_ne_literal env d _)
        exact wrapCodepoints_checked env W fs S hS hfit _ _ s hcells hb h0 hinv
      · refine ⟨by simpa using hb, h0, rfl, rfl, ?_⟩
        intro h
        exact hinv (fun d hd => h d (List.mem_append_left _ hd))
    obtain ⟨h1, h2, h3, h4, h5⟩ := hstep
    obtain ⟨g1, g2, g3, g4⟩ := ih (wrapToken env W fs s tok) hrest hshape2 h1 h2 h5
    exact ⟨g1, g2, by rw [g3, h3], by rw [g4, h4]⟩

theorem wrapToken_literal (W : Int) (fs : FontStyle) (s : WrapState) (t : List Nat)
    (p : Int) :
    wrapToken env W fs s ⟨FormatToken.Literal, t, p⟩ = t.foldl (wrapCodepoint env W fs) s := by
  unfold wrapToken
  have hl : token.IsLiteral ⟨FormatToken.Literal, t, p⟩ = true := rfl
  rw [hl, if_pos rfl]
  rfl

/-- The token loop of `GfxWrapString` does the same as a loop over the cells of the
text, each cell taken as a token of its own. -/
theorem wrapLoop_by_cells (W : Int) (fs : FontStyle) (X : List Nat) :
    ∀ s : WrapState,
      (FmtString env X).foldl (wrapToken env W fs) s
        = (X.map (cellToken env)).foldl (wrapToken env W fs) s := by
  induction X with
  | nil => intro s; rfl
  | cons c rest ih =>
    intro s
    rw [List.map_cons, List.foldl_cons]
    cases hc : controlCode env c with
    | some kp =>
      obtain ⟨k, p⟩ := kp
      have hct : cellToken env c = ⟨k, [c], p⟩ := by simp [cellToken, hc]
      rw [hct, FmtString_cons_control env c rest k p hc, List.foldl_cons]
      exact ih _
    | none =>
      have hct : cellToken env c = ⟨FormatToken.Literal, [c], 0⟩ := by simp [cellToken, hc]
      rw [hct, ← ih, FmtString, hc]
      dsimp only
      split
      · rename_i t q ts heq
        rw [heq, List.foldl_cons, List.foldl_cons, wrapToken_literal, wrapToken_literal,
          wrapToken_literal]
        rfl
      · rw [List.foldl_cons]

/-- The loop state after a text `X ++ Y` without NUL is the loop over the cells of `Y`
continued from the loop state after `X`. -/
theorem wrapLoop_append (W : Int) (fs : FontStyle) (X Y : List Nat)
    (h : ∀ x ∈ X ++ Y, x ≠ 0) :
    wrapLoop env (X ++ Y) W fs
      = (Y.map (cellToken env)).foldl (wrapToken env W fs) (wrapLoop env X W fs) := by
  have e1 : cstr (X ++ Y) = X ++ Y := cstr_eq_self h
  have e2 : cstr X = X := cstr_eq_self (fun x hx => h x (List.mem_append_left _ hx))
  unfold wrapLoop
  rw [e1, e2, wrapLoop_by_cells, wrapLoop_by_cells, List.map_append, List.foldl_append]

theorem wrapToken_literal_cell (W : Int) (fs : FontStyle) (s : WrapState) (c : Nat)
    (hc : controlCode env c = none) :
    wrapToken env W fs s (cellToken env c) = wrapCodepoint env W fs s c := by
  have hct : cellToken env c = ⟨FormatToken.Literal, [c], 0⟩ := by simp [cellToken, hc]
  rw [hct, wrapToken_literal]
  rfl

theorem wrapToken_format_cell (W : Int) (fs : FontStyle) (s : WrapState) (f : Nat)
    (hf : (controlCode env f).isSome = true)
    (hk : (cellToken env f).kind ≠ FormatToken.Newline) :
    wrapToken env W fs s (cellToken env f) = { s with buffer := s.buffer ++ [f] } := by
  cases hc : controlCode env f with
  | none => simp [hc] at hf
  | some kp =>
    obtain ⟨k, p⟩ := kp
    have hct : cellToken env f = ⟨k, [f], p⟩ := by simp [cellToken, hc]
    have hlit : k ≠ FormatToken.Literal := by
      intro hkl
      unfold controlCode at hc
      split at hc
      · rename_i k2 p2 heq
        split_ifs at hc with h1
        simp only [Option.some.injEq, Prod.mk.injEq] at hc
        exact h1 (hc.1.trans hkl)
      · exact absurd hc (by simp)
    rw [hct] at hk ⊢
    simp only at hk
    unfold wrapToken
    simp [token.IsLiteral, hlit, hk]

theorem wrapTokens_format_cells (W : Int) (fs : FontStyle) (F : List Nat) :
    ∀ s : WrapState,
      (∀ f ∈ F, (controlCode env f).isSome = true ∧
        (cellToken env f).kind ≠ FormatToken.Newline) →
      (F.map (cellToken env)).foldl (wrapToken env W fs) s
        = { s with buffer := s.buffer ++ F } := by
  induction F with
  | nil => intro s _; simp
  | cons f rest ih =>
    intro s h
    rw [List.map_cons, List.foldl_cons,
      wrapToken_format_cell env W fs s f (h f (List.mem_cons_self _ _)).1
        (h f (List.mem_cons_self _ _)).2,
      ih _ (fun g hg => h g (List.mem_cons_of_mem _ hg))]
    simp

/-- One codepoint appended at the start line: it makes a break, or it is appended and
leaves a break candidate set. -/
theorem wrapCodepoint_step (W : Int) (fs : FontStyle) (s : WrapState) (c : Nat)
    (hc0 : c ≠ 0) (h0 : s.currentLineIndex = 0) :
    (wrapCodepoint env W fs s c).numLines = s.numLines + 1 ∨
      ((wrapCodepoint env W fs s c).numLines = s.numLines ∧
        (wrapCodepoint env W fs s c).buffer = s.buffer ++ [c] ∧
        (wrapCodepoint env W fs s c).currentLineIndex = 0 ∧
        ¬ ((wrapCodepoint env W fs s c).splitIndex = none ∧
          (wrapCodepoint env W fs s c).bestSplitIndex = none)) := by
  unfold wrapCodepoint
  rw [cstr_write hc0]
  dsimp only
  split_ifs with h1 h2 h3
  · exact Or.inr ⟨rfl, rfl, h0, by simp⟩
  · exact Or.inr ⟨rfl, rfl, h0, by simp⟩
  · exact Or.inr ⟨rfl, rfl, h0, fun h => h3 h.1⟩
  · exact Or.inl rfl

/-- A codepoint that overflows the line while a break candidate is set makes a
break. -/
theorem wrapCodepoint_overflow (W : Int) (fs : FontStyle) (s : WrapState) (c : Nat)
    (hc0 : c ≠ 0) (hover : W < lineWidthAt env fs (s.buffer ++ [c]) s.currentLineIndex)
    (hset : ¬ (s.splitIndex = none ∧ s.bestSplitIndex = none)) :
    (wrapCodepoint env W fs s c).numLines = s.numLines + 1 := by
  unfold wrapCodepoint
  rw [cstr_write hc0]
  dsimp only
  rw [if_neg (by
    intro h
    rcases h with h | h
    · omega
    · exact hset h)]

theorem wrapCells_numLines (W : Int) (fs : FontStyle) (cells : List Nat) (s : WrapState) :
    s.numLines ≤ ((cells.map (cellToken env)).foldl (wrapToken env W fs) s).numLines :=
  le_trans (Nat.le_add_right _ _) (wrapTokens_numLines env W fs _ s)

/-- The loop over the cells of a text either has made a break, or it holds the cells
read so far on the start line, with a break candidate set once a character was
read. -/
theorem wrapCells_progress (W : Int) (fs : FontStyle) (cells : List Nat) :
    ∀ (B : List Nat) (s : WrapState), (∀ c ∈ cells, c ≠ 0) →
      (0 < s.numLines ∨
        (s.buffer = B ∧ s.currentLineIndex = 0 ∧
          ((∃ d ∈ B, controlCode env d = none) →
            ¬ (s.splitIndex = none ∧ s.bestSplitIndex = none)))) →
      (0 < ((cells.map (cellToken env)).foldl (wrapToken env W fs) s).numLines ∨
        (((cells.map (cellToken env)).foldl (wrapToken env W fs) s).buffer = B ++ cells ∧
          ((cells.map (cellToken env)).foldl (wrapToken env W fs) s).currentLineIndex = 0 ∧
          ((∃ d ∈ B ++ cells, controlCode env d = none) →
            ¬ (((cells.map (cellToken env)).foldl (wrapToken env W fs) s).splitIndex = none ∧
              ((cells.map (cellToken env)).foldl (wrapToken env W fs) s).bestSplitIndex
                = none)))) := by
  induction cells with
  | nil =>
    intro B s _ h
    simpa using h
  | cons c rest ih =>
    intro B s hnz h
    have hc0 : c ≠ 0 := hnz c (List.mem_cons_self _ _)
    have hrest : ∀ d ∈ rest, d ≠ 0 := fun d hd => hnz d (List.mem_cons_of_mem _ hd)
    rw [List.map_cons, List.foldl_cons]
    have e : B ++ c :: rest = (B ++ [c]) ++ rest := by simp
    rw [e]
    apply ih (B ++ [c]) _ hrest
    rcases h with h | ⟨hb, h0, hset⟩
    · exact Or.inl (lt_of_lt_of_le h
        (wrapCells_numLines env W fs [c] s))
    · cases hcc : controlCode env c with
      | none =>
        rw [wrapToken_literal_cell env W fs s c hcc]
        rcases wrapCodepoint_step env W fs s c hc0 h0 with h1 | ⟨_, h2, h3, h4⟩
        · left; omega
        · right
          exact ⟨by rw [h2, hb], h3, fun _ => h4⟩
      | some kp =>
        by_cases hk : (cellToken env c).kind = FormatToken.Newline
        · left
          have := wrapTokens_numLines env W fs [cellToken env c] s
          simp only [List.countP_cons, List.countP_nil, hk, decide_True, if_true,
            List.foldl_cons, List.foldl_nil] at this
          omega
        · right
          rw [wrapToken_format_cell env W fs s c (by simp [hcc]) hk]
          refine ⟨by simp [hb], h0, ?_⟩
          intro hex
          apply hset
          obtain ⟨d, hd, hdn⟩ := hex
          rcases List.mem_append.mp hd with h1 | h1
          · exact ⟨d, h1, hdn⟩
          · rw [List.mem_singleton.mp h1, hcc] at hdn
            exact absurd hdn (by simp)

/-- The condition of the amended C1 is necessary: when an initial segment that ends in
a character and holds an earlier character measures more than the budget,
`GfxWrapString` reports a line break. -/
theorem GfxWrapString_checked_breaks (text : List Nat) (W : Int) (fs : FontStyle)
    (A : List Nat) (hA : A ∈ (cstr text).inits) (hchk : checkedSegment env A = true)
    (hover : W < GfxGetStringWidth env A fs) :
    (GfxWrapString env text W fs).outNumLines ≠ 0 := by
  obtain ⟨R, hAR⟩ := (List.mem_inits _ _).mp hA
  have hS : ∀ c ∈ cstr text, c ≠ 0 := cstr_nonzero text
  -- the segment is `B ++ [c]`
  have hne : A ≠ [] := by
    intro h
    rw [h] at hchk
    simp [checkedSegment] at hchk
  obtain ⟨B, c, hBc⟩ : ∃ B c, A = B ++ [c] :=
    ⟨A.dropLast, A.getLast hne, (List.dropLast_append_getLast hne).symm⟩
  subst hBc
  obtain ⟨hcl, hex⟩ := (checkedSegment_concat env B c).mp hchk
  have hBnz : ∀ b ∈ B, b ≠ 0 := fun b hb =>
    hS b (by rw [← hAR]; exact List.mem_append_left _ (List.mem_append_left _ hb))
  have hc0 : c ≠ 0 :=
    hS c (by rw [← hAR]; exact List.mem_append_left _ (List.mem_append_right _ (by simp)))
  have hAnz : ∀ a ∈ B ++ [c], a ≠ 0 := fun a ha =>
    hS a (by rw [← hAR]; exact List.mem_append_left _ ha)
  have hloop : wrapLoop env text W fs
      = (R.map (cellToken env)).foldl (wrapToken env W fs)
          (wrapCodepoint env W fs
            ((B.map (cellToken env)).foldl (wrapToken env W fs) ⟨[], 0, none, none, 0, 0⟩) c) := by
    unfold wrapLoop
    rw [wrapLoop_by_cells, ← hAR, List.map_append, List.foldl_append, List.map_append,
      List.foldl_append]
    simp only [List.map_cons, List.map_nil, List.foldl_cons, List.foldl_nil]
    rw [wrapToken_literal_cell env W fs _ c hcl]
  show (wrapLoop env text W fs).numLines ≠ 0
  rw [hloop]
  have hmono := wrapCells_numLines env W fs R
    (wrapCodepoint env W fs
      ((B.map (cellToken env)).foldl (wrapToken env W fs) ⟨[], 0, none, none, 0, 0⟩) c)
  have hstep := wrapCodepoint_numLines env W fs
    ((B.map (cellToken env)).foldl (wrapToken env W fs) ⟨[], 0, none, none, 0, 0⟩) c
  rcases wrapCells_progress env W fs B [] ⟨[], 0, none, none, 0, 0⟩ hBnz
      (Or.inr ⟨rfl, rfl, fun h => by simp at h⟩) with h | ⟨hb, h0, hset⟩
  · omega
  · rw [List.nil_append] at hb hset
    have hov := wrapCodepoint_overflow env W fs
      ((B.map (cellToken env)).foldl (wrapToken env W fs) ⟨[], 0, none, none, 0, 0⟩) c hc0
      (by
        unfold lineWidthAt
        rw [hb, h0, List.drop_zero, cstr_eq_self hAnz]
        exact hover)
      (hset hex)
    omega

/-- With glyph metrics under which a text never measures less than one of its initial
segments, a text without `Newline` token that fits the budget is wrapped without a
break. -/
theorem GfxWrapString_monotone (text : List Nat) (W : Int) (fs : FontStyle)
    (hmono : ∀ A B, GfxGetStringWidth env A fs ≤ GfxGetStringWidth env (A ++ B) fs)
    (hnl : ∀ tok ∈ FmtString env (cstr text), tok.kind ≠ FormatToken.Newline)
    (hW : GfxGetStringWidth env (cstr text) fs ≤ W) :
    (GfxWrapString env text W fs).outNumLines = 0 ∧
      (GfxWrapString env text W fs).width = GfxGetStringWidth env (cstr text) fs ∧
      (GfxWrapString env text W fs).text = cstr text := by
  have hS : ∀ c ∈ cstr text, c ≠ 0 := cstr_nonzero text
  have hfit : ∀ A ∈ (cstr text).inits, checkedSegment env A = true →
      GfxGetStringWidth env A fs ≤ W := by
    intro A hA _
    obtain ⟨B, hAB⟩ := (List.mem_inits _ _).mp hA
    have h := hmono A B
    rw [hAB] at h
    exact le_trans h hW
  obtain ⟨h1, h2, h3, h4⟩ :=
    wrapTokens_checked env W fs (cstr text) hS hfit (FmtString env (cstr text))
      ⟨[], 0, none, none, 0, 0⟩ hnl (FmtString_token env (cstr text))
      (by simpa using FmtString_texts env (cstr text)) rfl (fun _ => ⟨rfl, rfl⟩)
  have hloop : wrapLoop env text W fs
      = (FmtString env (cstr text)).foldl (wrapToken env W fs) ⟨[], 0, none, none, 0, 0⟩ := rfl
  unfold GfxWrapString
  dsimp only
  rw [hloop, h1, h2, h3, h4]
  refine ⟨rfl, ?_, rfl⟩
  unfold lineWidthAt
  rw [List.drop_zero, cstr_cstr]
  exact max_eq_right (GfxGetStringWidth_nonneg env _ fs)

/-- With the sprite font and non-negative glyph widths (cursor in `Int`), a text without
`Newline` token that fits the budget is wrapped without a break. -/
theorem GfxWrapString_sprite (text : List Nat) (W : Int) (fs : FontStyle)
    (httf : env.UseTrueTypeFont = false)
    (hw : ∀ style c, 0 ≤ env.font_sprite_get_codepoint_width style c)
    (hnl : ∀ tok ∈ FmtString env (cstr text), tok.kind ≠ FormatToken.Newline)
    (hW : GfxGetStringWidth env (cstr text) fs ≤ W) :
    (GfxWrapString env text W fs).outNumLines = 0 ∧
      (GfxWrapString env text W fs).width = GfxGetStringWidth env (cstr text) fs ∧
      (GfxWrapString env text W fs).text = cstr text :=
  GfxWrapString_monotone env text W fs
    (fun A B => GfxGetStringWidth_mono env hw httf A B fs) hnl hW

end CheckedSegments

/-! ## The claims about GfxClipString and GfxWrapString -/

/-- C1, as stated, fails.  The text `a<Newline>b` measures 5 pixels and fits the budget
100, yet `GfxWrapString` reports one line break.  And without any `Newline` token: in
the outline font of `pairEnv` the text `abc` measures 15 pixels and fits the budget 20,
but its initial segment `ab` measures 30, so the loop breaks at `b` and reports one line
break. -/
theorem GfxWrapString_fits_counterexample :
    (GfxGetStringWidth demoEnv [97, 1, 98] FontStyle.Medium ≤ 100 ∧
      (GfxWrapString demoEnv [97, 1, 98] 100 FontStyle.Medium).outNumLines ≠ 0) ∧
    (GfxGetStringWidth pairEnv [97, 98, 99] FontStyle.Medium ≤ 20 ∧
      (∀ tok ∈ FmtString pairEnv [97, 98, 99], tok.kind ≠ FormatToken.Newline) ∧
      GfxGetStringWidth pairEnv [97, 98] FontStyle.Medium = 30 ∧
      (GfxWrapString pairEnv [97, 98, 99] 20 FontStyle.Medium).outNumLines ≠ 0) := by
  decide

/-- C1, amended: for every text without a `Newline` token such that each of its initial
segments that ends in a character and holds an earlier character (`checkedSegment`)
measures at most the budget, `GfxWrapString` reports zero line breaks, returns the
measured width of the text and writes the text back unchanged.  Nothing is assumed about
the font.  With glyph metrics under which a text never measures less than one of its
initial segments, the condition holds as soon as the whole text fits. -/
theorem GfxWrapString_fits (env : Env) (text : List Nat) (W : Int) (fs : FontStyle)
    (hnl : ∀ tok ∈ FmtString env (cstr text), tok.kind ≠ FormatToken.Newline)
    (hfit : ∀ A ∈ (cstr text).inits, checkedSegment env A = true →
      GfxGetStringWidth env A fs ≤ W) :
    (GfxWrapString env text W fs).outNumLines = 0 ∧
      (GfxWrapString env text W fs).width = GfxGetStringWidth env (cstr text) fs ∧
      (GfxWrapString env text W fs).text = cstr text := by
  have hS : ∀ c ∈ cstr text, c ≠ 0 := cstr_nonzero text
  obtain ⟨h1, h2, h3, h4⟩ :=
    wrapTokens_checked env W fs (cstr text) hS hfit (FmtString env (cstr text))
      ⟨[], 0, none, none, 0, 0⟩ hnl (FmtString_token env (cstr text))
      (by simpa using FmtString_texts env (cstr text)) rfl (fun _ => ⟨rfl, rfl⟩)
  have hloop : wrapLoop env text W fs
      = (FmtString env (cstr text)).foldl (wrapToken env W fs) ⟨[], 0, none, none, 0, 0⟩ := rfl
  unfold GfxWrapString
  dsimp only
  rw [hloop, h1, h2, h3, h4]
  refine ⟨rfl, ?_, rfl⟩
  unfold lineWidthAt
  rw [List.drop_zero, cstr_cstr]
  exact max_eq_right (GfxGetStringWidth_nonneg env _ fs)

/-- Witness for `GfxWrapString_fits`: the text `ab cd` at budget 50 in the outline font
of `ttfDemoEnv`, where a run of `n` cells measures `10 * n` pixels. -/
theorem GfxWrapString_fits_witness :
    (∀ A ∈ (cstr [97, 98, 32, 99, 100]).inits, checkedSegment ttfDemoEnv A = true →
        GfxGetStringWidth ttfDemoEnv A FontStyle.Medium ≤ 50) ∧
      (GfxWrapString ttfDemoEnv [97, 98, 32, 99, 100] 50 FontStyle.Medium).outNumLines = 0 ∧
      (GfxWrapString ttfDemoEnv [97, 98, 32, 99, 100] 50 FontStyle.Medium).width
        = GfxGetStringWidth ttfDemoEnv (cstr [97, 98, 32, 99, 100]) FontStyle.Medium ∧
      (GfxWrapString ttfDemoEnv [97, 98, 32, 99, 100] 50 FontStyle.Medium).text
        = cstr [97, 98, 32, 99, 100] :=
  ⟨by decide,
    GfxWrapString_fits ttfDemoEnv [97, 98, 32, 99, 100] 50 FontStyle.Medium
      (by decide) (by decide)⟩

/-- C2: for every text and every width below 6, `GfxClipString` leaves the empty
string in the buffer and returns 0. -/
theorem GfxClipString_narrow (env : Env) (text : List Nat) (W : Int) (fs : FontStyle)
    (h : W < 6) : GfxClipString env text W fs = ([], 0) := by
  unfold GfxClipString
  rw [if_pos h]

/-- Witness for `GfxClipString_narrow`: the text `abc` at width 5. -/
theorem GfxClipString_narrow_witness :
    (5 : Int) < 6 ∧ GfxClipString demoEnv [97, 98, 99] 5 FontStyle.Medium = ([], 0) :=
  ⟨by decide, GfxClipString_narrow demoEnv [97, 98, 99] 5 FontStyle.Medium (by decide)⟩

/-- C3: `GfxClipString` is idempotent: clipping the text it leaves once more with the
same width leaves the same text and returns the same width. -/
theorem GfxClipString_idempotent (env : Env) (text : List Nat) (W : Int) (fs : FontStyle) :
    GfxClipString env (GfxClipString env text W fs).1 W fs = GfxClipString env text W fs := by
  rcases clip_cases env text W fs with
    ⟨hW, h⟩ | ⟨_, h⟩ | ⟨hW, _, _, h⟩ | ⟨hW, _, P, Q, hPQ, hlt, h⟩
  · rw [h]
    exact clip_narrow env [] W fs hW
  · rw [h]
    exact h
  · rw [h]
    unfold GfxClipString
    rw [if_neg (not_lt.mpr hW)]
    dsimp only
    have h0 : GfxGetStringWidth env (cstr []) fs = 0 := GfxGetStringWidth_nil env fs
    rw [h0, if_pos (by linarith)]
  · rw [h]
    have hP : ∀ c ∈ P, c ≠ 0 := by
      intro c hc
      exact cstr_nonzero text c (by rw [← hPQ]; exact List.mem_append_left _ hc)
    unfold GfxClipString
    rw [if_neg (not_lt.mpr hW)]
    dsimp only
    rw [cstr_eq_self (ellipsis_nonzero hP), if_pos (le_of_lt hlt)]

/-- C4: for every text that already fits a width of at least 6, `GfxClipString`
leaves the buffer unchanged and returns the measured width of the text. -/
theorem GfxClipString_fits (env : Env) (text : List Nat) (W : Int) (fs : FontStyle)
    (hW : 6 ≤ W) (hfit : GfxGetStringWidth env (cstr text) fs ≤ W) :
    GfxClipString env text W fs = (text, GfxGetStringWidth env (cstr text) fs) := by
  unfold GfxClipString
  rw [if_neg (not_lt.mpr hW)]
  dsimp only
  rw [if_pos hfit]

/-- Witness for `GfxClipString_fits`: the text `abcdefgh` (40 pixels) at width 40. -/
theorem GfxClipString_fits_witness :
    (6 : Int) ≤ 40 ∧
      GfxGetStringWidth demoEnv (cstr [97, 98, 99, 100, 101, 102, 103, 104]) FontStyle.Medium
        ≤ 40 ∧
      GfxClipString demoEnv [97, 98, 99, 100, 101, 102, 103, 104] 40 FontStyle.Medium
        = ([97, 98, 99, 100, 101, 102, 103, 104],
            GfxGetStringWidth demoEnv (cstr [97, 98, 99, 100, 101, 102, 103, 104])
              FontStyle.Medium) :=
  ⟨by decide, by decide,
    GfxClipString_fits demoEnv [97, 98, 99, 100, 101, 102, 103, 104] 40 FontStyle.Medium
      (by decide) (by decide)⟩

/-- C5, evaluated at the failing input: the text `W` (11 pixels) clipped to width 10
comes back unchanged, still 11 pixels wide. -/
theorem GfxClipString_unclipped :
    GfxClipString demoEnv [87] 10 FontStyle.Medium = ([87], 11) ∧
      (10 : Int) < GfxGetStringWidth demoEnv [87] FontStyle.Medium := by
  decide

/-- C6: the value returned by `GfxClipString` is the measured width of the text it
leaves in the buffer, in every branch. -/
theorem GfxClipString_returns_width (env : Env) (text : List Nat) (W : Int) (fs : FontStyle) :
    (GfxClipString env text W fs).2
      = GfxGetStringWidth env (cstr (GfxClipString env text W fs).1) fs := by
  rcases clip_cases env text W fs with
    ⟨_, h⟩ | ⟨_, h⟩ | ⟨_, _, _, h⟩ | ⟨_, _, P, Q, hPQ, _, h⟩
  · rw [h]
    exact (GfxGetStringWidth_nil env fs).symm
  · rw [h]
  · rw [h]
    exact (GfxGetStringWidth_nil env fs).symm
  · rw [h]
    have hP : ∀ c ∈ P, c ≠ 0 := by
      intro c hc
      exact cstr_nonzero text c (by rw [← hPQ]; exact List.mem_append_left _ hc)
    dsimp only
    rw [cstr_eq_self (ellipsis_nonzero hP)]

/-- C7, as stated, fails: the text `ab` (10 pixels) does not fit the width 8, and
`GfxClipString` leaves the empty string, which ends in no period at all. -/
theorem GfxClipString_ellipsis_counterexample :
    (6 : Int) ≤ 8 ∧ (8 : Int) < GfxGetStringWidth demoEnv [97, 98] FontStyle.Medium ∧
      ¬ ∃ P, (GfxClipString demoEnv [97, 98] 8 FontStyle.Medium).1 = P ++ ellipsis := by
  refine ⟨by decide, by decide, ?_⟩
  have h : (GfxClipString demoEnv [97, 98] 8 FontStyle.Medium).1 = [] := by decide
  rw [h]
  rintro ⟨P, hP⟩
  have hlen := congrArg List.length hP
  simp [ellipsis] at hlen

/-- C7, amended: when the text does not fit a width of at least 6 and some proper
initial segment of it followed by the ellipsis measures at least the width, the text
`GfxClipString` leaves is either empty, the ellipsis alone measuring at least the
width, or an initial segment of the text followed by exactly three periods. -/
theorem GfxClipString_truncated (env : Env) (text : List Nat) (W : Int) (fs : FontStyle)
    (hW : 6 ≤ W) (hwide : W < GfxGetStringWidth env (cstr text) fs)
    (hcut : ∃ Q R, cstr text = Q ++ R ∧ R ≠ [] ∧
      W ≤ GfxGetStringWidth env (Q ++ ellipsis) fs) :
    ((GfxClipString env text W fs).1 = [] ∧ W ≤ GfxGetStringWidth env ellipsis fs) ∨
      ∃ P, P <+: cstr text ∧ (GfxClipString env text W fs).1 = P ++ ellipsis := by
  unfold GfxClipString
  rw [if_neg (not_lt.mpr hW)]
  dsimp only
  rw [if_neg (not_le.mpr hwide), tokenCodepoints_eq]
  cases hloop : clipLoop env W fs (cstr text) ⟨[], 0, 0⟩ with
  | none =>
    obtain ⟨Q, R, hQR, hR, hge⟩ := hcut
    have h := clipLoop_none env W fs (cstr text) [] ⟨[], 0, 0⟩ (cstr_nonzero text) rfl hloop
      Q R hQR hR
    rw [List.nil_append] at h
    exact absurd h (not_lt.mpr hge)
  | some r =>
    obtain ⟨t, w⟩ := r
    rcases clipLoop_some env W fs (cstr text) [] ⟨[], 0, 0⟩ t w (cstr_nonzero text)
        (by simp) rfl (Or.inl ⟨rfl, rfl, rfl⟩) hloop with ⟨h1, _, h3⟩ | ⟨P, Q, h1, h2, _, _⟩
    · exact Or.inl ⟨h1, h3⟩
    · exact Or.inr ⟨P, ⟨Q, by simpa using h1⟩, h2⟩

/-- Witness for `GfxClipString_truncated`: the text `abcdefgh` at width 30 is cut to
`abcd...`. -/
theorem GfxClipString_truncated_witness :
    (6 : Int) ≤ 30 ∧
      (30 : Int) < GfxGetStringWidth demoEnv (cstr [97, 98, 99, 100, 101, 102, 103, 104])
        FontStyle.Medium ∧
      (((GfxClipString demoEnv [97, 98, 99, 100, 101, 102, 103, 104] 30 FontStyle.Medium).1 = [] ∧
          30 ≤ GfxGetStringWidth demoEnv ellipsis FontStyle.Medium) ∨
        ∃ P, P <+: cstr [97, 98, 99, 100, 101, 102, 103, 104] ∧
          (GfxClipString demoEnv [97, 98, 99, 100, 101, 102, 103, 104] 30 FontStyle.Medium).1
            = P ++ ellipsis) :=
  ⟨by decide, by decide,
    GfxClipString_truncated demoEnv [97, 98, 99, 100, 101, 102, 103, 104] 30 FontStyle.Medium
      (by decide) (by decide)
      ⟨[97, 98, 99, 100, 101], [102, 103, 104], by decide, by decide, by decide⟩⟩

/-- C8: `GfxWrapString` returns the width of the longest line: the buffer it writes
back holds `outNumLines + 1` NUL-separated lines, none of them measures more than the
returned value, and one of them measures exactly the returned value. -/
theorem GfxWrapString_longest_line (env : Env) (text : List Nat) (W : Int) (fs : FontStyle) :
    (wrappedLines (GfxWrapString env text W fs).text).length
        = (GfxWrapString env text W fs).outNumLines + 1 ∧
      (∀ l ∈ wrappedLines (GfxWrapString env text W fs).text,
        GfxGetStringWidth env l fs ≤ (GfxWrapString env text W fs).width) ∧
      ∃ l ∈ wrappedLines (GfxWrapString env text W fs).text,
        GfxGetStringWidth env l fs = (GfxWrapString env text W fs).width := by
  obtain ⟨lines, cur, hl, hc, h1, h2, h3⟩ := GfxWrapString_shape env text W fs
  rw [h1, h2, h3, wrappedLines_join lines cur hl hc]
  refine ⟨by simp, ?_⟩
  exact maxWidths_is_max env fs (lines ++ [cur]) (by simp)

/-- C9: the buffer written by `GfxWrapString` contains exactly `outNumLines` NUL
break markers, so it holds `outNumLines + 1` lines. -/
theorem GfxWrapString_break_count (env : Env) (text : List Nat) (W : Int) (fs : FontStyle) :
    (GfxWrapString env text W fs).text.count 0 = (GfxWrapString env text W fs).outNumLines ∧
      (wrappedLines (GfxWrapString env text W fs).text).length
        = (GfxWrapString env text W fs).outNumLines + 1 := by
  obtain ⟨lines, cur, hl, hc, h1, h2, _⟩ := GfxWrapString_shape env text W fs
  rw [h1, h2, wrappedLines_join lines cur hl hc, count_nul_join lines cur hl hc]
  simp

/-- C10, as stated, fails: the text `a<NewlineSmall>b` contains one newline token,
yet `GfxWrapString` reports no line break and copies the token through. -/
theorem GfxWrapString_newline_counterexample :
    (FmtString demoEnv [97, 2, 98]).countP
        (fun tok => decide (tok.kind = FormatToken.Newline ∨ tok.kind = FormatToken.NewlineSmall))
        = 1 ∧
      (GfxWrapString demoEnv [97, 2, 98] 100 FontStyle.Medium).outNumLines = 0 ∧
      (GfxWrapString demoEnv [97, 2, 98] 100 FontStyle.Medium).text = [97, 2, 98] := by
  decide

/-- C10, amended: `GfxWrapString` inserts a break at every `Newline` token whatever the
budget: `outNumLines` is at least the number of `Newline` tokens of the text, every
counted break is a NUL marker in the output, and no `Newline` control cell is left in
the output. -/
theorem GfxWrapString_newline_breaks (env : Env) (text : List Nat) (W : Int) (fs : FontStyle) :
    (FmtString env (cstr text)).countP (fun tok => decide (tok.kind = FormatToken.Newline))
        ≤ (GfxWrapString env text W fs).outNumLines ∧
      (GfxWrapString env text W fs).text.count 0 = (GfxWrapString env text W fs).outNumLines ∧
      ∀ c ∈ (GfxWrapString env text W fs).text, c ≠ 0 →
        ∀ p, controlCode env c ≠ some (FormatToken.Newline, p) := by
  refine ⟨?_, ?_, ?_⟩
  · have h := wrapTokens_numLines env W fs (FmtString env (cstr text)) ⟨[], 0, none, none, 0, 0⟩
    simpa using h
  · obtain ⟨lines, cur, hl, hc, h1, h2, _⟩ := GfxWrapString_shape env text W fs
    rw [h1, h2, count_nul_join lines cur hl hc]
  · exact wrapTokens_cells env W fs (FmtString env (cstr text)) ⟨[], 0, none, none, 0, 0⟩
      (FmtString_token env (cstr text)) (by intro c hc; simp at hc)

/-! ### GfxWrapString on a text without spaces -/

section WrapText

variable (env : Env)

theorem filter_insertNul (X : List Nat) (i : Nat) :
    (insertNul X i).filter (fun c => c != 0) = X.filter (fun c => c != 0) := by
  unfold insertNul
  rw [List.filter_append, List.filter_cons_of_neg (by simp), ← List.filter_append,
    List.take_append_drop]

theorem dropWhile_none (p : Nat → Bool) (R : List Nat) (h : ∀ a ∈ R, p a = false) :
    R.dropWhile p = R := by
  cases R with
  | nil => rfl
  | cons a t =>
    have ha := h a (List.mem_cons_self _ _)
    simp [List.dropWhile, ha]

theorem trimAt_nospace (X : List Nat) (i : Nat) (h : ∀ a ∈ X, a ≠ 32) : trimAt X i = X := by
  unfold trimAt
  rw [dropWhile_none _ _ (by
    intro a ha
    simpa using h a (List.mem_of_mem_drop ha)), List.take_append_drop]

theorem wrapCodepoint_nospace (W : Int) (fs : FontStyle) (s : WrapState) (c : Nat)
    (hc0 : c ≠ 0) (hc : c ≠ 32) (hb : ∀ a ∈ s.buffer, a ≠ 32) :
    (wrapCodepoint env W fs s c).buffer.filter (fun c => c != 0)
        = s.buffer.filter (fun c => c != 0) ++ [c] ∧
      ∀ a ∈ (wrapCodepoint env W fs s c).buffer, a ≠ 32 := by
  have hb2 : ∀ a ∈ s.buffer ++ [c], a ≠ 32 := by
    intro a ha
    rcases List.mem_append.mp ha with h1 | h1
    · exact hb a h1
    · rw [List.mem_singleton.mp h1]; exact hc
  have hf : (s.buffer ++ [c]).filter (fun c => c != 0)
      = s.buffer.filter (fun c => c != 0) ++ [c] := by
    rw [List.filter_append]
    simp [hc0]
  unfold wrapCodepoint
  rw [cstr_write hc0]
  dsimp only
  split_ifs
  all_goals first
    | exact ⟨hf, hb2⟩
    | skip
  · have hins : ∀ i, ∀ a ∈ insertNul (s.buffer ++ [c]) i, a ≠ 32 := by
      intro i a ha
      rcases mem_insertNul ha with h1 | h1
      · rw [h1]; decide
      · exact hb2 a h1
    dsimp only
    rw [trimAt_nospace _ _ (hins _), filter_insertNul]
    exact ⟨hf, hins _⟩

theorem wrapCodepoints_nospace (W : Int) (fs : FontStyle) (cps : List Nat) :
    ∀ s : WrapState, (∀ c ∈ cps, c ≠ 0 ∧ c ≠ 32) → (∀ a ∈ s.buffer, a ≠ 32) →
      (cps.foldl (wrapCodepoint env W fs) s).buffer.filter (fun c => c != 0)
          = s.buffer.filter (fun c => c != 0) ++ cps ∧
        ∀ a ∈ (cps.foldl (wrapCodepoint env W fs) s).buffer, a ≠ 32 := by
  induction cps with
  | nil => exact fun s _ hb => ⟨by simp, hb⟩
  | cons c t ih =>
    intro s hc hb
    obtain ⟨hc0, hc32⟩ := hc c (List.mem_cons_self _ _)
    obtain ⟨h1, h2⟩ := wrapCodepoint_nospace env W fs s c hc0 hc32 hb
    obtain ⟨g1, g2⟩ := ih (wrapCodepoint env W fs s c)
      (fun a ha => hc a (List.mem_cons_of_mem _ ha)) h2
    rw [List.foldl_cons]
    exact ⟨by rw [g1, h1]; simp, g2⟩

theorem wrapTokens_nospace (W : Int) (fs : FontStyle) (toks : List token) :
    ∀ s : WrapState,
      (∀ tok ∈ toks, tok.kind = FormatToken.Literal ∧ ∀ c ∈ tok.text, c ≠ 0 ∧ c ≠ 32) →
      (∀ a ∈ s.buffer, a ≠ 32) →
      (toks.foldl (wrapToken env W fs) s).buffer.filter (fun c => c != 0)
          = s.buffer.filter (fun c => c != 0) ++ toks.flatMap (fun tok => tok.text) ∧
        ∀ a ∈ (toks.foldl (wrapToken env W fs) s).buffer, a ≠ 32 := by
  induction toks with
  | nil => exact fun s _ hb => ⟨by simp, hb⟩
  | cons tok rest ih =>
    intro s htoks hb
    obtain ⟨hk, hcells⟩ := htoks tok (List.mem_cons_self _ _)
    have hstep : wrapToken env W fs s tok
        = (CodepointView tok.text).foldl (wrapCodepoint env W fs) s := by
      unfold wrapToken
      rw [if_pos (by simp [token.IsLiteral, hk])]
    obtain ⟨h1, h2⟩ := wrapCodepoints_nospace env W fs tok.text s hcells hb
    rw [List.foldl_cons, hstep]
    unfold CodepointView
    obtain ⟨g1, g2⟩ := ih _ (fun t ht => htoks t (List.mem_cons_of_mem _ ht)) h2
    exact ⟨by rw [g1, h1]; simp, g2⟩

theorem literal_text_tokens (text : List Nat)
    (h : ∀ c ∈ text, c ≠ 0 ∧ c ≠ 32 ∧ controlCode env c = none) :
    ∀ tok ∈ FmtString env text,
      tok.kind = FormatToken.Literal ∧ ∀ c ∈ tok.text, c ≠ 0 ∧ c ≠ 32 := by
  intro tok htok
  have hcells := FmtString_cells env text tok htok
  refine ⟨?_, fun c hc => ⟨(h c (hcells c hc)).1, (h c (hcells c hc)).2.1⟩⟩
  rcases FmtString_token env text tok htok with ⟨h1, _⟩ | ⟨d, h2, h3⟩
  · exact h1
  · have hd : d ∈ text := hcells d (by rw [h2]; exact List.mem_singleton_self d)
    rw [(h d hd).2.2] at h3
    exact absurd h3 (by simp)

theorem length_filter_add_count (l : List Nat) :
    l.length = (l.filter (fun c => c != 0)).length + l.count 0 := by
  induction l with
  | nil => rfl
  | cons a t ih =>
    by_cases ha : a = 0
    · subst ha
      simp [ih]
      omega
    · have hf : (a :: t).filter (fun c => c != 0) = a :: t.filter (fun c => c != 0) := by
        simp [ha]
      rw [hf, List.count_cons_of_ne (Ne.symm ha)]
      simp only [List.length_cons]
      omega

/-- On a text of literal cells without spaces `GfxWrapString` only inserts NUL
markers. -/
theorem GfxWrapString_text_kept (text : List Nat) (W : Int) (fs : FontStyle)
    (h : ∀ c ∈ text, c ≠ 0 ∧ c ≠ 32 ∧ controlCode env c = none) :
    (GfxWrapString env text W fs).text.filter (fun c => c != 0) = text := by
  have hz : cstr text = text := cstr_eq_self (fun c hc => (h c hc).1)
  have hloop : (GfxWrapString env text W fs).text
      = ((FmtString env text).foldl (wrapToken env W fs) ⟨[], 0, none, none, 0, 0⟩).buffer := by
    unfold GfxWrapString wrapLoop
    rw [hz]
  obtain ⟨h1, _⟩ := wrapTokens_nospace env W fs (FmtString env text) ⟨[], 0, none, none, 0, 0⟩
    (literal_text_tokens env text h) (by simp)
  rw [hloop, h1, FmtString_texts]
  simp

end WrapText

/-! ### Newline-delimited segments -/

section Segments

variable (env : Env)

theorem segments_ne_nil (isBreak : token → Bool) (toks : List token) :
    segments isBreak toks ≠ [] := by
  cases toks with
  | nil => simp [segments]
  | cons tok rest =>
    unfold segments
    split_ifs
    · simp
    · split <;> simp

theorem addHead_nil (L : List (List Nat)) (h : L ≠ []) : addHead [] L = L := by
  cases L with
  | nil => exact absurd rfl h
  | cons s ss => rfl

theorem segments_break (isBreak : token → Bool) (tok : token) (rest : List token)
    (h : isBreak tok = true) :
    segments isBreak (tok :: rest) = [] :: segments isBreak rest := by
  rw [segments, if_pos h]

theorem addHead_segments_cons (isBreak : token → Bool) (buf : List Nat) (tok : token)
    (rest : List token) (h : ¬ isBreak tok = true) :
    addHead buf (segments isBreak (tok :: rest))
      = addHead (buf ++ tok.text) (segments isBreak rest) := by
  rw [segments, if_neg h]
  cases hs : segments isBreak rest with
  | nil => exact absurd hs (segments_ne_nil isBreak rest)
  | cons s ss => simp [addHead]

theorem dropLast_cons_of_ne_nil (a : List Nat) (L : List (List Nat)) (h : L ≠ []) :
    (a :: L).dropLast = a :: L.dropLast := by
  cases L with
  | nil => exact absurd rfl h
  | cons s ss => rfl

theorem segments_length (isBreak : token → Bool) (toks : List token) :
    (segments isBreak toks).length = toks.countP isBreak + 1 := by
  induction toks with
  | nil => rfl
  | cons tok rest ih =>
    by_cases h : isBreak tok = true
    · rw [segments_break isBreak tok rest h, List.length_cons, ih, List.countP_cons_of_pos _ _ h]
    · rw [segments, if_neg h, List.countP_cons_of_neg _ _ h]
      cases hs : segments isBreak rest with
      | nil => exact absurd hs (segments_ne_nil isBreak rest)
      | cons s ss =>
        rw [hs] at ih
        simpa using ih

/-- The loop of `GfxGetStringWidthNewLined`: the running width is updated with the
width of every segment that a newline token closes, in order. -/
theorem newLined_fold (fs : FontStyle) (toks : List token) :
    ∀ s : NewLinedState,
      (toks.foldl (newLinedToken env fs) s).maxWidth
        = keepSmaller s.maxWidth
            (((addHead s.buffer (segments isNewlineToken toks)).dropLast).map
              (fun seg => GfxGetStringWidth env seg fs)) := by
  induction toks with
  | nil =>
    intro s
    simp [segments, addHead, keepSmaller]
  | cons tok rest ih =>
    intro s
    rw [List.foldl_cons]
    by_cases h : tok.kind = FormatToken.Newline ∨ tok.kind = FormatToken.NewlineSmall
    · have hb : isNewlineToken tok = true := by simp [isNewlineToken, h]
      have hstep : newLinedToken env fs s tok
          = ⟨[], keepSmaller s.maxWidth [GfxGetStringWidth env s.buffer fs]⟩ := by
        unfold newLinedToken
        rw [if_pos h]
        rfl
      have e : addHead s.buffer ([] :: segments isNewlineToken rest)
          = s.buffer :: segments isNewlineToken rest := by
        simp [addHead]
      rw [hstep, ih, segments_break _ _ _ hb, e]
      dsimp only
      rw [addHead_nil _ (segments_ne_nil _ _),
        dropLast_cons_of_ne_nil _ _ (segments_ne_nil _ _), List.map_cons]
      simp [keepSmaller]
    · have hb : ¬ isNewlineToken tok = true := by simp [isNewlineToken, h]
      have hstep : newLinedToken env fs s tok = ⟨s.buffer ++ tok.text, s.maxWidth⟩ := by
        unfold newLinedToken
        rw [if_neg h]
      rw [hstep, ih, addHead_segments_cons _ _ _ _ hb]

theorem keepSmaller_some (v : Int) (ws : List Int) :
    ∃ r, keepSmaller (some v) ws = some r ∧ r ≤ v ∧ (∀ w ∈ ws, r ≤ w) ∧ (r = v ∨ r ∈ ws) := by
  induction ws generalizing v with
  | nil => exact ⟨v, rfl, le_refl _, by simp, Or.inl rfl⟩
  | cons w rest ih =>
    by_cases hvw : v > w
    · obtain ⟨r, h1, h2, h3, h4⟩ := ih w
      refine ⟨r, ?_, by omega, ?_, ?_⟩
      · simpa [keepSmaller, hvw] using h1
      · intro a ha
        rcases List.mem_cons.mp ha with h5 | h5
        · rw [h5]; exact h2
        · exact h3 a h5
      · rcases h4 with h5 | h5
        · exact Or.inr (by rw [h5]; exact List.mem_cons_self _ _)
        · exact Or.inr (List.mem_cons_of_mem _ h5)
    · obtain ⟨r, h1, h2, h3, h4⟩ := ih v
      refine ⟨r, ?_, h2, ?_, ?_⟩
      · simpa [keepSmaller, hvw] using h1
      · intro a ha
        rcases List.mem_cons.mp ha with h5 | h5
        · rw [h5]; omega
        · exact h3 a h5
      · rcases h4 with h5 | h5
        · exact Or.inl h5
        · exact Or.inr (List.mem_cons_of_mem _ h5)

theorem keepSmaller_none (ws : List Int) (h : ws ≠ []) :
    ∃ r, keepSmaller none ws = some r ∧ (∀ w ∈ ws, r ≤ w) ∧ r ∈ ws := by
  cases ws with
  | nil => exact absurd rfl h
  | cons w rest =>
    obtain ⟨r, h1, h2, h3, h4⟩ := keepSmaller_some w rest
    refine ⟨r, ?_, ?_, ?_⟩
    · simpa [keepSmaller] using h1
    · intro a ha
      rcases List.mem_cons.mp ha with h5 | h5
      · rw [h5]; exact h2
      · exact h3 a h5
    · rcases h4 with h5 | h5
      · rw [h5]; exact List.mem_cons_self _ _
      · exact List.mem_cons_of_mem _ h5

/-- With a newline token in the text, `GfxGetStringWidthNewLined` returns the least
width among the segments that a newline token closes. -/
theorem newLined_min (text : List Nat) (fs : FontStyle)
    (h : ∃ tok ∈ FmtString env text, isNewlineToken tok = true) :
    (∀ seg ∈ (segments isNewlineToken (FmtString env text)).dropLast,
        GfxGetStringWidthNewLined env text fs ≤ GfxGetStringWidth env seg fs) ∧
      ∃ seg ∈ (segments isNewlineToken (FmtString env text)).dropLast,
        GfxGetStringWidth env seg fs = GfxGetStringWidthNewLined env text fs := by
  have hfold := newLined_fold env fs (FmtString env text) ⟨[], none⟩
  rw [addHead_nil _ (segments_ne_nil _ _)] at hfold
  have hne : ((segments isNewlineToken (FmtString env text)).dropLast).map
      (fun seg => GfxGetStringWidth env seg fs) ≠ [] := by
    obtain ⟨tok, htok, hb⟩ := h
    have hc : 0 < (FmtString env text).countP isNewlineToken :=
      List.countP_pos_iff.mpr ⟨tok, htok, hb⟩
    have hl := segments_length isNewlineToken (FmtString env text)
    intro hnil
    have h0 := congrArg List.length hnil
    simp only [List.length_map, List.length_dropLast, List.length_nil] at h0
    omega
  obtain ⟨r, h1, h2, h3⟩ := keepSmaller_none _ hne
  have hres : GfxGetStringWidthNewLined env text fs = r := by
    unfold GfxGetStringWidthNewLined
    dsimp only
    rw [hfold, h1]
  rw [hres]
  constructor
  · intro seg hseg
    exact h2 _ (List.mem_map.mpr ⟨seg, hseg, rfl⟩)
  · obtain ⟨seg, hseg, hw⟩ := List.mem_map.mp h3
    exact ⟨seg, hseg, hw⟩

/-! ### The width of literal runs separated by Newline tokens -/

theorem listMax_nonneg (l : List Int) : 0 ≤ listMax l := by
  induction l with
  | nil => exact le_refl _
  | cons a t ih =>
    unfold listMax at ih ⊢
    rw [List.foldr_cons]
    exact le_trans ih (le_max_right _ _)

theorem listMax_cons (a : Int) (l : List Int) : listMax (a :: l) = max a (listMax l) := rfl

theorem le_listMax (l : List Int) : ∀ a ∈ l, a ≤ listMax l := by
  induction l with
  | nil => simp
  | cons b t ih =>
    intro a ha
    rw [listMax_cons]
    rcases List.mem_cons.mp ha with h1 | h1
    · rw [h1]; exact le_max_left _ _
    · exact le_trans (ih a h1) (le_max_right _ _)

theorem listMax_mem (l : List Int) (hne : l ≠ []) (hpos : ∀ a ∈ l, 0 ≤ a) : listMax l ∈ l := by
  induction l with
  | nil => exact absurd rfl hne
  | cons b t ih =>
    rw [listMax_cons]
    by_cases ht : t = []
    · subst ht
      have hb := hpos b (List.mem_cons_self _ _)
      have h0 : listMax [] = 0 := rfl
      rw [h0, max_eq_left hb]
      exact List.mem_cons_self _ _
    · have h1 := ih ht (fun a ha => hpos a (List.mem_cons_of_mem _ ha))
      rcases max_cases b (listMax t) with ⟨h2, _⟩ | ⟨h2, _⟩
      · rw [h2]; exact List.mem_cons_self _ _
      · rw [h2]; exact List.mem_cons_of_mem _ h1

theorem glyphSum_nil (fs : FontStyle) : glyphSum env fs [] = 0 := rfl

theorem glyphSum_append (fs : FontStyle) (a b : List Nat) :
    glyphSum env fs (a ++ b) = glyphSum env fs a + glyphSum env fs b := by
  simp [glyphSum]

theorem process_newline (st : rct_drawpixelinfo × text_draw_info) (tok : token)
    (h : tok.kind = FormatToken.Newline) :
    ttf_process_token env st tok
      = (st.1, updateMax { st.2 with x := st.2.startX,
                                     y := st.2.y + env.font_get_line_height st.2.FontStyle }) := by
  unfold ttf_process_token ttf_process_format_code
  simp [token.IsLiteral, token.IsCodepoint, h]

/-- The bounding box after a sequence of literal and `Newline` tokens, measured with
the sprite font from a cursor at `x`. -/
theorem process_runs (hw : ∀ fs c, 0 ≤ env.font_sprite_get_codepoint_width fs c)
    (fs : FontStyle) (toks : List token) :
    ∀ st : rct_drawpixelinfo × text_draw_info,
      (∀ tok ∈ toks, tok.kind = FormatToken.Literal ∨ tok.kind = FormatToken.Newline) →
      SpriteMeasure st.2 → st.2.startX = 0 → st.2.FontStyle = fs → st.2.x ≤ st.2.maxX →
      0 ≤ st.2.x →
      (toks.foldl (ttf_process_token env) st).2.maxX
        = max st.2.maxX
            (listMax (addFirst st.2.x ((segments isNewline toks).map (glyphSum env fs)))) := by
  induction toks with
  | nil =>
    intro st _ _ _ _ hx h0
    simp only [List.foldl_nil, segments, List.map_cons, List.map_nil, addFirst, listMax_cons,
      glyphSum_nil, add_zero]
    have h1 : listMax [] = 0 := rfl
    rw [h1, max_eq_left h0, max_eq_left hx]
  | cons tok rest ih =>
    intro st htoks hs hstart hfs hx h0
    have hrest : ∀ t ∈ rest, t.kind = FormatToken.Literal ∨ t.kind = FormatToken.Newline :=
      fun t ht => htoks t (List.mem_cons_of_mem _ ht)
    rw [List.foldl_cons]
    obtain ⟨s, ss, hseg⟩ := List.exists_cons_of_ne_nil (segments_ne_nil isNewline rest)
    rcases htoks tok (List.mem_cons_self _ _) with hk | hk
    · -- a literal run
      have hb : ¬ isNewline tok = true := by simp [isNewline, hk]
      obtain ⟨k, t, p⟩ := tok
      simp only at hk
      subst hk
      have hstep := process_literal_sprite env st t p hs
      have hsm := process_token_sprite env st ⟨FormatToken.Literal, t, p⟩ hs
      rw [hstep] at hsm ⊢
      have hgt := glyphSum_nonneg env hw st.2.FontStyle t
      have hgs := glyphSum_nonneg env hw fs s
      rw [ih _ hrest hsm hstart hfs (le_max_right _ _) (by simp only [updateMax]; omega)]
      rw [segments, if_neg hb, hseg]
      simp only [updateMax, List.map_cons, addFirst, listMax_cons, glyphSum_append, hfs]
      rw [hfs] at hgt
      have hl := listMax_nonneg (List.map (glyphSum env fs) ss)
      omega
    · -- a Newline token
      have hb : isNewline tok = true := by simp [isNewline, hk]
      have hstep := process_newline env st tok hk
      have hsm := process_token_sprite env st tok hs
      rw [hstep] at hsm ⊢
      rw [ih _ hrest hsm hstart hfs (by simp only [updateMax, hstart]; exact le_max_right _ _)
        (by simp only [updateMax, hstart]; exact le_refl _)]
      rw [segments_break _ _ _ hb, hseg]
      simp only [updateMax, List.map_cons, addFirst, listMax_cons, glyphSum_nil, hstart,
        add_zero, zero_add]
      have hl := listMax_nonneg (List.map (glyphSum env fs) ss)
      have hgs := glyphSum_nonneg env hw fs s
      omega

end Segments

/-! ### No-draw mode: closed forms and the uninitialised locals -/

section NoDraw

variable (env : Env)

theorem info_x_add_zero (info : text_draw_info) : { info with x := info.x + 0 } = info := by
  cases info
  simp

theorem raw_ttf_nodraw (dpi : rct_drawpixelinfo) (text : List Nat) (info : text_draw_info)
    (h : hasFlag info.flags TEXT_DRAW_FLAG_NO_DRAW = true) :
    ttf_draw_string_raw_ttf env dpi text info
      = (dpi, { info with x := info.x + ttfAdvance env info.FontStyle text }) := by
  unfold ttf_draw_string_raw_ttf ttfAdvance
  cases hi : env.ttf_initialise with
  | false =>
    simp only [Bool.not_false, if_true]
    rw [info_x_add_zero]
  | true =>
    simp only [Bool.not_true, Bool.false_eq_true, if_false]
    cases hf : (env.ttf_get_font_from_sprite_base info.FontStyle).font with
    | none =>
      simp only []
      exact raw_sprite_nodraw env dpi text info h
    | some font =>
      simp only [h, if_true]

theorem ttfRuns_nodraw (dpi : rct_drawpixelinfo) (cps : List Nat) :
    ∀ (run : Option (List Nat)) (info : text_draw_info),
      hasFlag info.flags TEXT_DRAW_FLAG_NO_DRAW = true →
      ttfRuns env cps run (dpi, info)
        = (dpi, { info with x := info.x + runsAdvance env info.FontStyle cps run }) := by
  induction cps with
  | nil =>
    intro run info h
    cases run with
    | none =>
      simp only [ttfRuns, runsAdvance]
      rw [info_x_add_zero]
    | some r =>
      simp only [ttfRuns, runsAdvance]
      exact raw_ttf_nodraw env dpi r info h
  | cons c rest ih =>
    intro run info h
    unfold ttfRuns runsAdvance
    by_cases hs : ShouldUseSpriteForCodepoint env c = true
    · simp only [hs, if_true]
      cases run with
      | none =>
        dsimp only
        rw [sprite_char_nodraw env dpi c info h,
          ih none { info with x := info.x + env.font_sprite_get_codepoint_width info.FontStyle c }
            h]
        simp [add_assoc]
      | some r =>
        dsimp only
        rw [raw_ttf_nodraw env dpi r info h]
        dsimp only
        have h1 : hasFlag ({ info with x := info.x + ttfAdvance env info.FontStyle r } :
            text_draw_info).flags TEXT_DRAW_FLAG_NO_DRAW = true := h
        rw [sprite_char_nodraw env dpi c
            { info with x := info.x + ttfAdvance env info.FontStyle r } h1]
        dsimp only
        rw [ih none
            { info with x := info.x + ttfAdvance env info.FontStyle r
                + env.font_sprite_get_codepoint_width info.FontStyle c } h]
        simp [add_assoc]
    · simp only [hs, if_false]
      cases run with
      | none => exact ih _ info h
      | some r => exact ih _ info h

theorem literal_nodraw (dpi : rct_drawpixelinfo) (text : List Nat) (info : text_draw_info)
    (h : hasFlag info.flags TEXT_DRAW_FLAG_NO_DRAW = true) :
    ttf_process_string_literal env dpi text info
      = (dpi, { info with x := info.x + literalAdvance env info.FontStyle info.flags text }) := by
  unfold ttf_process_string_literal literalAdvance
  dsimp only
  cases ht : hasFlag info.flags TEXT_DRAW_FLAG_TTF with
  | true =>
    simp only [Bool.not_true, Bool.false_eq_true, if_false]
    exact ttfRuns_nodraw env dpi _ none info h
  | false =>
    simp only [Bool.not_false, if_true]
    exact raw_sprite_nodraw env dpi text info h

theorem setPalette_nil (v : Nat) : setPalette [] v = [] := by
  simp [setPalette]

theorem format_code_nodraw_erase (dpi : rct_drawpixelinfo) (tok : token)
    (info : text_draw_info) (h : hasFlag info.flags TEXT_DRAW_FLAG_NO_DRAW = true) :
    (ttf_process_format_code env dpi tok info).1 = dpi ∧
      ttf_process_format_code env dpi tok (eraseLocals info)
        = (dpi, eraseLocals (ttf_process_format_code env dpi tok info).2) := by
  have he : hasFlag (eraseLocals info).flags TEXT_DRAW_FLAG_NO_DRAW = true := h
  unfold ttf_process_format_code
  split
  all_goals first
    | exact ⟨rfl, rfl⟩
    | skip
  · cases hg : env.GfxGetG1Element (env.ImageIdGetIndex tok.parameter) with
    | none => exact ⟨rfl, rfl⟩
    | some g1 =>
      dsimp only
      by_cases hsz : g1.width ≤ 32 ∧ g1.height ≤ 32
      · have hn : ¬ ((!hasFlag info.flags TEXT_DRAW_FLAG_NO_DRAW) = true) := by simp [h]
        have hne : ¬ ((!hasFlag (eraseLocals info).flags TEXT_DRAW_FLAG_NO_DRAW) = true) := by
          simp [he]
        rw [if_pos hsz, if_pos hsz, if_neg hn, if_neg hne]
        exact ⟨rfl, rfl⟩
      · rw [if_neg hsz, if_neg hsz]
        exact ⟨rfl, rfl⟩
  · split_ifs
    · exact ⟨rfl, by simp [eraseLocals, colour_char, setPalette_nil]⟩
    · exact ⟨rfl, rfl⟩

theorem process_token_nodraw_erase (dpi : rct_drawpixelinfo) (info : text_draw_info)
    (tok : token) (h : hasFlag info.flags TEXT_DRAW_FLAG_NO_DRAW = true) :
    (ttf_process_token env (dpi, info) tok).1 = dpi ∧
      ttf_process_token env (dpi, eraseLocals info) tok
        = (dpi, eraseLocals (ttf_process_token env (dpi, info) tok).2) ∧
      hasFlag (ttf_process_token env (dpi, info) tok).2.flags TEXT_DRAW_FLAG_NO_DRAW = true := by
  have he : hasFlag (eraseLocals info).flags TEXT_DRAW_FLAG_NO_DRAW = true := h
  unfold ttf_process_token
  dsimp only
  split_ifs
  · rw [literal_nodraw env dpi _ info h, literal_nodraw env dpi _ (eraseLocals info) he]
    exact ⟨rfl, rfl, h⟩
  · unfold ttf_process_string_codepoint
    rw [literal_nodraw env dpi _ info h, literal_nodraw env dpi _ (eraseLocals info) he]
    exact ⟨rfl, rfl, h⟩
  · obtain ⟨h1, h2⟩ := format_code_nodraw_erase env dpi tok info h
    refine ⟨h1, ?_, ?_⟩
    · rw [h2]
      rfl
    · show hasFlag (ttf_process_format_code env dpi tok info).2.flags TEXT_DRAW_FLAG_NO_DRAW
          = true
      rw [format_code_flag env _ _ _ _ (by decide) (by decide)]
      exact h

theorem process_fold_nodraw_erase (dpi : rct_drawpixelinfo) (toks : List token) :
    ∀ info : text_draw_info, hasFlag info.flags TEXT_DRAW_FLAG_NO_DRAW = true →
      (toks.foldl (ttf_process_token env) (dpi, info)).1 = dpi ∧
        toks.foldl (ttf_process_token env) (dpi, eraseLocals info)
          = (dpi, eraseLocals (toks.foldl (ttf_process_token env) (dpi, info)).2) := by
  induction toks with
  | nil => exact fun info _ => ⟨rfl, rfl⟩
  | cons tok rest ih =>
    intro info h
    obtain ⟨h1, h2, h3⟩ := process_token_nodraw_erase env dpi info tok h
    have hr : ttf_process_token env (dpi, info) tok
        = (dpi, (ttf_process_token env (dpi, info) tok).2) := Prod.ext h1 rfl
    obtain ⟨g1, g2⟩ := ih (ttf_process_token env (dpi, info) tok).2 h3
    rw [List.foldl_cons, List.foldl_cons, h2, hr]
    exact ⟨g1, g2⟩

theorem process_string_nodraw_erase (dpi : rct_drawpixelinfo) (text : List Nat)
    (info : text_draw_info) (h : hasFlag info.flags TEXT_DRAW_FLAG_NO_DRAW = true) :
    (ttf_process_string env dpi text info).1 = dpi ∧
      ttf_process_string env dpi text (eraseLocals info)
        = (dpi, eraseLocals (ttf_process_string env dpi text info).2) := by
  have he : hasFlag (eraseLocals info).flags TEXT_DRAW_FLAG_NO_DRAW = true := h
  have hf : (eraseLocals info).flags = info.flags := rfl
  unfold ttf_process_string
  rw [hf]
  split_ifs
  · dsimp only
    rw [literal_nodraw env dpi _ info h, literal_nodraw env dpi _ (eraseLocals info) he]
    exact ⟨rfl, rfl⟩
  · exact process_fold_nodraw_erase env dpi _ info h

theorem measureInfo_nodraw (fs : FontStyle) (nf : Bool) :
    hasFlag (measureInfo env fs nf).flags TEXT_DRAW_FLAG_NO_DRAW = true := by
  unfold measureInfo
  cases env.UseTrueTypeFont <;> cases nf <;>
    simp [hasFlag, TEXT_DRAW_FLAG_NO_DRAW, TEXT_DRAW_FLAG_TTF, TEXT_DRAW_FLAG_NO_FORMATTING]

/-- The width measured does not depend on what the two uninitialised fields of the
local draw state hold, and the null `dpi` comes back untouched. -/
theorem measure_locals (text : List Nat) (fs : FontStyle) (nf : Bool) (p : List Nat)
    (q : List Int) :
    (ttf_process_string env nullDpi text
        { measureInfo env fs nf with palette := p, y_offset := q }).2.maxX
        = ttf_get_string_width env text fs nf ∧
      (ttf_process_string env nullDpi text
        { measureInfo env fs nf with palette := p, y_offset := q }).1 = nullDpi := by
  have h : hasFlag ({ measureInfo env fs nf with palette := p, y_offset := q } :
      text_draw_info).flags TEXT_DRAW_FLAG_NO_DRAW = true := measureInfo_nodraw env fs nf
  obtain ⟨h1, h2⟩ := process_string_nodraw_erase env nullDpi text _ h
  refine ⟨?_, h1⟩
  have he : eraseLocals { measureInfo env fs nf with palette := p, y_offset := q }
      = measureInfo env fs nf := rfl
  rw [he] at h2
  unfold ttf_get_string_width
  rw [h2]
  rfl

end NoDraw

/-! ### The machine-level draw state machine in no-draw mode -/

section MachineLevel

variable (env : Env)

theorem wrap32_of_range (v : Int) (h1 : -2147483648 ≤ v) (h2 : v ≤ 2147483647) :
    wrap32 v = v := by
  unfold wrap32
  omega

theorem silent_refl (dpi : rct_drawpixelinfo) (mem : TextMemory)
    (h : hasFlag mem.info.flags TEXT_DRAW_FLAG_NO_DRAW = true) :
    Machine.Silent dpi mem (dpi, mem) :=
  ⟨rfl, rfl, rfl, h⟩

theorem silent_trans (dpi : rct_drawpixelinfo) (mem : TextMemory)
    (r s : rct_drawpixelinfo × TextMemory) (h1 : Machine.Silent dpi mem r)
    (h2 : Machine.Silent r.1 r.2 s) : Machine.Silent dpi mem s :=
  ⟨h2.1.trans h1.1, h2.2.1.trans h1.2.1, h2.2.2.1.trans h1.2.2.1, h2.2.2.2⟩

theorem machine_sprite_char_nodraw (dpi : rct_drawpixelinfo) (c : Nat) (mem : TextMemory)
    (h : hasFlag mem.info.flags TEXT_DRAW_FLAG_NO_DRAW = true) :
    Machine.ttf_draw_character_sprite env dpi c mem
      = (dpi, { mem with info := { mem.info with
          x := wrap32 (mem.info.x
            + env.font_sprite_get_codepoint_width mem.info.FontStyle c) } }) := by
  unfold Machine.ttf_draw_character_sprite
  simp [h]

theorem machine_sprite_char_silent (dpi : rct_drawpixelinfo) (c : Nat) (mem : TextMemory)
    (h : hasFlag mem.info.flags TEXT_DRAW_FLAG_NO_DRAW = true) :
    Machine.Silent dpi mem (Machine.ttf_draw_character_sprite env dpi c mem) := by
  rw [machine_sprite_char_nodraw env dpi c mem h]
  exact ⟨rfl, rfl, rfl, h⟩

theorem machine_sprite_fold_silent (dpi : rct_drawpixelinfo) (text : List Nat) :
    ∀ mem : TextMemory, hasFlag mem.info.flags TEXT_DRAW_FLAG_NO_DRAW = true →
      Machine.Silent dpi mem
        (text.foldl (fun st c => Machine.ttf_draw_character_sprite env st.1 c st.2)
          (dpi, mem)) := by
  induction text with
  | nil => exact fun mem h => silent_refl dpi mem h
  | cons c t ih =>
    intro mem h
    rw [List.foldl_cons]
    have h1 := machine_sprite_char_silent env dpi c mem h
    have e : Machine.ttf_draw_character_sprite env dpi c mem
        = (dpi, (Machine.ttf_draw_character_sprite env dpi c mem).2) := Prod.ext h1.1 rfl
    dsimp only
    rw [e]
    have h2 := ih (Machine.ttf_draw_character_sprite env dpi c mem).2 h1.2.2.2
    exact ⟨h2.1, h2.2.1.trans h1.2.1, h2.2.2.1.trans h1.2.2.1, h2.2.2.2⟩

theorem machine_raw_sprite_silent (dpi : rct_drawpixelinfo) (text : List Nat)
    (mem : TextMemory) (h : hasFlag mem.info.flags TEXT_DRAW_FLAG_NO_DRAW = true) :
    Machine.Silent dpi mem (Machine.ttf_draw_string_raw_sprite env dpi text mem) :=
  machine_sprite_fold_silent env dpi (CodepointView text) mem h

theorem machine_raw_ttf_silent (dpi : rct_drawpixelinfo) (text : List Nat)
    (mem : TextMemory) (h : hasFlag mem.info.flags TEXT_DRAW_FLAG_NO_DRAW = true) :
    Machine.Silent dpi mem (Machine.ttf_draw_string_raw_ttf env dpi text mem) := by
  unfold Machine.ttf_draw_string_raw_ttf
  dsimp only
  cases env.ttf_initialise
  · exact silent_refl dpi mem h
  · simp only [Bool.not_true, Bool.false_eq_true, if_false]
    cases (env.ttf_get_font_from_sprite_base mem.info.FontStyle).font with
    | none => exact machine_raw_sprite_silent env dpi text mem h
    | some font =>
      dsimp only
      rw [if_pos h]
      exact ⟨rfl, rfl, rfl, h⟩

theorem machine_ttfRuns_silent (cps : List Nat) :
    ∀ (run : Option (List Nat)) (dpi : rct_drawpixelinfo) (mem : TextMemory),
      hasFlag mem.info.flags TEXT_DRAW_FLAG_NO_DRAW = true →
      Machine.Silent dpi mem (Machine.ttfRuns env cps run (dpi, mem)) := by
  induction cps with
  | nil =>
    intro run dpi mem h
    cases run with
    | none => exact silent_refl dpi mem h
    | some r => exact machine_raw_ttf_silent env dpi r mem h
  | cons c t ih =>
    intro run dpi mem h
    cases run with
    | none =>
      rw [Machine.ttfRuns]
      by_cases hs : ShouldUseSpriteForCodepoint env c = true
      · rw [if_pos hs]
        dsimp only
        have h1 := machine_sprite_char_silent env dpi c mem h
        exact silent_trans dpi mem _ _ h1 (ih none _ _ h1.2.2.2)
      · rw [if_neg hs]
        exact ih _ dpi mem h
    | some r =>
      rw [Machine.ttfRuns]
      by_cases hs : ShouldUseSpriteForCodepoint env c = true
      · rw [if_pos hs]
        dsimp only
        have h1 := machine_raw_ttf_silent env dpi r mem h
        have h2 := machine_sprite_char_silent env
          (Machine.ttf_draw_string_raw_ttf env dpi r mem).1 c
          (Machine.ttf_draw_string_raw_ttf env dpi r mem).2 h1.2.2.2
        exact silent_trans dpi mem _ _ (silent_trans dpi mem _ _ h1 h2)
          (ih none _ _ h2.2.2.2)
      · rw [if_neg hs]
        exact ih _ dpi mem h

theorem machine_literal_silent (dpi : rct_drawpixelinfo) (text : List Nat)
    (mem : TextMemory) (h : hasFlag mem.info.flags TEXT_DRAW_FLAG_NO_DRAW = true) :
    Machine.Silent dpi mem (Machine.ttf_process_string_literal env dpi text mem) := by
  unfold Machine.ttf_process_string_literal
  dsimp only
  cases hasFlag mem.info.flags TEXT_DRAW_FLAG_TTF
  · exact machine_raw_sprite_silent env dpi text mem h
  · exact machine_ttfRuns_silent env _ none dpi mem h

theorem machine_format_code_silent (dpi : rct_drawpixelinfo) (tok : token)
    (mem : TextMemory) (h : hasFlag mem.info.flags TEXT_DRAW_FLAG_NO_DRAW = true) :
    Machine.Silent dpi mem (Machine.ttf_process_format_code env dpi tok mem) := by
  have ho : hasFlag (mem.info.flags ||| TEXT_DRAW_FLAG_OUTLINE) TEXT_DRAW_FLAG_NO_DRAW = true := by
    rw [hasFlag_or_outline _ _ (by decide)]; exact h
  have hc : hasFlag (clearFlag mem.info.flags TEXT_DRAW_FLAG_OUTLINE) TEXT_DRAW_FLAG_NO_DRAW
      = true := by
    rw [hasFlag_clear_outline _ _ (by decide) (by decide)]; exact h
  obtain ⟨kind, text, p⟩ := tok
  cases kind
  all_goals first
    | exact ⟨rfl, rfl, rfl, h⟩
    | exact ⟨rfl, rfl, rfl, ho⟩
    | exact ⟨rfl, rfl, rfl, hc⟩
    | skip
  · simp only [Machine.ttf_process_format_code]
    cases env.GfxGetG1Element (env.ImageIdGetIndex p) with
    | none => exact ⟨rfl, rfl, rfl, h⟩
    | some g1 =>
      dsimp only
      split_ifs
      · simp [h] at *
      · exact ⟨rfl, rfl, rfl, h⟩
      · exact ⟨rfl, rfl, rfl, h⟩

theorem machine_token_silent (dpi : rct_drawpixelinfo) (mem : TextMemory) (tok : token)
    (h : hasFlag mem.info.flags TEXT_DRAW_FLAG_NO_DRAW = true) :
    Machine.Silent dpi mem (Machine.ttf_process_token env (dpi, mem) tok) := by
  unfold Machine.ttf_process_token
  dsimp only
  split_ifs
  · exact machine_literal_silent env dpi _ mem h
  · exact machine_literal_silent env dpi _ mem h
  · exact machine_format_code_silent env dpi tok mem h

theorem machine_fold_silent (toks : List token) :
    ∀ (dpi : rct_drawpixelinfo) (mem : TextMemory),
      hasFlag mem.info.flags TEXT_DRAW_FLAG_NO_DRAW = true →
      Machine.Silent dpi mem (toks.foldl (Machine.ttf_process_token env) (dpi, mem)) := by
  induction toks with
  | nil => exact fun dpi mem h => silent_refl dpi mem h
  | cons tok rest ih =>
    intro dpi mem h
    rw [List.foldl_cons]
    have h1 := machine_token_silent env dpi mem tok h
    exact silent_trans dpi mem _ _ h1 (ih _ _ h1.2.2.2)

theorem machine_string_silent (dpi : rct_drawpixelinfo) (text : List Nat)
    (mem : TextMemory) (h : hasFlag mem.info.flags TEXT_DRAW_FLAG_NO_DRAW = true) :
    Machine.Silent dpi mem (Machine.ttf_process_string env dpi text mem) := by
  unfold Machine.ttf_process_string
  split_ifs
  · exact machine_literal_silent env dpi _ mem h
  · exact machine_fold_silent env _ dpi mem h

theorem machine_measureInfo_nodraw (fs : FontStyle) (nf : Bool) (uninit : text_draw_info) :
    hasFlag (Machine.measureInfo env fs nf uninit).flags TEXT_DRAW_FLAG_NO_DRAW = true := by
  unfold Machine.measureInfo
  cases env.UseTrueTypeFont <;> cases nf <;>
    simp [hasFlag, TEXT_DRAW_FLAG_NO_DRAW, TEXT_DRAW_FLAG_TTF, TEXT_DRAW_FLAG_NO_FORMATTING]

/-- Measurement makes no draw call and leaves `gTextPalette` and `_ttfGlId` as they
were. -/
theorem machine_measure_silent (mem : TextMemory) (text : List Nat) (fs : FontStyle)
    (nf : Bool) :
    (Machine.measureState env mem text fs nf).1 = nullDpi ∧
      (Machine.measureState env mem text fs nf).2.gTextPalette = mem.gTextPalette ∧
      (Machine.measureState env mem text fs nf).2.ttfGlId = mem.ttfGlId := by
  have h := machine_string_silent env nullDpi text
    { mem with info := Machine.measureInfo env fs nf mem.info }
    (machine_measureInfo_nodraw env fs nf mem.info)
  exact ⟨h.1, h.2.1, h.2.2.1⟩

/-! ### The cursor of the machine does not depend on palettes and counters -/

/-- Two states with the same cursor differ in the draw calls, the process-wide
variables, the palette and the offset pointer only. -/
theorem machine_cursor_shape (a b : rct_drawpixelinfo × TextMemory)
    (h : Machine.cursor a = Machine.cursor b) :
    ∃ calls g id palette yoff,
      a = ({ b.1 with calls := calls },
        ⟨g, id, { b.2.info with palette := palette, y_offset := yoff }⟩) := by
  obtain ⟨⟨ax, ay, aw, ah, ap, ac⟩, ⟨ag, aid, ⟨a1, a2, a3, a4, a5, a6, a7, a8, a9, a10⟩⟩⟩ := a
  obtain ⟨⟨bx, bY, bw, bh, bp, bc⟩, ⟨bg, bid, ⟨b1, b2, b3, b4, b5, b6, b7, b8, b9, b10⟩⟩⟩ := b
  simp only [Machine.cursor, Prod.mk.injEq] at h
  obtain ⟨⟨h1, h2, h3, h4, h5⟩, h6, h7, h8, h9, h10, h11, h12, h13⟩ := h
  subst h1 h2 h3 h4 h5 h6 h7 h8 h9 h10 h11 h12 h13
  exact ⟨ac, ag, aid, a8, a10, rfl⟩

theorem machine_sprite_char_same (a b : rct_drawpixelinfo × TextMemory) (c : Nat)
    (h : Machine.cursor a = Machine.cursor b) :
    Machine.cursor (Machine.ttf_draw_character_sprite env a.1 c a.2)
      = Machine.cursor (Machine.ttf_draw_character_sprite env b.1 c b.2) := by
  obtain ⟨calls, g, id, palette, yoff, rfl⟩ := machine_cursor_shape a b h
  unfold Machine.ttf_draw_character_sprite
  dsimp only
  split_ifs <;> simp [Machine.cursor]

theorem machine_sprite_fold_same (text : List Nat) :
    ∀ a b : rct_drawpixelinfo × TextMemory, Machine.cursor a = Machine.cursor b →
      Machine.cursor
          (text.foldl (fun st c => Machine.ttf_draw_character_sprite env st.1 c st.2) a)
        = Machine.cursor
          (text.foldl (fun st c => Machine.ttf_draw_character_sprite env st.1 c st.2) b) := by
  induction text with
  | nil => exact fun a b h => h
  | cons c t ih =>
    intro a b h
    rw [List.foldl_cons, List.foldl_cons]
    exact ih _ _ (machine_sprite_char_same env a b c h)

theorem machine_raw_sprite_same (a b : rct_drawpixelinfo × TextMemory) (text : List Nat)
    (h : Machine.cursor a = Machine.cursor b) :
    Machine.cursor (Machine.ttf_draw_string_raw_sprite env a.1 text a.2)
      = Machine.cursor (Machine.ttf_draw_string_raw_sprite env b.1 text b.2) :=
  machine_sprite_fold_same env (CodepointView text) (a.1, a.2) (b.1, b.2) h

theorem machine_raw_ttf_same (a b : rct_drawpixelinfo × TextMemory) (text : List Nat)
    (h : Machine.cursor a = Machine.cursor b) :
    Machine.cursor (Machine.ttf_draw_string_raw_ttf env a.1 text a.2)
      = Machine.cursor (Machine.ttf_draw_string_raw_ttf env b.1 text b.2) := by
  have hs := machine_raw_sprite_same env a b text h
  obtain ⟨calls, g, id, palette, yoff, rfl⟩ := machine_cursor_shape a b h
  unfold Machine.ttf_draw_string_raw_ttf
  dsimp only at hs ⊢
  cases env.ttf_initialise
  · simp [Machine.cursor]
  · simp only [Bool.not_true, Bool.false_eq_true, if_false]
    cases (env.ttf_get_font_from_sprite_base b.2.info.FontStyle).font with
    | none => exact hs
    | some font =>
      dsimp only
      cases hasFlag b.2.info.flags TEXT_DRAW_FLAG_NO_DRAW
      · simp only [Bool.false_eq_true, if_false]
        cases env.ttf_surface_cache_get_or_add font text with
        | none => simp [Machine.cursor]
        | some surface =>
          dsimp only
          cases env.DrawingEngineOpenGL
          · simp [Machine.cursor]
          · simp [Machine.cursor]
      · simp [Machine.cursor]

theorem machine_ttfRuns_same (cps : List Nat) :
    ∀ (run : Option (List Nat)) (a b : rct_drawpixelinfo × TextMemory),
      Machine.cursor a = Machine.cursor b →
      Machine.cursor (Machine.ttfRuns env cps run a)
        = Machine.cursor (Machine.ttfRuns env cps run b) := by
  induction cps with
  | nil =>
    intro run a b h
    cases run with
    | none => exact h
    | some r => exact machine_raw_ttf_same env a b r h
  | cons c t ih =>
    intro run a b h
    cases run with
    | none =>
      rw [Machine.ttfRuns, Machine.ttfRuns]
      by_cases hs : ShouldUseSpriteForCodepoint env c = true
      · rw [if_pos hs, if_pos hs]
        exact ih none _ _ (machine_sprite_char_same env a b c h)
      · rw [if_neg hs, if_neg hs]
        exact ih _ a b h
    | some r =>
      rw [Machine.ttfRuns, Machine.ttfRuns]
      by_cases hs : ShouldUseSpriteForCodepoint env c = true
      · rw [if_pos hs, if_pos hs]
        exact ih none _ _ (machine_sprite_char_same env _ _ c (machine_raw_ttf_same env a b r h))
      · rw [if_neg hs, if_neg hs]
        exact ih _ a b h

theorem machine_literal_same (a b : rct_drawpixelinfo × TextMemory) (text : List Nat)
    (h : Machine.cursor a = Machine.cursor b) :
    Machine.cursor (Machine.ttf_process_string_literal env a.1 text a.2)
      = Machine.cursor (Machine.ttf_process_string_literal env b.1 text b.2) := by
  have hs := machine_raw_sprite_same env a b text h
  have hr := machine_ttfRuns_same env (CodepointView text) none (a.1, a.2) (b.1, b.2) h
  obtain ⟨calls, g, id, palette, yoff, rfl⟩ := machine_cursor_shape a b h
  unfold Machine.ttf_process_string_literal
  dsimp only at hs hr ⊢
  cases hasFlag b.2.info.flags TEXT_DRAW_FLAG_TTF
  · exact hs
  · exact hr

theorem machine_format_code_same (a b : rct_drawpixelinfo × TextMemory) (tok : token)
    (h : Machine.cursor a = Machine.cursor b) :
    Machine.cursor (Machine.ttf_process_format_code env a.1 tok a.2)
      = Machine.cursor (Machine.ttf_process_format_code env b.1 tok b.2) := by
  obtain ⟨calls, g, id, palette, yoff, rfl⟩ := machine_cursor_shape a b h
  obtain ⟨kind, text, p⟩ := tok
  cases kind
  all_goals first
    | (simp [Machine.ttf_process_format_code, Machine.cursor, Machine.colour_char,
        Machine.colour_char_window, Machine.storePalette, FormatTokenIsColour]; done)
    | skip
  simp only [Machine.ttf_process_format_code]
  cases env.GfxGetG1Element (env.ImageIdGetIndex p) with
  | none => simp [Machine.cursor]
  | some g1 =>
    dsimp only
    split_ifs <;> simp [Machine.cursor]

theorem machine_updateMax_same (a b : rct_drawpixelinfo × TextMemory)
    (h : Machine.cursor a = Machine.cursor b) :
    Machine.cursor (a.1, Machine.updateMax a.2) = Machine.cursor (b.1, Machine.updateMax b.2) := by
  obtain ⟨calls, g, id, palette, yoff, rfl⟩ := machine_cursor_shape a b h
  simp [Machine.cursor, Machine.updateMax, updateMax]

theorem machine_token_same (a b : rct_drawpixelinfo × TextMemory) (tok : token)
    (h : Machine.cursor a = Machine.cursor b) :
    Machine.cursor (Machine.ttf_process_token env a tok)
      = Machine.cursor (Machine.ttf_process_token env b tok) := by
  unfold Machine.ttf_process_token
  dsimp only
  split_ifs
  · exact machine_updateMax_same _ _ (machine_literal_same env a b _ h)
  · exact machine_updateMax_same _ _ (machine_literal_same env a b _ h)
  · exact machine_updateMax_same _ _ (machine_format_code_same env a b tok h)

theorem machine_fold_same (toks : List token) :
    ∀ a b : rct_drawpixelinfo × TextMemory, Machine.cursor a = Machine.cursor b →
      Machine.cursor (toks.foldl (Machine.ttf_process_token env) a)
        = Machine.cursor (toks.foldl (Machine.ttf_process_token env) b) := by
  induction toks with
  | nil => exact fun a b h => h
  | cons t ts ih =>
    intro a b h
    rw [List.foldl_cons, List.foldl_cons]
    exact ih _ _ (machine_token_same env a b t h)

theorem machine_string_same (a b : rct_drawpixelinfo × TextMemory) (text : List Nat)
    (h : Machine.cursor a = Machine.cursor b) :
    Machine.cursor (Machine.ttf_process_string env a.1 text a.2)
      = Machine.cursor (Machine.ttf_process_string env b.1 text b.2) := by
  have hl := machine_updateMax_same _ _ (machine_literal_same env a b text h)
  have hf := machine_fold_same env (FmtString env text) (a.1, a.2) (b.1, b.2) h
  obtain ⟨calls, g, id, palette, yoff, rfl⟩ := machine_cursor_shape a b h
  unfold Machine.ttf_process_string
  dsimp only at hl hf ⊢
  cases hasFlag b.2.info.flags TEXT_DRAW_FLAG_NO_FORMATTING
  · exact hf
  · exact hl

/-- The value measured does not depend on what the memory holds on entry: neither on
the process-wide variables nor on the contents of the local draw state. -/
theorem machine_measure_value (mem other : TextMemory) (text : List Nat) (fs : FontStyle)
    (nf : Bool) :
    (Machine.ttf_get_string_width env other text fs nf).1
      = (Machine.ttf_get_string_width env mem text fs nf).1 := by
  have h := machine_string_same env
    (nullDpi, { other with info := Machine.measureInfo env fs nf other.info })
    (nullDpi, { mem with info := Machine.measureInfo env fs nf mem.info }) text
    (by simp [Machine.cursor, Machine.measureInfo])
  have h5 := congrArg (fun v => v.2.2.2.2.2.1) h
  exact h5

/-! ### Literal runs and Newline tokens on the machine, without overflow -/

theorem machine_sprite_fold_bounded
    (hw : ∀ fs c, 0 ≤ env.font_sprite_get_codepoint_width fs c)
    (dpi : rct_drawpixelinfo) (text : List Nat) :
    ∀ mem : TextMemory, hasFlag mem.info.flags TEXT_DRAW_FLAG_NO_DRAW = true →
      0 ≤ mem.info.x →
      mem.info.x + glyphSum env mem.info.FontStyle text ≤ 2147483647 →
      text.foldl (fun st c => Machine.ttf_draw_character_sprite env st.1 c st.2) (dpi, mem)
        = (dpi, { mem with info := { mem.info with
            x := mem.info.x + glyphSum env mem.info.FontStyle text } }) := by
  induction text with
  | nil =>
    intro mem _ _ _
    simp [glyphSum]
  | cons c t ih =>
    intro mem h h0 hb
    rw [List.foldl_cons]
    dsimp only
    rw [machine_sprite_char_nodraw env dpi c mem h]
    have hc := hw mem.info.FontStyle c
    have ht := glyphSum_nonneg env hw mem.info.FontStyle t
    rw [glyphSum_cons] at hb
    rw [wrap32_of_range _ (by omega) (by omega)]
    rw [ih { mem with info := { mem.info with
        x := mem.info.x + env.font_sprite_get_codepoint_width mem.info.FontStyle c } } h
      (by dsimp only; omega) (by dsimp only; omega)]
    simp [glyphSum_cons, add_assoc]

theorem machine_literal_bounded
    (hw : ∀ fs c, 0 ≤ env.font_sprite_get_codepoint_width fs c)
    (st : rct_drawpixelinfo × TextMemory) (t : List Nat) (p : Int)
    (h : SpriteMeasure st.2.info) (h0 : 0 ≤ st.2.info.x)
    (hb : st.2.info.x + glyphSum env st.2.info.FontStyle t ≤ 2147483647) :
    Machine.ttf_process_token env st ⟨FormatToken.Literal, t, p⟩
      = (st.1, { st.2 with info := updateMax { st.2.info with
          x := st.2.info.x + glyphSum env st.2.info.FontStyle t } }) := by
  unfold Machine.ttf_process_token Machine.ttf_process_string_literal
    Machine.ttf_draw_string_raw_sprite CodepointView
  simp only [token.IsLiteral, decide_True, if_true, h.2, Bool.not_false]
  rw [machine_sprite_fold_bounded env hw st.1 t st.2 h.1 h0 hb]
  rfl

theorem machine_newline (st : rct_drawpixelinfo × TextMemory) (tok : token)
    (h : tok.kind = FormatToken.Newline) :
    Machine.ttf_process_token env st tok
      = (st.1, { st.2 with info := updateMax { st.2.info with
          x := st.2.info.startX,
          y := wrap32 (st.2.info.y + env.font_get_line_height st.2.info.FontStyle) } }) := by
  unfold Machine.ttf_process_token Machine.ttf_process_format_code
  simp [token.IsLiteral, token.IsCodepoint, h, Machine.updateMax]

/-- The bounding box after a sequence of literal and `Newline` tokens, measured by the
machine with the sprite font from a cursor at `x`, when no run passes `INT32_MAX`. -/
theorem machine_runs (hw : ∀ fs c, 0 ≤ env.font_sprite_get_codepoint_width fs c)
    (fs : FontStyle) (toks : List token) :
    ∀ st : rct_drawpixelinfo × TextMemory,
      (∀ tok ∈ toks, tok.kind = FormatToken.Literal ∨ tok.kind = FormatToken.Newline) →
      SpriteMeasure st.2.info → st.2.info.startX = 0 → st.2.info.FontStyle = fs →
      st.2.info.x ≤ st.2.info.maxX → 0 ≤ st.2.info.x →
      (∀ v ∈ addFirst st.2.info.x ((segments isNewline toks).map (glyphSum env fs)),
        v ≤ 2147483647) →
      (toks.foldl (Machine.ttf_process_token env) st).2.info.maxX
        = max st.2.info.maxX
            (listMax (addFirst st.2.info.x
              ((segments isNewline toks).map (glyphSum env fs)))) := by
  induction toks with
  | nil =>
    intro st _ _ _ _ hx h0 _
    simp only [List.foldl_nil, segments, List.map_cons, List.map_nil, addFirst, listMax_cons,
      glyphSum_nil, add_zero]
    have h1 : listMax [] = 0 := rfl
    rw [h1, max_eq_left h0, max_eq_left hx]
  | cons tok rest ih =>
    intro st htoks hs hstart hfs hx h0 hb
    have hrest : ∀ t ∈ rest, t.kind = FormatToken.Literal ∨ t.kind = FormatToken.Newline :=
      fun t ht => htoks t (List.mem_cons_of_mem _ ht)
    rw [List.foldl_cons]
    obtain ⟨s, ss, hseg⟩ := List.exists_cons_of_ne_nil (segments_ne_nil isNewline rest)
    rcases htoks tok (List.mem_cons_self _ _) with hk | hk
    · -- a literal run
      have hnb : ¬ isNewline tok = true := by simp [isNewline, hk]
      obtain ⟨k, t, p⟩ := tok
      simp only at hk
      subst hk
      have hgt := glyphSum_nonneg env hw fs t
      have hgs := glyphSum_nonneg env hw fs s
      rw [segments, if_neg hnb, hseg] at hb ⊢
      simp only [List.map_cons, addFirst, glyphSum_append, List.mem_cons, forall_eq_or_imp]
        at hb
      have hstep := machine_literal_bounded env hw st t p hs h0 (by rw [hfs]; omega)
      rw [hstep, hfs]
      rw [ih (st.1, { st.2 with info := updateMax { st.2.info with
            x := st.2.info.x + glyphSum env fs t } })
        hrest hs hstart hfs (le_max_right _ _) (by simp only [updateMax]; omega)
        (by
          rw [hseg]
          simp only [updateMax, List.map_cons, addFirst, List.mem_cons, forall_eq_or_imp]
          exact ⟨by omega, hb.2⟩)]
      rw [hseg]
      simp only [updateMax, List.map_cons, addFirst, listMax_cons, glyphSum_append]
      have hl := listMax_nonneg (List.map (glyphSum env fs) ss)
      omega
    · -- a Newline token
      have hnb : isNewline tok = true := by simp [isNewline, hk]
      have hgs := glyphSum_nonneg env hw fs s
      rw [segments_break _ _ _ hnb, hseg] at hb ⊢
      simp only [List.map_cons, addFirst, glyphSum_nil, add_zero, List.mem_cons,
        forall_eq_or_imp] at hb
      rw [machine_newline env st tok hk]
      rw [ih (st.1, { st.2 with info := updateMax { st.2.info with
            x := st.2.info.startX,
            y := wrap32 (st.2.info.y + env.font_get_line_height st.2.info.FontStyle) } })
        hrest hs hstart hfs (by simp only [updateMax, hstart]; exact le_max_right _ _)
        (by simp only [updateMax, hstart]; exact le_refl _)
        (by
          rw [hseg]
          simp only [updateMax, hstart, List.map_cons, addFirst, zero_add, List.mem_cons,
            forall_eq_or_imp]
          exact hb.2)]
      rw [hseg]
      simp only [updateMax, List.map_cons, addFirst, listMax_cons, glyphSum_nil, hstart,
        add_zero, zero_add]
      have hl := listMax_nonneg (List.map (glyphSum env fs) ss)
      omega

theorem machine_measureInfo_sprite (fs : FontStyle) (uninit : text_draw_info)
    (h : env.UseTrueTypeFont = false) :
    SpriteMeasure (Machine.measureInfo env fs false uninit) := by
  unfold SpriteMeasure Machine.measureInfo
  rw [h]
  simp [hasFlag, TEXT_DRAW_FLAG_NO_DRAW, TEXT_DRAW_FLAG_TTF]
  decide

theorem machine_GfxGetStringWidth_eq (mem : TextMemory) (text : List Nat) (fs : FontStyle) :
    (Machine.GfxGetStringWidth env mem text fs).1
      = ((FmtString env text).foldl (Machine.ttf_process_token env)
          (nullDpi, { mem with info := Machine.measureInfo env fs false mem.info })).2.info.maxX := by
  have hf : hasFlag (Machine.measureInfo env fs false mem.info).flags
      TEXT_DRAW_FLAG_NO_FORMATTING = false := by
    unfold Machine.measureInfo
    cases env.UseTrueTypeFont <;>
      simp [hasFlag, TEXT_DRAW_FLAG_NO_DRAW, TEXT_DRAW_FLAG_TTF, TEXT_DRAW_FLAG_NO_FORMATTING] <;>
      decide
  unfold Machine.GfxGetStringWidth Machine.ttf_get_string_width Machine.measureState
    Machine.ttf_process_string
  dsimp only
  rw [hf]
  simp

/-- Without overflow the machine measures literal runs separated by `Newline` tokens
as the largest run. -/
theorem machine_runs_width (hw : ∀ fs c, 0 ≤ env.font_sprite_get_codepoint_width fs c)
    (httf : env.UseTrueTypeFont = false) (mem : TextMemory) (text : List Nat)
    (fs : FontStyle)
    (hruns : ∀ tok ∈ FmtString env text,
      tok.kind = FormatToken.Literal ∨ tok.kind = FormatToken.Newline)
    (hbound : ∀ run ∈ segments isNewline (FmtString env text),
      glyphSum env fs run ≤ 2147483647) :
    (Machine.GfxGetStringWidth env mem text fs).1
      = listMax ((segments isNewline (FmtString env text)).map (glyphSum env fs)) := by
  have hs := machine_measureInfo_sprite env fs mem.info httf
  have hne := segments_ne_nil isNewline (FmtString env text)
  obtain ⟨s, ss, hseg⟩ := List.exists_cons_of_ne_nil hne
  have hb : ∀ v ∈ addFirst 0 ((segments isNewline (FmtString env text)).map (glyphSum env fs)),
      v ≤ 2147483647 := by
    rw [hseg]
    simp only [List.map_cons, addFirst, zero_add]
    intro v hv
    obtain ⟨run, hrun, hr⟩ := List.mem_map.mp
      (show v ∈ (s :: ss).map (glyphSum env fs) by simpa using hv)
    rw [← hr]
    exact hbound run (by rw [hseg]; exact hrun)
  have hmax := machine_runs env hw fs (FmtString env text)
    (nullDpi, { mem with info := Machine.measureInfo env fs false mem.info })
    hruns hs rfl rfl (le_refl _) (le_refl _) hb
  rw [machine_GfxGetStringWidth_eq, hmax, hseg]
  have h0 : (Machine.measureInfo env fs false mem.info).maxX = 0 := rfl
  have hx : (Machine.measureInfo env fs false mem.info).x = 0 := rfl
  dsimp only
  rw [h0, hx]
  simp only [List.map_cons, addFirst, zero_add]
  exact max_eq_right (listMax_nonneg _)

/-- With the cursor in `Int`, literal runs separated by `Newline` tokens measure as the
largest run. -/
theorem runs_width (hw : ∀ fs c, 0 ≤ env.font_sprite_get_codepoint_width fs c)
    (httf : env.UseTrueTypeFont = false) (text : List Nat) (fs : FontStyle)
    (hruns : ∀ tok ∈ FmtString env text,
      tok.kind = FormatToken.Literal ∨ tok.kind = FormatToken.Newline) :
    GfxGetStringWidth env text fs
      = listMax ((segments isNewline (FmtString env text)).map (glyphSum env fs)) := by
  have hs := measureInfo_sprite env fs httf
  have hmax := process_runs env hw fs (FmtString env text)
    (nullDpi, measureInfo env fs false) hruns hs rfl rfl (le_refl _) (le_refl _)
  have hne := segments_ne_nil isNewline (FmtString env text)
  obtain ⟨s, ss, hseg⟩ := List.exists_cons_of_ne_nil hne
  rw [GfxGetStringWidth_eq, hmax, hseg]
  have h0 : (nullDpi, measureInfo env fs false).2.maxX = 0 := rfl
  have hx : (nullDpi, measureInfo env fs false).2.x = 0 := rfl
  rw [h0, hx]
  simp only [List.map_cons, addFirst, zero_add]
  exact max_eq_right (listMax_nonneg _)

/-- The machine does change palettes and process-wide state on other paths: a colour
token measured in `paintEnv` stores into the palette of the local draw state (and only
there), a run drawn through the OpenGL engine advances the counter `_ttfGlId`, and
`TtfDrawString` of the same colour token leaves the new palette in `gTextPalette`. -/
theorem machine_stores :
    (Machine.GfxGetStringWidth paintEnv zeroMemory [5] FontStyle.Medium).2.info.palette
        = [0, 6, 0, 0, 0, 0, 0, 0] ∧
      (Machine.GfxGetStringWidth paintEnv zeroMemory [5] FontStyle.Medium).2.gTextPalette
        = [0, 0, 0, 0, 0, 0, 0, 0] ∧
      (Machine.ttf_draw_string_raw_ttf { ttfDemoEnv with DrawingEngineOpenGL := true }
        nullDpi [97] ⟨[0, 0, 0, 0, 0, 0, 0, 0], 0, originInfo TEXT_DRAW_FLAG_TTF⟩).2.ttfGlId
        = 1 ∧
      (Machine.TtfDrawString paintEnv demoColours nullDpi (0, 0) zeroMemory (some [5]) 0 (0, 0)
        false FontStyle.Medium TextDarkness.Regular).2.2.gTextPalette
        = [0, 6, 0, 0, 0, 0, 0, 0] := by
  decide

end MachineLevel

/-! ## The claims about wrapped runs, measurement, inline sprites and object entries -/

/-- C11, evaluated at the failing input: three glyphs of width 5 wrapped at budget 7
(the budget is at least the glyph width) give the lines `a` and `aa`, and the second
line measures 10 pixels, more than the budget.  The scenario of the claim, ten such
glyphs at budget 22, gives lines of 20, 20 and 10 pixels. -/
theorem GfxWrapString_glyph_run_overflow :
    demoEnv.font_sprite_get_codepoint_width FontStyle.Medium 97 = 5 ∧
      (GfxWrapString demoEnv [97, 97, 97] 7 FontStyle.Medium).text = [97, 0, 97, 97] ∧
      (wrappedLines (GfxWrapString demoEnv [97, 97, 97] 7 FontStyle.Medium).text).map
          (fun l => GfxGetStringWidth demoEnv l FontStyle.Medium) = [5, 10] ∧
      (wrappedLines (GfxWrapString demoEnv [97, 97, 97, 97, 97, 97, 97, 97, 97, 97] 22
          FontStyle.Medium).text).map
          (fun l => GfxGetStringWidth demoEnv l FontStyle.Medium) = [20, 20, 10] := by
  decide

/-- C12: for every text made only of literal cells other than the space (no NUL, no
control code) and every budget, removing the NUL break markers from the buffer that
`GfxWrapString` writes back gives the original text, and the length of the output is
the length of the input plus `outNumLines`. -/
theorem GfxWrapString_preserves_text (env : Env) (text : List Nat) (W : Int) (fs : FontStyle)
    (h : ∀ c ∈ text, c ≠ 0 ∧ c ≠ 32 ∧ controlCode env c = none) :
    (GfxWrapString env text W fs).text.filter (fun c => c != 0) = text ∧
      (GfxWrapString env text W fs).text.length
        = text.length + (GfxWrapString env text W fs).outNumLines := by
  have h1 := GfxWrapString_text_kept env text W fs h
  refine ⟨h1, ?_⟩
  obtain ⟨lines, cur, hl, hc, h2, h3, _⟩ := GfxWrapString_shape env text W fs
  have h4 := length_filter_add_count (GfxWrapString env text W fs).text
  rw [h1] at h4
  rw [h4, h3, h2, count_nul_join lines cur hl hc]

/-- Witness for `GfxWrapString_preserves_text`: ten glyphs `a` at budget 22. -/
theorem GfxWrapString_preserves_text_witness :
    (GfxWrapString demoEnv [97, 97, 97, 97, 97, 97, 97, 97, 97, 97] 22
        FontStyle.Medium).text.filter (fun c => c != 0)
        = [97, 97, 97, 97, 97, 97, 97, 97, 97, 97] ∧
      (GfxWrapString demoEnv [97, 97, 97, 97, 97, 97, 97, 97, 97, 97] 22
        FontStyle.Medium).text.length
        = [97, 97, 97, 97, 97, 97, 97, 97, 97, 97].length
          + (GfxWrapString demoEnv [97, 97, 97, 97, 97, 97, 97, 97, 97, 97] 22
              FontStyle.Medium).outNumLines :=
  GfxWrapString_preserves_text demoEnv [97, 97, 97, 97, 97, 97, 97, 97, 97, 97] 22
    FontStyle.Medium (by decide)

/-- C13, as stated, fails: in `Hello<newline>Hi` with 5 pixel glyphs the segment
after the newline measures 10 pixels, yet `GfxGetStringWidthNewLined` returns 25, the
width of the only segment that a newline token closes. -/
theorem GfxGetStringWidthNewLined_counterexample :
    segments isNewlineToken (FmtString fivePxEnv [72, 101, 108, 108, 111, 1, 72, 105])
        = [[72, 101, 108, 108, 111], [72, 105]] ∧
      GfxGetStringWidth fivePxEnv [72, 105] FontStyle.Medium = 10 ∧
      GfxGetStringWidthNewLined fivePxEnv [72, 101, 108, 108, 111, 1, 72, 105]
        FontStyle.Medium = 25 := by
  decide

/-- C13, amended: for every text containing at least one newline token (`Newline` or
`NewlineSmall`), `GfxGetStringWidthNewLined` returns the minimum of the
`GfxGetStringWidth` values of the segments that end at a newline token; the segment
after the last newline token is not measured. -/
theorem GfxGetStringWidthNewLined_min (env : Env) (text : List Nat) (fs : FontStyle)
    (h : ∃ tok ∈ FmtString env text,
      tok.kind = FormatToken.Newline ∨ tok.kind = FormatToken.NewlineSmall) :
    (∀ seg ∈ (segments isNewlineToken (FmtString env text)).dropLast,
        GfxGetStringWidthNewLined env text fs ≤ GfxGetStringWidth env seg fs) ∧
      ∃ seg ∈ (segments isNewlineToken (FmtString env text)).dropLast,
        GfxGetStringWidth env seg fs = GfxGetStringWidthNewLined env text fs := by
  obtain ⟨tok, htok, hk⟩ := h
  exact newLined_min env text fs ⟨tok, htok, by simp [isNewlineToken, hk]⟩

/-- Witness for `GfxGetStringWidthNewLined_min`: `Hello<newline>World` with 5 pixel
glyphs, whose two segments measure 25 and 25; the result is 25. -/
theorem GfxGetStringWidthNewLined_min_witness :
    (segments isNewlineToken
        (FmtString fivePxEnv [72, 101, 108, 108, 111, 1, 87, 111, 114, 108, 100])).map
        (fun seg => GfxGetStringWidth fivePxEnv seg FontStyle.Medium) = [25, 25] ∧
      GfxGetStringWidthNewLined fivePxEnv [72, 101, 108, 108, 111, 1, 87, 111, 114, 108, 100]
        FontStyle.Medium = 25 ∧
      ((∀ seg ∈ (segments isNewlineToken
            (FmtString fivePxEnv [72, 101, 108, 108, 111, 1, 87, 111, 114, 108, 100])).dropLast,
          GfxGetStringWidthNewLined fivePxEnv
              [72, 101, 108, 108, 111, 1, 87, 111, 114, 108, 100] FontStyle.Medium
            ≤ GfxGetStringWidth fivePxEnv seg FontStyle.Medium) ∧
        ∃ seg ∈ (segments isNewlineToken
            (FmtString fivePxEnv [72, 101, 108, 108, 111, 1, 87, 111, 114, 108, 100])).dropLast,
          GfxGetStringWidth fivePxEnv seg FontStyle.Medium
            = GfxGetStringWidthNewLined fivePxEnv
                [72, 101, 108, 108, 111, 1, 87, 111, 114, 108, 100] FontStyle.Medium) :=
  ⟨by decide, by decide,
    GfxGetStringWidthNewLined_min fivePxEnv [72, 101, 108, 108, 111, 1, 87, 111, 114, 108, 100]
      FontStyle.Medium ⟨⟨FormatToken.Newline, [1], 0⟩, by decide, Or.inl rfl⟩⟩

/-- C14, as stated, fails: the cursor is an `int32_t`.  In `wideEnv` every glyph is
2^30 pixels wide, the text `ab` is a single literal run whose glyph widths sum to 2^31,
one more than `INT32_MAX`; the cursor wraps around to -2^31 and `GfxGetStringWidth`
returns 0. -/
theorem GfxGetStringWidth_runs_counterexample :
    wideEnv.UseTrueTypeFont = false ∧
      wideEnv.font_sprite_get_codepoint_width FontStyle.Medium 97 = 1073741824 ∧
      wideEnv.font_sprite_get_codepoint_width FontStyle.Medium 98 = 1073741824 ∧
      (∀ tok ∈ FmtString wideEnv [97, 98],
        tok.kind = FormatToken.Literal ∨ tok.kind = FormatToken.Newline) ∧
      (segments isNewline (FmtString wideEnv [97, 98])).map
        (glyphSum wideEnv FontStyle.Medium) = [2147483648] ∧
      (Machine.GfxGetStringWidth wideEnv zeroMemory [97, 98] FontStyle.Medium).1 = 0 := by
  decide

/-- C14, amended: `GfxGetStringWidth` returns the bounding-box width as long as the
cursor does not overflow.  For every text made of literal runs separated by `Newline`
tokens, measured by the machine (`int32_t` arithmetic modulo 2^32) with the sprite font
and non-negative glyph widths, when no run has glyph widths that sum to more than
`INT32_MAX` = 2147483647: the result is the maximum over the runs of the sum of the
glyph widths of the run (no run sums to more, and one run sums to exactly the result),
whatever the memory holds on entry; and it is the value that the embedding with the
cursor in `Int` gives. -/
theorem GfxGetStringWidth_runs (env : Env) (mem : TextMemory) (text : List Nat)
    (fs : FontStyle) (httf : env.UseTrueTypeFont = false)
    (hw : ∀ style c, 0 ≤ env.font_sprite_get_codepoint_width style c)
    (hruns : ∀ tok ∈ FmtString env text,
      tok.kind = FormatToken.Literal ∨ tok.kind = FormatToken.Newline)
    (hbound : ∀ run ∈ segments isNewline (FmtString env text),
      glyphSum env fs run ≤ 2147483647) :
    (∀ run ∈ segments isNewline (FmtString env text),
        glyphSum env fs run ≤ (Machine.GfxGetStringWidth env mem text fs).1) ∧
      (∃ run ∈ segments isNewline (FmtString env text),
        glyphSum env fs run = (Machine.GfxGetStringWidth env mem text fs).1) ∧
      (Machine.GfxGetStringWidth env mem text fs).1 = GfxGetStringWidth env text fs := by
  have hne := segments_ne_nil isNewline (FmtString env text)
  rw [runs_width env hw httf text fs hruns,
    machine_runs_width env hw httf mem text fs hruns hbound]
  refine ⟨?_, ?_, rfl⟩
  · intro run hrun
    exact le_listMax _ _ (List.mem_map.mpr ⟨run, hrun, rfl⟩)
  · have hmem := listMax_mem ((segments isNewline (FmtString env text)).map (glyphSum env fs))
      (by simp [hne]) (by
        intro a ha
        obtain ⟨run, _, hr⟩ := List.mem_map.mp ha
        rw [← hr]
        exact glyphSum_nonneg env hw fs run)
    obtain ⟨run, hrun, hr⟩ := List.mem_map.mp hmem
    exact ⟨run, hrun, hr⟩

/-- Witness for `GfxGetStringWidth_runs`: `Hello<Newline>World!` in `demoEnv`, whose
runs sum to 25 and 36 pixels; the cursor ends at 36 after a reset to 0. -/
theorem GfxGetStringWidth_runs_witness :
    (segments isNewline
        (FmtString demoEnv [72, 101, 108, 108, 111, 1, 87, 111, 114, 108, 100, 33])).map
        (glyphSum demoEnv FontStyle.Medium) = [25, 36] ∧
      ((∀ run ∈ segments isNewline
            (FmtString demoEnv [72, 101, 108, 108, 111, 1, 87, 111, 114, 108, 100, 33]),
          glyphSum demoEnv FontStyle.Medium run
            ≤ (Machine.GfxGetStringWidth demoEnv zeroMemory
                [72, 101, 108, 108, 111, 1, 87, 111, 114, 108, 100, 33] FontStyle.Medium).1) ∧
        (∃ run ∈ segments isNewline
            (FmtString demoEnv [72, 101, 108, 108, 111, 1, 87, 111, 114, 108, 100, 33]),
          glyphSum demoEnv FontStyle.Medium run
            = (Machine.GfxGetStringWidth demoEnv zeroMemory
                [72, 101, 108, 108, 111, 1, 87, 111, 114, 108, 100, 33] FontStyle.Medium).1) ∧
        (Machine.GfxGetStringWidth demoEnv zeroMemory
            [72, 101, 108, 108, 111, 1, 87, 111, 114, 108, 100, 33] FontStyle.Medium).1
          = GfxGetStringWidth demoEnv [72, 101, 108, 108, 111, 1, 87, 111, 114, 108, 100, 33]
              FontStyle.Medium) :=
  ⟨by decide,
    GfxGetStringWidth_runs demoEnv zeroMemory
      [72, 101, 108, 108, 111, 1, 87, 111, 114, 108, 100, 33] FontStyle.Medium rfl
      (by
        intro style c
        show 0 ≤ demoWidth style c
        unfold demoWidth
        split_ifs <;> decide)
      (by decide) (by decide)⟩

/-- C15, evaluated at the failing input: with the outline font on, the text `ab`
(20 pixels) processed at the origin of a 15 pixel wide buffer ends with the cursor at
x = 15 and the bounding box at 15 when drawing, and at x = 20 and 20 with the no-draw
flag set; with the OpenGL engine the drawing cursor does not move at all. -/
theorem no_draw_parity_fails :
    (ttf_process_string ttfDemoEnv ⟨0, 0, 15, 20, 0, []⟩ [97, 98]
        (originInfo TEXT_DRAW_FLAG_TTF)).2.x = 15 ∧
      (ttf_process_string ttfDemoEnv ⟨0, 0, 15, 20, 0, []⟩ [97, 98]
        (originInfo TEXT_DRAW_FLAG_TTF)).2.maxX = 15 ∧
      (ttf_process_string ttfDemoEnv ⟨0, 0, 15, 20, 0, []⟩ [97, 98]
        (originInfo (TEXT_DRAW_FLAG_TTF ||| TEXT_DRAW_FLAG_NO_DRAW))).2.x = 20 ∧
      (ttf_process_string ttfDemoEnv ⟨0, 0, 15, 20, 0, []⟩ [97, 98]
        (originInfo (TEXT_DRAW_FLAG_TTF ||| TEXT_DRAW_FLAG_NO_DRAW))).2.maxX = 20 ∧
      (ttf_process_string { ttfDemoEnv with DrawingEngineOpenGL := true }
        ⟨0, 0, 100, 20, 0, []⟩ [97, 98] (originInfo TEXT_DRAW_FLAG_TTF)).2.x = 0 := by
  decide

/-- C16: an `InlineSprite` token whose image is wider than 32 pixels is skipped
entirely: the draw state (cursor, bounding box, palette, flags) and the destination
buffer with its list of draw calls come back unchanged. -/
theorem InlineSprite_too_wide (env : Env) (dpi : rct_drawpixelinfo) (tok : token)
    (info : text_draw_info) (g1 : rct_g1_element)
    (hk : tok.kind = FormatToken.InlineSprite)
    (hg : env.GfxGetG1Element (env.ImageIdGetIndex tok.parameter) = some g1)
    (hw : 32 < g1.width) :
    ttf_process_format_code env dpi tok info = (dpi, info) := by
  unfold ttf_process_format_code
  rw [hk]
  dsimp only
  rw [hg]
  dsimp only
  rw [if_neg]
  intro h
  exact absurd h.1 (not_le.mpr hw)

/-- Witness for `InlineSprite_too_wide`: image 3 of `spriteDemoEnv`, 40 pixels wide. -/
theorem InlineSprite_too_wide_witness :
    ttf_process_format_code spriteDemoEnv nullDpi ⟨FormatToken.InlineSprite, [3], 3⟩
        (originInfo 0) = (nullDpi, originInfo 0) :=
  InlineSprite_too_wide spriteDemoEnv nullDpi ⟨FormatToken.InlineSprite, [3], 3⟩
    (originInfo 0) ⟨40, 10, []⟩ rfl (by decide) (by decide)

/-- C18: measurement is side-effect-free and deterministic.  On the machine-level
state, for every text (colour tokens included), font style and value of `noFormatting`:
the call leaves the process-wide text palette `gTextPalette` and the counter `_ttfGlId`
as they were and makes no draw call on the destination; the value returned is the same
whatever the memory holds on entry (the process-wide variables, the uninitialised local
draw state), so a second call, made on the memory that the first call left, returns the
same value.  `GfxGetStringWidth` and `GfxGetStringWidthNoFormatting` are the calls with
`noFormatting` false and true.  The glyph metrics and the width cache of the outline
font are the functions of `env`, the same for both calls. -/
theorem measurement_pure (env : Env) (mem : TextMemory) (text : List Nat) (fs : FontStyle)
    (nf : Bool) :
    (Machine.ttf_get_string_width env mem text fs nf).2.gTextPalette = mem.gTextPalette ∧
      (Machine.ttf_get_string_width env mem text fs nf).2.ttfGlId = mem.ttfGlId ∧
      (Machine.measureState env mem text fs nf).1 = nullDpi ∧
      (∀ other : TextMemory,
        (Machine.ttf_get_string_width env other text fs nf).1
          = (Machine.ttf_get_string_width env mem text fs nf).1) ∧
      (Machine.ttf_get_string_width env
          (Machine.ttf_get_string_width env mem text fs nf).2 text fs nf).1
        = (Machine.ttf_get_string_width env mem text fs nf).1 ∧
      Machine.GfxGetStringWidth env mem text fs
        = Machine.ttf_get_string_width env mem text fs false ∧
      Machine.GfxGetStringWidthNoFormatting env mem text fs
        = Machine.ttf_get_string_width env mem text fs true := by
  obtain ⟨h1, h2, h3⟩ := machine_measure_silent env mem text fs nf
  exact ⟨h2, h3, h1, fun other => machine_measure_value env mem other text fs nf,
    machine_measure_value env mem _ text fs nf, rfl, rfl⟩

/-- C19, as stated, fails: `FootpathRailings` is a defined object type, and after
`SetType(FootpathRailings)` the call `GetType()` returns `Ride`. -/
theorem SetType_GetType_counterexample :
    ObjectType.FootpathRailings ∈ ObjectTypes ∧
      (RCTObjectEntry.SetType ⟨0, [], 0⟩ ObjectType.FootpathRailings).GetType
        = ObjectType.Ride ∧
      ObjectType.Ride ≠ ObjectType.FootpathRailings := by
  decide

/-- C19, amended: for every entry and every object type whose value fits the four
type bits (`Ride` through `FootpathSurface`), `GetType()` after `SetType(t)` returns
`t`; for every object type it returns the value of `t` modulo 16. -/
theorem SetType_GetType (e : RCTObjectEntry) (t : ObjectType) :
    (e.SetType t).GetType.value = t.value % 16 ∧
      (t.value ≤ 15 → (e.SetType t).GetType = t) := by
  have h : (e.SetType t).GetType.value = t.value % 16 := by
    unfold RCTObjectEntry.SetType RCTObjectEntry.GetType
    dsimp only
    apply Nat.eq_of_testBit_eq
    intro i
    have h15 : (15 : Nat) = 2 ^ 4 - 1 := by decide
    have h16 : (16 : Nat) = 2 ^ 4 := by decide
    have h256 : (256 : Nat) = 2 ^ 8 := by decide
    have hmask : ∀ j, j < 4 → Nat.testBit 4294967280 j = false := by
      intro j hj
      interval_cases j <;> decide
    rw [h16, Nat.testBit_mod_two_pow]
    simp only [Nat.testBit_and, Nat.testBit_or, h15, Nat.testBit_two_pow_sub_one, h256,
      Nat.testBit_mod_two_pow]
    by_cases hi : i < 4
    · have hi8 : i < 8 := by omega
      simp [hi, hi8, hmask i hi]
    · simp [hi]
  refine ⟨h, ?_⟩
  intro ht
  have hv : (e.SetType t).GetType.value = t.value := by
    rw [h]; omega
  cases t with
  | mk v =>
    cases hg : (e.SetType ⟨v⟩).GetType with
    | mk w =>
      rw [hg] at hv
      simp only at hv
      rw [hv]

/-- Witness for `SetType_GetType`: `Music` stored into an entry with other flag bits
set. -/
theorem SetType_GetType_witness :
    ObjectType.Music.value ≤ 15 ∧
      (RCTObjectEntry.SetType ⟨0xABCDEF12, [], 0⟩ ObjectType.Music).GetType
        = ObjectType.Music :=
  ⟨by decide, (SetType_GetType ⟨0xABCDEF12, [], 0⟩ ObjectType.Music).2 (by decide)⟩

/-- C20: for every flags value, `GetType()` is below `ObjectType::Count` and no
greater than the last defined object type, `Audio`. -/
theorem GetType_defined (e : RCTObjectEntry) :
    e.GetType.value < ObjectType.Count.value ∧ e.GetType.value ≤ ObjectType.Audio.value := by
  have h : e.GetType.value ≤ 15 := by
    unfold RCTObjectEntry.GetType
    exact Nat.and_le_right
  have hc : ObjectType.Count.value = 18 := rfl
  have ha : ObjectType.Audio.value = 17 := rfl
  rw [hc, ha]
  constructor <;> omega

/-! ### The type and source-game fields of an object entry -/

section EntryBits

theorem GetType_mod (e : RCTObjectEntry) : e.GetType.value = e.flags % 16 := by
  unfold RCTObjectEntry.GetType
  exact Nat.and_pow_two_sub_one_eq_mod e.flags 4

theorem GetSourceGame_div (e : RCTObjectEntry) : e.GetSourceGame = e.flags / 16 % 16 := by
  unfold RCTObjectEntry.GetSourceGame
  apply Nat.eq_of_testBit_eq
  intro i
  have h16 : (16 : Nat) = 2 ^ 4 := by decide
  have hmask : Nat.testBit 240 (4 + i) = decide (i < 4) := by
    by_cases hi : i < 4
    · interval_cases i <;> decide
    · have hlt : (240 : Nat) < 2 ^ (4 + i) :=
        lt_of_lt_of_le (by decide : (240 : Nat) < 2 ^ 8)
          (Nat.pow_le_pow_right (by decide) (by omega))
      rw [Nat.testBit_lt_two_pow hlt]
      simp [hi]
  rw [h16, Nat.testBit_mod_two_pow, ← Nat.shiftRight_eq_div_pow]
  simp only [Nat.testBit_shiftRight, Nat.testBit_and]
  rw [hmask, Bool.and_comm]

end EntryBits


/-! ### A text that is a single literal run -/

section SingleLiteral

variable (env : Env)

theorem FmtString_literal (text : List Nat) (h : ∀ c ∈ text, controlCode env c = none)
    (hne : text ≠ []) : FmtString env text = [⟨FormatToken.Literal, text, 0⟩] := by
  induction text with
  | nil => exact absurd rfl hne
  | cons c rest ih =>
    have hc := h c (List.mem_cons_self _ _)
    have hrest : ∀ d ∈ rest, controlCode env d = none :=
      fun d hd => h d (List.mem_cons_of_mem _ hd)
    rw [FmtString, hc]
    dsimp only
    cases rest with
    | nil => simp [FmtString]
    | cons d t => rw [ih hrest (by simp)]

theorem measureInfo_ttf (fs : FontStyle) (nf : Bool) :
    hasFlag (measureInfo env fs nf).flags TEXT_DRAW_FLAG_TTF = env.UseTrueTypeFont := by
  unfold measureInfo
  cases env.UseTrueTypeFont <;> cases nf <;>
    simp [hasFlag, TEXT_DRAW_FLAG_NO_DRAW, TEXT_DRAW_FLAG_TTF, TEXT_DRAW_FLAG_NO_FORMATTING] <;>
    decide

theorem measureInfo_noFormatting (fs : FontStyle) :
    hasFlag (measureInfo env fs true).flags TEXT_DRAW_FLAG_NO_FORMATTING = true := by
  unfold measureInfo
  cases env.UseTrueTypeFont <;>
    simp [hasFlag, TEXT_DRAW_FLAG_NO_DRAW, TEXT_DRAW_FLAG_TTF, TEXT_DRAW_FLAG_NO_FORMATTING]

theorem literalAdvance_measure (fs : FontStyle) (nf : Bool) (text : List Nat) :
    literalAdvance env fs (measureInfo env fs nf).flags text
      = literalAdvance env fs (measureInfo env fs false).flags text := by
  unfold literalAdvance
  rw [measureInfo_ttf, measureInfo_ttf]

theorem literalAdvance_nil (fs : FontStyle) (flags : Nat) :
    literalAdvance env fs flags [] = 0 := by
  unfold literalAdvance
  split <;> simp [glyphSum, runsAdvance, CodepointView]

/-- The width of an unformatted text: the advance of the whole text as one literal,
or 0 when that advance is negative. -/
theorem NoFormatting_eq (text : List Nat) (fs : FontStyle) :
    GfxGetStringWidthNoFormatting env text fs
      = max 0 (0 + literalAdvance env fs (measureInfo env fs false).flags text) := by
  unfold GfxGetStringWidthNoFormatting ttf_get_string_width ttf_process_string
  rw [measureInfo_noFormatting, if_pos rfl]
  dsimp only
  rw [literal_nodraw env nullDpi text _ (measureInfo_nodraw env fs true)]
  have h := literalAdvance_measure env fs true text
  have hf : (measureInfo env fs true).FontStyle = fs := rfl
  rw [hf, h]
  rfl

/-- The width of a formatted text that is one literal run. -/
theorem GfxGetStringWidth_literal (text : List Nat) (fs : FontStyle)
    (h : ∀ c ∈ text, controlCode env c = none) (hne : text ≠ []) :
    GfxGetStringWidth env text fs
      = max 0 (0 + literalAdvance env fs (measureInfo env fs false).flags text) := by
  rw [GfxGetStringWidth_eq, FmtString_literal env text h hne]
  simp only [List.foldl_cons, List.foldl_nil]
  unfold ttf_process_token
  have hl : token.IsLiteral ⟨FormatToken.Literal, text, 0⟩ = true := rfl
  rw [hl, if_pos rfl]
  dsimp only
  rw [literal_nodraw env nullDpi text _ (measureInfo_nodraw env fs false)]
  rfl

end SingleLiteral


/-! ### The fallback break of GfxWrapString -/

section FallbackBreak

variable (env : Env)

theorem wrapLoop_literal (text : List Nat) (W : Int) (fs : FontStyle)
    (h : ∀ c ∈ text, c ≠ 0 ∧ controlCode env c = none) :
    wrapLoop env text W fs
      = text.foldl (wrapCodepoint env W fs) ⟨[], 0, none, none, 0, 0⟩ := by
  unfold wrapLoop
  rw [cstr_eq_self (fun c hc => (h c hc).1)]
  by_cases hne : text = []
  · rw [hne]
    rfl
  · rw [FmtString_literal env text (fun c hc => (h c hc).2) hne]
    simp only [List.foldl_cons, List.foldl_nil]
    unfold wrapToken
    have hl : token.IsLiteral ⟨FormatToken.Literal, text, 0⟩ = true := rfl
    rw [hl, if_pos rfl]
    rfl

theorem insertNul_end (b : List Nat) (c : Nat) :
    insertNul (b ++ [c]) b.length = b ++ [0, c] := by
  unfold insertNul
  simp

theorem trimAt_end (b : List Nat) (c : Nat) :
    trimAt (b ++ [0, c]) (b.length + 1) = b ++ 0 :: (if c = 32 then [] else [c]) := by
  unfold trimAt
  have h1 : (b ++ [0, c]).take (b.length + 1) = b ++ [0] := by
    rw [List.take_append_eq_append_take]
    simp
  have h2 : (b ++ [0, c]).drop (b.length + 1) = [c] := by
    rw [List.drop_append_eq_append_drop]
    simp
  rw [h1, h2]
  by_cases hc : c = 32
  · simp [hc]
  · simp [hc]

/-- One codepoint on a line without a space: the fallback index stays at the end of
the buffer, and a break, when one is made, goes right before the codepoint. -/
theorem wrapCodepoint_fallback (W : Int) (fs : FontStyle) (s : WrapState) (c : Nat)
    (hc0 : c ≠ 0)
    (hb : s.splitIndex = none →
      s.bestSplitIndex = none ∨ s.bestSplitIndex = some s.buffer.length) :
    ((wrapCodepoint env W fs s c).splitIndex = none →
        (wrapCodepoint env W fs s c).bestSplitIndex = none ∨
          (wrapCodepoint env W fs s c).bestSplitIndex
            = some (wrapCodepoint env W fs s c).buffer.length) ∧
      ((wrapCodepoint env W fs s c).numLines = s.numLines ∨
        (s.splitIndex = none →
          (wrapCodepoint env W fs s c).buffer
            = s.buffer ++ 0 :: (if c = 32 then [] else [c]))) := by
  unfold wrapCodepoint
  rw [cstr_write hc0]
  dsimp only
  by_cases hfit : lineWidthAt env fs (s.buffer ++ [c]) s.currentLineIndex ≤ W ∨
      (s.splitIndex = none ∧ s.bestSplitIndex = none)
  · rw [if_pos hfit]
    by_cases hc : c = 32
    · rw [if_pos hc]
      exact ⟨fun h => by simp at h, Or.inl rfl⟩
    · rw [if_neg hc]
      by_cases hs : s.splitIndex = none
      · rw [if_pos hs]
        exact ⟨fun _ => Or.inr rfl, Or.inl rfl⟩
      · rw [if_neg hs]
        exact ⟨fun h => absurd h hs, Or.inl rfl⟩
  · rw [if_neg hfit]
    refine ⟨fun _ => Or.inl rfl, Or.inr ?_⟩
    intro hs
    have hbest : s.bestSplitIndex = some s.buffer.length := by
      rcases hb hs with h1 | h1
      · exact absurd (Or.inr ⟨hs, h1⟩) hfit
      · exact h1
    dsimp only
    rw [hs, hbest]
    dsimp only [Option.getD]
    rw [insertNul_end, trimAt_end]

theorem wrapCodepoints_fallback (W : Int) (fs : FontStyle) (cps : List Nat) :
    ∀ s : WrapState, (∀ c ∈ cps, c ≠ 0) →
      (s.splitIndex = none →
        s.bestSplitIndex = none ∨ s.bestSplitIndex = some s.buffer.length) →
      ((cps.foldl (wrapCodepoint env W fs) s).splitIndex = none →
        (cps.foldl (wrapCodepoint env W fs) s).bestSplitIndex = none ∨
          (cps.foldl (wrapCodepoint env W fs) s).bestSplitIndex
            = some (cps.foldl (wrapCodepoint env W fs) s).buffer.length) := by
  induction cps with
  | nil => exact fun s _ hb => hb
  | cons c rest ih =>
    intro s hc hb
    rw [List.foldl_cons]
    exact ih (wrapCodepoint env W fs s c) (fun d hd => hc d (List.mem_cons_of_mem _ hd))
      (wrapCodepoint_fallback env W fs s c (hc c (List.mem_cons_self _ _)) hb).1

/-- After a codepoint, a line without a space candidate has no fallback candidate (the
codepoint made a break) or has it right behind that codepoint. -/
theorem wrapCodepoint_best (W : Int) (fs : FontStyle) (s : WrapState) (c : Nat)
    (hc0 : c ≠ 0) (h : (wrapCodepoint env W fs s c).splitIndex = none) :
    ((wrapCodepoint env W fs s c).bestSplitIndex = none ∧
        (wrapCodepoint env W fs s c).splitIndex = none) ∨
      (wrapCodepoint env W fs s c).bestSplitIndex
        = some (wrapCodepoint env W fs s c).buffer.length := by
  revert h
  unfold wrapCodepoint
  rw [cstr_write hc0]
  dsimp only
  split_ifs with h1 h2 h3
  · intro h; simp at h
  · intro _; exact Or.inr rfl
  · intro h; exact absurd h h3
  · intro _; exact Or.inl ⟨rfl, rfl⟩

/-- A codepoint appended while both break candidates are unset is accepted. -/
theorem wrapCodepoint_unset (W : Int) (fs : FontStyle) (s : WrapState) (c : Nat)
    (hc0 : c ≠ 0) (hs : s.splitIndex = none) (hb : s.bestSplitIndex = none) :
    (wrapCodepoint env W fs s c).numLines = s.numLines := by
  unfold wrapCodepoint
  rw [cstr_write hc0]
  dsimp only
  rw [if_pos (Or.inr ⟨hs, hb⟩)]
  split_ifs <;> rfl

theorem insertNul_append (b F : List Nat) (c : Nat) :
    insertNul (b ++ F ++ [c]) b.length = b ++ 0 :: (F ++ [c]) := by
  unfold insertNul
  simp [List.take_append_eq_append_take, List.drop_append_eq_append_drop]

theorem trimAt_append (b t : List Nat) :
    trimAt (b ++ 0 :: t) (b.length + 1) = b ++ 0 :: t.dropWhile (fun x => x == 32) := by
  unfold trimAt
  have h1 : (b ++ 0 :: t).take (b.length + 1) = b ++ [0] := by
    rw [List.take_append_eq_append_take]
    simp
  have h2 : (b ++ 0 :: t).drop (b.length + 1) = t := by
    rw [List.drop_append_eq_append_drop]
    simp
  rw [h1, h2]
  simp

/-- A break made while no space candidate is set goes to the fallback candidate: the
cells behind it and the codepoint start the new line. -/
theorem wrapCodepoint_break_at (W : Int) (fs : FontStyle) (s : WrapState) (b F : List Nat)
    (c : Nat) (hc0 : c ≠ 0) (hbuf : s.buffer = b ++ F) (hs : s.splitIndex = none)
    (hb : s.bestSplitIndex = some b.length)
    (hn : (wrapCodepoint env W fs s c).numLines = s.numLines + 1) :
    (wrapCodepoint env W fs s c).buffer
      = b ++ 0 :: (F ++ [c]).dropWhile (fun x => x == 32) := by
  unfold wrapCodepoint at hn ⊢
  rw [cstr_write hc0] at hn ⊢
  dsimp only at hn ⊢
  by_cases hfit : lineWidthAt env fs (s.buffer ++ [c]) s.currentLineIndex ≤ W ∨
      (s.splitIndex = none ∧ s.bestSplitIndex = none)
  · rw [if_pos hfit] at hn
    split_ifs at hn <;> simp at hn
  · rw [if_neg hfit]
    dsimp only
    rw [hs, hb, hbuf]
    dsimp only [Option.getD]
    rw [insertNul_append, trimAt_append]

end FallbackBreak


/-! ### Flag arithmetic and the initial colour -/

section InitialColour

variable (env : Env)

theorem hasFlag_or_disjoint (f a m : Nat) (hm : m &&& a = 0) :
    hasFlag (f ||| a) m = hasFlag f m := by
  unfold hasFlag
  have h : (f ||| a) &&& m = f &&& m := by
    apply Nat.eq_of_testBit_eq
    intro i
    have hi := congrArg (fun n => Nat.testBit n i) hm
    simp only [Nat.testBit_and, Nat.testBit_or, Nat.zero_testBit] at hi ⊢
    cases h1 : f.testBit i <;> cases h2 : a.testBit i <;> cases h3 : m.testBit i <;>
      simp_all
  rw [h]

theorem hasFlag_clear_disjoint (f a m : Nat) (hm : m &&& a = 0)
    (hm32 : m &&& 0xFFFFFFFF = m) : hasFlag (clearFlag f a) m = hasFlag f m := by
  unfold hasFlag clearFlag
  have h : (f &&& (0xFFFFFFFF ^^^ a)) &&& m = f &&& m := by
    apply Nat.eq_of_testBit_eq
    intro i
    have hi := congrArg (fun n => Nat.testBit n i) hm
    have hj := congrArg (fun n => Nat.testBit n i) hm32
    simp only [Nat.testBit_and, Nat.testBit_xor, Nat.zero_testBit] at hi hj ⊢
    cases h1 : f.testBit i <;> cases h2 : a.testBit i <;> cases h3 : m.testBit i <;>
      cases h4 : Nat.testBit 0xFFFFFFFF i <;> simp_all
  rw [h]

theorem hasFlag_or_self (f m : Nat) (hm : m ≠ 0) : hasFlag (f ||| m) m = true := by
  unfold hasFlag
  have h : (f ||| m) &&& m = m := by
    apply Nat.eq_of_testBit_eq
    intro i
    simp only [Nat.testBit_and, Nat.testBit_or]
    cases h1 : f.testBit i <;> cases h3 : m.testBit i <;> simp_all
  rw [h]
  simpa using hm

theorem hasFlag_clear_within (f a m : Nat) (hma : m &&& a = m)
    (hm32 : m &&& 0xFFFFFFFF = m) : hasFlag (clearFlag f a) m = false := by
  unfold hasFlag clearFlag
  have h : (f &&& (0xFFFFFFFF ^^^ a)) &&& m = 0 := by
    apply Nat.eq_of_testBit_eq
    intro i
    have hi := congrArg (fun n => Nat.testBit n i) hma
    have hj := congrArg (fun n => Nat.testBit n i) hm32
    simp only [Nat.testBit_and, Nat.testBit_xor, Nat.zero_testBit] at hi hj ⊢
    cases h1 : f.testBit i <;> cases h2 : a.testBit i <;> cases h3 : m.testBit i <;>
      cases h4 : Nat.testBit 0xFFFFFFFF i <;> simp_all
  rw [h]
  rfl

theorem clearFlag_or_within (f a m : Nat) (ha : a &&& m = a)
    (hm32 : m &&& 0xFFFFFFFF = m) : clearFlag (f ||| a) m = clearFlag f m := by
  unfold clearFlag
  apply Nat.eq_of_testBit_eq
  intro i
  have hi := congrArg (fun n => Nat.testBit n i) ha
  have hj := congrArg (fun n => Nat.testBit n i) hm32
  simp only [Nat.testBit_and, Nat.testBit_or, Nat.testBit_xor] at hi hj ⊢
  cases h1 : f.testBit i <;> cases h2 : a.testBit i <;> cases h3 : m.testBit i <;>
    cases h4 : Nat.testBit 0xFFFFFFFF i <;> simp_all

theorem clearFlag_idem (f m : Nat) : clearFlag (clearFlag f m) m = clearFlag f m := by
  unfold clearFlag
  apply Nat.eq_of_testBit_eq
  intro i
  simp only [Nat.testBit_and, Nat.testBit_xor]
  cases h1 : f.testBit i <;> cases h3 : m.testBit i <;>
    cases h4 : Nat.testBit 0xFFFFFFFF i <;> simp_all

theorem mask32_of_lt (m : Nat) (h : m < 4294967296) : m &&& 0xFFFFFFFF = m := by
  have h1 := Nat.and_pow_two_sub_one_eq_mod m 32
  have h2 : m % 2 ^ 32 = m := Nat.mod_eq_of_lt h
  rw [h2] at h1
  exact h1

/-- The draw flags after `ttf_process_initial_colour` for a colour that is neither of
the two pass-through values. -/
theorem initial_colour_flags_eq (k : ColourConstants) (colour : Nat) (info : text_draw_info)
    (h254 : colour ≠ k.TEXT_COLOUR_254) (h255 : colour ≠ k.TEXT_COLOUR_255) :
    (ttf_process_initial_colour env k colour info).flags
      = if hasFlag (clearFlag colour k.COLOUR_FLAG_OUTLINE) k.COLOUR_FLAG_INSET then
          (if hasFlag colour k.COLOUR_FLAG_OUTLINE then
              clearFlag info.flags (TEXT_DRAW_FLAG_INSET ||| TEXT_DRAW_FLAG_OUTLINE)
                ||| TEXT_DRAW_FLAG_OUTLINE
            else clearFlag info.flags (TEXT_DRAW_FLAG_INSET ||| TEXT_DRAW_FLAG_OUTLINE))
            ||| TEXT_DRAW_FLAG_INSET
        else
          if hasFlag colour k.COLOUR_FLAG_OUTLINE then
            clearFlag info.flags (TEXT_DRAW_FLAG_INSET ||| TEXT_DRAW_FLAG_OUTLINE)
              ||| TEXT_DRAW_FLAG_OUTLINE
          else clearFlag info.flags (TEXT_DRAW_FLAG_INSET ||| TEXT_DRAW_FLAG_OUTLINE) := by
  unfold ttf_process_initial_colour
  rw [if_pos ⟨h254, h255⟩]
  dsimp only
  cases ho : hasFlag colour k.COLOUR_FLAG_OUTLINE <;>
    cases hi : hasFlag (clearFlag colour k.COLOUR_FLAG_OUTLINE) k.COLOUR_FLAG_INSET <;>
    simp only [Bool.not_true, Bool.not_false, Bool.false_eq_true, if_true, if_false] <;>
    split_ifs <;> rfl

/-- The palette after `ttf_process_initial_colour` for an inset colour. -/
theorem initial_colour_inset_palette (k : ColourConstants) (colour : Nat)
    (info : text_draw_info)
    (h254 : colour ≠ k.TEXT_COLOUR_254) (h255 : colour ≠ k.TEXT_COLOUR_255)
    (hi : hasFlag (clearFlag colour k.COLOUR_FLAG_OUTLINE) k.COLOUR_FLAG_INSET = true) :
    (ttf_process_initial_colour env k colour info).palette
      = setPalette info.palette
          (if hasFlag info.flags TEXT_DRAW_FLAG_DARK then
            if hasFlag info.flags TEXT_DRAW_FLAG_EXTRA_DARK then
              ((env.ColourMapA (clearFlag (clearFlag colour k.COLOUR_FLAG_OUTLINE)
                  k.COLOUR_FLAG_INSET)).mid_light <<< 16)
                ||| (env.ColourMapA (clearFlag (clearFlag colour k.COLOUR_FLAG_OUTLINE)
                  k.COLOUR_FLAG_INSET)).dark
            else
              ((env.ColourMapA (clearFlag (clearFlag colour k.COLOUR_FLAG_OUTLINE)
                  k.COLOUR_FLAG_INSET)).light <<< 16)
                ||| (env.ColourMapA (clearFlag (clearFlag colour k.COLOUR_FLAG_OUTLINE)
                  k.COLOUR_FLAG_INSET)).mid_dark
          else
            ((env.ColourMapA (clearFlag (clearFlag colour k.COLOUR_FLAG_OUTLINE)
                k.COLOUR_FLAG_INSET)).lighter <<< 16)
              ||| (env.ColourMapA (clearFlag (clearFlag colour k.COLOUR_FLAG_OUTLINE)
                k.COLOUR_FLAG_INSET)).mid_light) := by
  have hdark : ∀ (f m : Nat), m &&& (TEXT_DRAW_FLAG_INSET ||| TEXT_DRAW_FLAG_OUTLINE) = 0 →
      m &&& TEXT_DRAW_FLAG_OUTLINE = 0 → m &&& TEXT_DRAW_FLAG_INSET = 0 →
      m &&& 0xFFFFFFFF = m →
      hasFlag ((if hasFlag colour k.COLOUR_FLAG_OUTLINE then
          clearFlag f (TEXT_DRAW_FLAG_INSET ||| TEXT_DRAW_FLAG_OUTLINE)
            ||| TEXT_DRAW_FLAG_OUTLINE
        else clearFlag f (TEXT_DRAW_FLAG_INSET ||| TEXT_DRAW_FLAG_OUTLINE))
          ||| TEXT_DRAW_FLAG_INSET) m = hasFlag f m := by
    intro f m h1 h2 h3 h4
    rw [hasFlag_or_disjoint _ _ _ h3]
    split
    · rw [hasFlag_or_disjoint _ _ _ h2, hasFlag_clear_disjoint _ _ _ h1 h4]
    · rw [hasFlag_clear_disjoint _ _ _ h1 h4]
  have hd := hdark info.flags TEXT_DRAW_FLAG_DARK (by decide) (by decide) (by decide)
    (by decide)
  have he := hdark info.flags TEXT_DRAW_FLAG_EXTRA_DARK (by decide) (by decide) (by decide)
    (by decide)
  unfold ttf_process_initial_colour
  rw [if_pos ⟨h254, h255⟩]
  dsimp only
  rw [hi]
  simp only [Bool.not_true, Bool.false_eq_true, if_false]
  cases ho : hasFlag colour k.COLOUR_FLAG_OUTLINE
  · rw [ho] at hd he
    simp only [Bool.false_eq_true, if_false] at hd he ⊢
    rw [hd, he]
  · rw [ho] at hd he
    simp only [if_true] at hd he ⊢
    rw [hd, he]

theorem setPalette_entries (p : List Nat) (v : Nat) (h : 5 ≤ p.length) :
    (setPalette p v).getD 1 0 = v &&& 0xFF ∧
      (setPalette p v).getD 2 0 = (v >>> 8) &&& 0xFF ∧
      (setPalette p v).getD 3 0 = (v >>> 16) &&& 0xFF ∧
      (setPalette p v).getD 4 0 = (v >>> 24) &&& 0xFF := by
  rcases p with _ | ⟨p0, _ | ⟨p1, _ | ⟨p2, _ | ⟨p3, _ | ⟨p4, t⟩⟩⟩⟩⟩
  all_goals first
    | (simp at h; done)
    | (simp at h; omega)
    | exact ⟨rfl, rfl, rfl, rfl⟩

theorem ramp_bytes (hi lo : Nat) (hhi : hi < 256) (hlo : lo < 256) :
    ((hi <<< 16) ||| lo) &&& 0xFF = lo ∧
      (((hi <<< 16) ||| lo) >>> 8) &&& 0xFF = 0 ∧
      (((hi <<< 16) ||| lo) >>> 16) &&& 0xFF = hi ∧
      (((hi <<< 16) ||| lo) >>> 24) &&& 0xFF = 0 := by
  have hv : (hi <<< 16) ||| lo = 65536 * hi + lo := by
    rw [Nat.shiftLeft_eq, Nat.mul_comm]
    exact (Nat.mul_add_lt_is_or (lt_trans hlo (by decide : 256 < 2 ^ 16)) hi).symm
  have hmod : ∀ x : Nat, x &&& 0xFF = x % 256 := fun x => Nat.and_pow_two_sub_one_eq_mod x 8
  rw [hv, hmod, hmod, hmod, hmod, Nat.shiftRight_eq_div_pow, Nat.shiftRight_eq_div_pow,
    Nat.shiftRight_eq_div_pow]
  have h8 : (2 : Nat) ^ 8 = 256 := by decide
  have h16 : (2 : Nat) ^ 16 = 65536 := by decide
  have h24 : (2 : Nat) ^ 24 = 16777216 := by decide
  rw [h8, h16, h24]
  refine ⟨by omega, by omega, by omega, by omega⟩

end InitialColour


/-! ### The pieces of a literal in outline-font mode -/

section Pieces

variable (env : Env)

theorem addRun_addRun (r r2 : List Nat) (ps : List LiteralPiece) :
    addRun r (addRun r2 ps) = addRun (r ++ r2) ps := by
  cases ps with
  | nil => rfl
  | cons p ps =>
    cases p with
    | sprite c => rfl
    | outline r3 =>
      show LiteralPiece.outline (r ++ (r2 ++ r3)) :: ps
        = LiteralPiece.outline (r ++ r2 ++ r3) :: ps
      rw [List.append_assoc]

theorem addRun_cells (r : List Nat) (ps : List LiteralPiece) :
    (addRun r ps).flatMap LiteralPiece.cells = r ++ ps.flatMap LiteralPiece.cells := by
  cases ps with
  | nil => simp [addRun, LiteralPiece.cells]
  | cons p ps =>
    cases p with
    | sprite c => simp [addRun, LiteralPiece.cells]
    | outline r3 => simp [addRun, LiteralPiece.cells]

theorem addRun_wellFormed (r : List Nat) (ps : List LiteralPiece) (hr : r ≠ [])
    (hc : ∀ c ∈ r, ShouldUseSpriteForCodepoint env c = false)
    (hps : ∀ p ∈ ps, p.wellFormed env) : ∀ p ∈ addRun r ps, p.wellFormed env := by
  have hnew : (LiteralPiece.outline r).wellFormed env := ⟨hr, hc⟩
  cases ps with
  | nil =>
    intro p hp
    rw [List.mem_singleton.mp hp]
    exact hnew
  | cons q ps =>
    cases q with
    | sprite c =>
      intro p hp
      rcases List.mem_cons.mp hp with h1 | h1
      · rw [h1]; exact hnew
      · exact hps p h1
    | outline r3 =>
      intro p hp
      have hq := hps (LiteralPiece.outline r3) (List.mem_cons_self _ _)
      rcases List.mem_cons.mp hp with h1 | h1
      · rw [h1]
        refine ⟨by simp [hr], ?_⟩
        intro c hcm
        rcases List.mem_append.mp hcm with h2 | h2
        · exact hc c h2
        · exact hq.2 c h2
      · exact hps p (List.mem_cons_of_mem _ h1)

theorem runsMaximal_sprite (c : Nat) (ps : List LiteralPiece) (h : runsMaximal ps) :
    runsMaximal (LiteralPiece.sprite c :: ps) := by
  cases ps with
  | nil => trivial
  | cons q ps => exact ⟨fun hh => by simp [LiteralPiece.isOutline] at hh, h⟩

theorem addRun_maximal (r : List Nat) (ps : List LiteralPiece) (h : runsMaximal ps) :
    runsMaximal (addRun r ps) := by
  cases ps with
  | nil => trivial
  | cons q ps =>
    cases q with
    | sprite c => exact ⟨fun hh => by simp [LiteralPiece.isOutline] at hh, h⟩
    | outline r3 =>
      cases ps with
      | nil => trivial
      | cons q2 ps => exact ⟨h.1, h.2⟩

theorem pieces_cells (text : List Nat) :
    (literalPieces env text).flatMap LiteralPiece.cells = text := by
  induction text with
  | nil => rfl
  | cons c rest ih =>
    rw [literalPieces]
    split
    · rw [List.flatMap_cons, ih]
      rfl
    · rw [addRun_cells, ih]
      rfl

theorem pieces_wellFormed (text : List Nat) :
    ∀ p ∈ literalPieces env text, p.wellFormed env := by
  induction text with
  | nil =>
    intro p hp
    simp [literalPieces] at hp
  | cons c rest ih =>
    rw [literalPieces]
    split
    · rename_i hs
      intro p hp
      rcases List.mem_cons.mp hp with h1 | h1
      · rw [h1]; exact hs
      · exact ih p h1
    · rename_i hs
      refine addRun_wellFormed env _ _ (by simp [utf8_write_codepoint]) ?_ ih
      intro d hd
      have hdc : d = c := by simpa [utf8_write_codepoint] using hd
      rw [hdc]
      simpa using hs

theorem pieces_maximal (text : List Nat) : runsMaximal (literalPieces env text) := by
  induction text with
  | nil => trivial
  | cons c rest ih =>
    rw [literalPieces]
    split
    · exact runsMaximal_sprite c _ ih
    · exact addRun_maximal _ _ ih

/-- The loop of the outline-font branch renders the pieces of the text in order, the
run in progress joined to the first piece. -/
theorem ttfRuns_pieces (text : List Nat) :
    ∀ (run : Option (List Nat)) (st : rct_drawpixelinfo × text_draw_info),
      ttfRuns env text run st
        = (match run with
            | none => literalPieces env text
            | some r => addRun r (literalPieces env text)).foldl (renderPiece env) st := by
  induction text with
  | nil =>
    intro run st
    cases run with
    | none => rfl
    | some r => rfl
  | cons c rest ih =>
    intro run st
    cases run with
    | none =>
      rw [ttfRuns, literalPieces]
      by_cases hs : ShouldUseSpriteForCodepoint env c = true
      · rw [if_pos hs, if_pos hs]
        dsimp only
        rw [ih none]
        rfl
      · rw [if_neg hs, if_neg hs]
        dsimp only
        rw [ih (some (utf8_write_codepoint c))]
    | some r =>
      rw [ttfRuns, literalPieces]
      by_cases hs : ShouldUseSpriteForCodepoint env c = true
      · rw [if_pos hs, if_pos hs]
        dsimp only
        rw [ih none]
        rfl
      · rw [if_neg hs, if_neg hs]
        dsimp only
        rw [ih (some (r ++ utf8_write_codepoint c)), addRun_addRun]

end Pieces


/-! ### The palette entries that the text code never stores to -/

section PaletteFrame

variable (env : Env)

theorem setPalette_frame (p : List Nat) (v : Nat) :
    paletteFrame (setPalette p v) = paletteFrame p := by
  rcases p with _ | ⟨p0, _ | ⟨p1, _ | ⟨p2, _ | ⟨p3, _ | ⟨p4, t⟩⟩⟩⟩⟩ <;> rfl

theorem colour_char_frame (colour flags : Nat) (p : List Nat) :
    paletteFrame (colour_char env colour flags p) = paletteFrame p := by
  unfold colour_char
  exact setPalette_frame _ _

theorem colour_char_window_frame (colour flags : Nat) (p : List Nat) :
    paletteFrame (colour_char_window env colour flags p) = paletteFrame p := by
  unfold colour_char_window
  exact setPalette_frame _ _

theorem sprite_char_palette (dpi : rct_drawpixelinfo) (c : Nat) (info : text_draw_info) :
    (ttf_draw_character_sprite env dpi c info).2.palette = info.palette := by
  unfold ttf_draw_character_sprite
  split_ifs <;> rfl

theorem raw_sprite_fold_palette (text : List Nat) (st : rct_drawpixelinfo × text_draw_info) :
    (text.foldl (fun st c => ttf_draw_character_sprite env st.1 c st.2) st).2.palette
      = st.2.palette := by
  induction text generalizing st with
  | nil => rfl
  | cons c t ih =>
    rw [List.foldl_cons, ih]
    exact sprite_char_palette env st.1 c st.2

theorem raw_sprite_palette (dpi : rct_drawpixelinfo) (text : List Nat)
    (info : text_draw_info) :
    (ttf_draw_string_raw_sprite env dpi text info).2.palette = info.palette :=
  raw_sprite_fold_palette env (CodepointView text) (dpi, info)

theorem raw_ttf_palette (dpi : rct_drawpixelinfo) (text : List Nat) (info : text_draw_info) :
    (ttf_draw_string_raw_ttf env dpi text info).2.palette = info.palette := by
  unfold ttf_draw_string_raw_ttf
  dsimp only
  repeat' split
  all_goals first | rfl | exact raw_sprite_palette env dpi text info

theorem ttfRuns_palette (cps : List Nat) (run : Option (List Nat))
    (st : rct_drawpixelinfo × text_draw_info) :
    (ttfRuns env cps run st).2.palette = st.2.palette := by
  induction cps generalizing run st with
  | nil =>
    cases run with
    | none => rfl
    | some r => exact raw_ttf_palette env st.1 r st.2
  | cons c t ih =>
    unfold ttfRuns
    split_ifs
    · rw [ih, sprite_char_palette]
      cases run with
      | none => rfl
      | some r => exact raw_ttf_palette env st.1 r st.2
    · cases run with
      | none => exact ih _ _
      | some r => exact ih _ _

theorem literal_palette (dpi : rct_drawpixelinfo) (text : List Nat) (info : text_draw_info) :
    (ttf_process_string_literal env dpi text info).2.palette = info.palette := by
  unfold ttf_process_string_literal
  dsimp only
  split_ifs
  · exact raw_sprite_palette env dpi text info
  · exact ttfRuns_palette env _ none (dpi, info)

theorem format_code_frame (dpi : rct_drawpixelinfo) (tok : token) (info : text_draw_info) :
    paletteFrame (ttf_process_format_code env dpi tok info).2.palette
      = paletteFrame info.palette := by
  unfold ttf_process_format_code
  split
  all_goals first
    | rfl
    | exact colour_char_window_frame env _ _ _
    | skip
  · split
    · split_ifs <;> rfl
    · rfl
  · split_ifs
    · exact colour_char_frame env _ _ _
    · rfl

theorem process_token_frame (st : rct_drawpixelinfo × text_draw_info) (tok : token) :
    paletteFrame (ttf_process_token env st tok).2.palette = paletteFrame st.2.palette := by
  unfold ttf_process_token updateMax
  dsimp only
  split_ifs
  · rw [literal_palette]
  · unfold ttf_process_string_codepoint
    rw [literal_palette]
  · rw [format_code_frame]

theorem process_fold_frame (toks : List token) (st : rct_drawpixelinfo × text_draw_info) :
    paletteFrame (toks.foldl (ttf_process_token env) st).2.palette
      = paletteFrame st.2.palette := by
  induction toks generalizing st with
  | nil => rfl
  | cons t ts ih =>
    rw [List.foldl_cons, ih]
    exact process_token_frame env st t

theorem process_string_frame (dpi : rct_drawpixelinfo) (text : List Nat)
    (info : text_draw_info) :
    paletteFrame (ttf_process_string env dpi text info).2.palette
      = paletteFrame info.palette := by
  unfold ttf_process_string
  split_ifs
  · show paletteFrame (ttf_process_string_literal env dpi text info).2.palette
      = paletteFrame info.palette
    rw [literal_palette]
  · exact process_fold_frame env _ (dpi, info)

theorem initial_colour_frame (k : ColourConstants) (colour : Nat) (info : text_draw_info) :
    paletteFrame (ttf_process_initial_colour env k colour info).palette
      = paletteFrame info.palette := by
  unfold ttf_process_initial_colour
  dsimp only
  repeat' split
  all_goals first
    | rfl
    | exact colour_char_window_frame env _ _ _
    | exact setPalette_frame _ _

theorem TtfDrawStringState_frame (k : ColourConstants) (ctx : DrawContext) (text : List Nat)
    (colour : Nat) (coords : Int × Int) (noFormatting : Bool) (fontStyle : FontStyle)
    (darkness : TextDarkness) (uninit : text_draw_info) :
    paletteFrame (TtfDrawStringState env k ctx text colour coords noFormatting fontStyle
        darkness uninit).2.palette
      = paletteFrame (copyPalette uninit.palette ctx.gTextPalette) := by
  unfold TtfDrawStringState TtfDrawStringInfo
  rw [process_string_frame]
  dsimp only
  rw [initial_colour_frame]

theorem GfxDrawStringWithYOffsetsState_frame (k : ColourConstants) (ctx : DrawContext)
    (text : List Nat) (colour : Nat) (coords : Int × Int) (yOffsets : List Int)
    (forceSpriteFont : Bool) (fontStyle : FontStyle) (uninit : text_draw_info) :
    paletteFrame (GfxDrawStringWithYOffsetsState env k ctx text colour coords yOffsets
        forceSpriteFont fontStyle uninit).2.palette
      = paletteFrame (copyPalette uninit.palette ctx.gTextPalette) := by
  unfold GfxDrawStringWithYOffsetsState GfxDrawStringWithYOffsetsInfo
  rw [process_string_frame]
  dsimp only
  rw [initial_colour_frame]

/-- Writing back a palette whose frame is that of the palette loaded from the global
one: every byte of the global palette is replaced, and entries 0, 5, 6 and 7 get the
value they had. -/
theorem write_back (g u P : List Nat) (hlen : g.length = 8)
    (hf : paletteFrame P = paletteFrame (copyPalette u g)) :
    copyPalette g P = P.take 8 ∧ (copyPalette g P).length = 8 ∧
      (copyPalette g P).getD 0 0 = g.getD 0 0 ∧ (copyPalette g P).getD 5 0 = g.getD 5 0 ∧
      (copyPalette g P).getD 6 0 = g.getD 6 0 ∧ (copyPalette g P).getD 7 0 = g.getD 7 0 := by
  have hg : ∃ g0 g1 g2 g3 g4 g5 g6 g7, g = [g0, g1, g2, g3, g4, g5, g6, g7] := by
    rcases g with _ | ⟨g0, _ | ⟨g1, _ | ⟨g2, _ | ⟨g3, _ | ⟨g4, _ | ⟨g5, _ | ⟨g6, _ |
      ⟨g7, _ | ⟨g8, t⟩⟩⟩⟩⟩⟩⟩⟩⟩
    all_goals first
      | exact ⟨_, _, _, _, _, _, _, _, rfl⟩
      | (simp only [List.length_cons, List.length_nil] at hlen; omega)
  obtain ⟨g0, g1, g2, g3, g4, g5, g6, g7, rfl⟩ := hg
  rcases P with _ | ⟨p0, _ | ⟨p1, _ | ⟨p2, _ | ⟨p3, _ | ⟨p4, t⟩⟩⟩⟩⟩
  all_goals simp [paletteFrame, copyPalette] at hf
  obtain ⟨h0, ht, _⟩ := hf
  subst h0
  subst ht
  simp [copyPalette]

end PaletteFrame


/-! ## The claims about object entries, cursor tokens, colours and the text palette -/

/-- C22: flags layout.  For every flags value `GetType()` is bits 0-3 and
`GetSourceGame()` is bits 4-7, so `flags mod 256 = 16 * GetSourceGame() + GetType()`,
and the upper 24 bits affect neither accessor: cutting `flags` to its low byte changes
neither result. -/
theorem flags_layout (e : RCTObjectEntry) :
    e.GetType.value = e.flags % 16 ∧ e.GetSourceGame = e.flags / 16 % 16 ∧
      e.flags % 256 = 16 * e.GetSourceGame + e.GetType.value ∧
      RCTObjectEntry.GetType ⟨e.flags % 256, e.name, e.checksum⟩ = e.GetType ∧
      RCTObjectEntry.GetSourceGame ⟨e.flags % 256, e.name, e.checksum⟩ = e.GetSourceGame := by
  have h1 := GetType_mod e
  have h2 := GetSourceGame_div e
  have h3 := GetType_mod ⟨e.flags % 256, e.name, e.checksum⟩
  have h4 := GetSourceGame_div ⟨e.flags % 256, e.name, e.checksum⟩
  simp only at h3 h4
  refine ⟨h1, h2, by omega, ?_, by omega⟩
  cases hg : e.GetType with
  | mk v =>
    cases hg2 : RCTObjectEntry.GetType ⟨e.flags % 256, e.name, e.checksum⟩ with
    | mk w =>
      rw [hg] at h1
      rw [hg2] at h3
      simp only at h1 h3
      have hvw : w = v := by omega
      rw [hvw]


/-- C23: for every text that tokenises to a single literal run (no cell of it is a
control code), `GfxGetStringWidthNoFormatting` and `GfxGetStringWidth` return the same
width. -/
theorem NoFormatting_literal (env : Env) (text : List Nat) (fs : FontStyle)
    (h : ∀ c ∈ text, controlCode env c = none) :
    GfxGetStringWidthNoFormatting env text fs = GfxGetStringWidth env text fs := by
  by_cases hne : text = []
  · rw [hne, NoFormatting_eq, GfxGetStringWidth_nil, literalAdvance_nil]
    rfl
  · rw [NoFormatting_eq, GfxGetStringWidth_literal env text fs h hne]

/-- Witness for `NoFormatting_literal`: the text `Hello` in `demoEnv`, 25 pixels wide
either way. -/
theorem NoFormatting_literal_witness :
    GfxGetStringWidth demoEnv [72, 101, 108, 108, 111] FontStyle.Medium = 25 ∧
      GfxGetStringWidthNoFormatting demoEnv [72, 101, 108, 108, 111] FontStyle.Medium
        = GfxGetStringWidth demoEnv [72, 101, 108, 108, 111] FontStyle.Medium :=
  ⟨by decide, NoFormatting_literal demoEnv [72, 101, 108, 108, 111] FontStyle.Medium
    (by decide)⟩


/-- C24, as stated, fails: six glyphs `a` of 5 pixels at budget 22 make a line without
a space that overflows at the fifth glyph; the fallback break is inserted after the
fourth character of the line, not after the first. -/
theorem GfxWrapString_fallback_counterexample :
    (GfxWrapString demoEnv [97, 97, 97, 97, 97, 97] 22 FontStyle.Medium).text
        = [97, 97, 97, 97, 0, 97, 97] ∧
      (GfxWrapString demoEnv [97, 97, 97, 97, 97, 97] 22 FontStyle.Medium).text
        ≠ [97, 0, 97, 97, 97, 97, 97] := by
  decide

/-- C24, amended: the fallback break goes right after the last literal codepoint
accepted on the line.  In a text `A d F c`, where `d` and `c` are literal codepoints and
`F` holds only format tokens other than `Newline`: when the line in progress contains no
space after `d` (`splitIndex` is unset) and appending `c` makes `GfxWrapString` break, the
break marker is inserted right behind `d`; everything up to `d` stays as it was, and the
new line consists of the format tokens `F` and `c`, leading spaces trimmed. -/
theorem GfxWrapString_fallback_break (env : Env) (W : Int) (fs : FontStyle)
    (A : List Nat) (d : Nat) (F : List Nat) (c : Nat)
    (hnz : ∀ x ∈ A ++ d :: F ++ [c], x ≠ 0)
    (hd : controlCode env d = none) (hc : controlCode env c = none)
    (hF : ∀ f ∈ F, (controlCode env f).isSome = true ∧
      (cellToken env f).kind ≠ FormatToken.Newline)
    (hline : (wrapLoop env (A ++ [d]) W fs).splitIndex = none)
    (hbreak : (GfxWrapString env (A ++ d :: F ++ [c]) W fs).outNumLines
      = (GfxWrapString env (A ++ d :: F) W fs).outNumLines + 1) :
    (GfxWrapString env (A ++ d :: F ++ [c]) W fs).text
      = (GfxWrapString env (A ++ [d]) W fs).text
          ++ 0 :: (F ++ [c]).dropWhile (fun x => x == 32) := by
  have e1 : A ++ d :: F ++ [c] = (A ++ [d]) ++ (F ++ [c]) := by simp
  have e2 : A ++ d :: F = (A ++ [d]) ++ F := by simp
  have e3 : (A ++ [d]) ++ (F ++ [c]) = ((A ++ [d]) ++ F) ++ [c] := by simp
  rw [e1] at hnz
  have hd0 : d ≠ 0 := hnz d (by simp)
  have hc0 : c ≠ 0 := hnz c (by simp)
  have hAd : ∀ x ∈ A ++ [d], x ≠ 0 := fun x hx => hnz x (List.mem_append_left _ hx)
  have hAdF : ∀ x ∈ (A ++ [d]) ++ F, x ≠ 0 := by
    intro x hx
    apply hnz x
    rcases List.mem_append.mp hx with h1 | h1
    · exact List.mem_append_left _ h1
    · exact List.mem_append_right _ (List.mem_append_left _ h1)
  -- the state after `d`
  have h2 : wrapLoop env (A ++ [d]) W fs
      = wrapCodepoint env W fs (wrapLoop env A W fs) d := by
    rw [wrapLoop_append env W fs A [d] hAd]
    simp only [List.map_cons, List.map_nil, List.foldl_cons, List.foldl_nil]
    exact wrapToken_literal_cell env W fs _ d hd
  -- the state after the format tokens
  have h3 : wrapLoop env ((A ++ [d]) ++ F) W fs
      = { wrapLoop env (A ++ [d]) W fs with
          buffer := (wrapLoop env (A ++ [d]) W fs).buffer ++ F } := by
    rw [wrapLoop_append env W fs (A ++ [d]) F hAdF]
    exact wrapTokens_format_cells env W fs F _ hF
  -- the state after `c`
  have h4 : wrapLoop env (((A ++ [d]) ++ F) ++ [c]) W fs
      = wrapCodepoint env W fs (wrapLoop env ((A ++ [d]) ++ F) W fs) c := by
    rw [wrapLoop_append env W fs ((A ++ [d]) ++ F) [c] (by rw [← e3]; exact hnz)]
    simp only [List.map_cons, List.map_nil, List.foldl_cons, List.foldl_nil]
    exact wrapToken_literal_cell env W fs _ c hc
  have hn : (wrapLoop env (((A ++ [d]) ++ F) ++ [c]) W fs).numLines
      = (wrapLoop env ((A ++ [d]) ++ F) W fs).numLines + 1 := by
    rw [e1, e3, e2] at hbreak
    exact hbreak
  show (wrapLoop env (A ++ d :: F ++ [c]) W fs).buffer
    = (wrapLoop env (A ++ [d]) W fs).buffer ++ 0 :: (F ++ [c]).dropWhile (fun x => x == 32)
  rw [e1, e3]
  rw [h4] at hn ⊢
  have hbest := wrapCodepoint_best env W fs (wrapLoop env A W fs) d hd0 (by rw [← h2]; exact hline)
  rw [← h2] at hbest
  have hs3 : (wrapLoop env ((A ++ [d]) ++ F) W fs).splitIndex = none := by
    rw [h3]; exact hline
  rcases hbest with ⟨hb, _⟩ | hb
  · have hb3 : (wrapLoop env ((A ++ [d]) ++ F) W fs).bestSplitIndex = none := by
      rw [h3]; exact hb
    have := wrapCodepoint_unset env W fs _ c hc0 hs3 hb3
    omega
  · have hb3 : (wrapLoop env ((A ++ [d]) ++ F) W fs).bestSplitIndex
        = some (wrapLoop env (A ++ [d]) W fs).buffer.length := by
      rw [h3]; exact hb
    exact wrapCodepoint_break_at env W fs _ _ F c hc0 (by rw [h3]) hs3 hb3 hn

/-- Witness for `GfxWrapString_fallback_break`: `aaaa`, a colour token and a fifth `a`
at budget 22 in `paintEnv` (cell 4 is a colour token): the break goes behind the fourth
`a`, before the colour token. -/
theorem GfxWrapString_fallback_break_witness :
    (GfxWrapString paintEnv ([97, 97, 97] ++ 97 :: [4] ++ [97]) 22 FontStyle.Medium).text
        = [97, 97, 97, 97, 0, 4, 97] ∧
      (GfxWrapString paintEnv ([97, 97, 97] ++ 97 :: [4] ++ [97]) 22 FontStyle.Medium).text
        = (GfxWrapString paintEnv ([97, 97, 97] ++ [97]) 22 FontStyle.Medium).text
            ++ 0 :: ([4] ++ [97]).dropWhile (fun x => x == 32) :=
  ⟨by decide,
    GfxWrapString_fallback_break paintEnv 22 FontStyle.Medium [97, 97, 97] 97 [4] 97
      (by decide) (by decide) (by decide) (by decide) (by decide) (by decide)⟩

/-- C25, evaluated on `aaaa  b` (two spaces) at budget 22 with 5 pixel glyphs: `aaaa`
measures 20 and `aaaa ` 25, so the first space triggers the break and is trimmed, but
the second space is appended to the new line afterwards: the line that follows the
width-triggered break begins with a space in the buffer written back. -/
theorem GfxWrapString_leading_space :
    GfxGetStringWidth demoEnv [97, 97, 97, 97] FontStyle.Medium = 20 ∧
      GfxGetStringWidth demoEnv [97, 97, 97, 97, 32] FontStyle.Medium = 25 ∧
      (GfxWrapString demoEnv [97, 97, 97, 97, 32, 32, 98] 22 FontStyle.Medium).text
        = [97, 97, 97, 97, 0, 32, 98] ∧
      (GfxWrapString demoEnv [97, 97, 97, 97, 32, 32, 98] 22 FontStyle.Medium).outNumLines
        = 1 ∧
      wrappedLines
          (GfxWrapString demoEnv [97, 97, 97, 97, 32, 32, 98] 22 FontStyle.Medium).text
        = [[97, 97, 97, 97], [32, 98]] := by
  decide


/-- C27: initial colour flags.  For every packed colour other than `TEXT_COLOUR_254`
and `TEXT_COLOUR_255` and every prior draw state, after `ttf_process_initial_colour`
the OUTLINE draw flag is set exactly when the colour carries `COLOUR_FLAG_OUTLINE` and
the INSET draw flag exactly when it carries `COLOUR_FLAG_INSET`, whatever the two
flags were before; the other draw flags are as before.  The two colour flags are
taken to be separate bits of a 32-bit value. -/
theorem initial_colour_flags (env : Env) (k : ColourConstants) (colour : Nat)
    (info : text_draw_info)
    (h254 : colour ≠ k.TEXT_COLOUR_254) (h255 : colour ≠ k.TEXT_COLOUR_255)
    (hdisj : k.COLOUR_FLAG_INSET &&& k.COLOUR_FLAG_OUTLINE = 0)
    (h32 : k.COLOUR_FLAG_INSET < 4294967296) :
    hasFlag (ttf_process_initial_colour env k colour info).flags TEXT_DRAW_FLAG_OUTLINE
        = hasFlag colour k.COLOUR_FLAG_OUTLINE ∧
      hasFlag (ttf_process_initial_colour env k colour info).flags TEXT_DRAW_FLAG_INSET
        = hasFlag colour k.COLOUR_FLAG_INSET ∧
      clearFlag (ttf_process_initial_colour env k colour info).flags
          (TEXT_DRAW_FLAG_INSET ||| TEXT_DRAW_FLAG_OUTLINE)
        = clearFlag info.flags (TEXT_DRAW_FLAG_INSET ||| TEXT_DRAW_FLAG_OUTLINE) := by
  have hin : hasFlag (clearFlag colour k.COLOUR_FLAG_OUTLINE) k.COLOUR_FLAG_INSET
      = hasFlag colour k.COLOUR_FLAG_INSET :=
    hasFlag_clear_disjoint _ _ _ hdisj (mask32_of_lt _ h32)
  rw [initial_colour_flags_eq env k colour info h254 h255, hin]
  have c1 : ∀ f, hasFlag (clearFlag f (TEXT_DRAW_FLAG_INSET ||| TEXT_DRAW_FLAG_OUTLINE))
      TEXT_DRAW_FLAG_OUTLINE = false :=
    fun f => hasFlag_clear_within f _ _ (by decide) (by decide)
  have c2 : ∀ f, hasFlag (clearFlag f (TEXT_DRAW_FLAG_INSET ||| TEXT_DRAW_FLAG_OUTLINE))
      TEXT_DRAW_FLAG_INSET = false :=
    fun f => hasFlag_clear_within f _ _ (by decide) (by decide)
  have c3 : ∀ x, hasFlag (x ||| TEXT_DRAW_FLAG_INSET) TEXT_DRAW_FLAG_OUTLINE
      = hasFlag x TEXT_DRAW_FLAG_OUTLINE :=
    fun x => hasFlag_or_disjoint x _ _ (by decide)
  have c4 : ∀ x, hasFlag (x ||| TEXT_DRAW_FLAG_OUTLINE) TEXT_DRAW_FLAG_INSET
      = hasFlag x TEXT_DRAW_FLAG_INSET :=
    fun x => hasFlag_or_disjoint x _ _ (by decide)
  have c5 : ∀ x, hasFlag (x ||| TEXT_DRAW_FLAG_OUTLINE) TEXT_DRAW_FLAG_OUTLINE = true :=
    fun x => hasFlag_or_self x _ (by decide)
  have c6 : ∀ x, hasFlag (x ||| TEXT_DRAW_FLAG_INSET) TEXT_DRAW_FLAG_INSET = true :=
    fun x => hasFlag_or_self x _ (by decide)
  have c7 : ∀ x, clearFlag (x ||| TEXT_DRAW_FLAG_OUTLINE)
      (TEXT_DRAW_FLAG_INSET ||| TEXT_DRAW_FLAG_OUTLINE)
      = clearFlag x (TEXT_DRAW_FLAG_INSET ||| TEXT_DRAW_FLAG_OUTLINE) :=
    fun x => clearFlag_or_within x _ _ (by decide) (by decide)
  have c8 : ∀ x, clearFlag (x ||| TEXT_DRAW_FLAG_INSET)
      (TEXT_DRAW_FLAG_INSET ||| TEXT_DRAW_FLAG_OUTLINE)
      = clearFlag x (TEXT_DRAW_FLAG_INSET ||| TEXT_DRAW_FLAG_OUTLINE) :=
    fun x => clearFlag_or_within x _ _ (by decide) (by decide)
  cases ho : hasFlag colour k.COLOUR_FLAG_OUTLINE <;>
    cases hi : hasFlag colour k.COLOUR_FLAG_INSET <;>
    simp only [Bool.false_eq_true, if_true, if_false, c1, c2, c3, c4, c5, c6, c7, c8,
      clearFlag_idem, and_self]

/-- Witness for `initial_colour_flags`: colour 7 with the outline flag (bit 5) on a
draw state that had INSET and DARK set; afterwards OUTLINE and DARK are set. -/
theorem initial_colour_flags_witness :
    (ttf_process_initial_colour shadeEnv demoColours (32 + 7)
        (originInfo (TEXT_DRAW_FLAG_INSET ||| TEXT_DRAW_FLAG_DARK))).flags
        = TEXT_DRAW_FLAG_OUTLINE ||| TEXT_DRAW_FLAG_DARK ∧
      (hasFlag (ttf_process_initial_colour shadeEnv demoColours (32 + 7)
          (originInfo (TEXT_DRAW_FLAG_INSET ||| TEXT_DRAW_FLAG_DARK))).flags
          TEXT_DRAW_FLAG_OUTLINE
          = hasFlag (32 + 7) demoColours.COLOUR_FLAG_OUTLINE ∧
        hasFlag (ttf_process_initial_colour shadeEnv demoColours (32 + 7)
          (originInfo (TEXT_DRAW_FLAG_INSET ||| TEXT_DRAW_FLAG_DARK))).flags
          TEXT_DRAW_FLAG_INSET
          = hasFlag (32 + 7) demoColours.COLOUR_FLAG_INSET ∧
        clearFlag (ttf_process_initial_colour shadeEnv demoColours (32 + 7)
          (originInfo (TEXT_DRAW_FLAG_INSET ||| TEXT_DRAW_FLAG_DARK))).flags
          (TEXT_DRAW_FLAG_INSET ||| TEXT_DRAW_FLAG_OUTLINE)
          = clearFlag (originInfo (TEXT_DRAW_FLAG_INSET ||| TEXT_DRAW_FLAG_DARK)).flags
              (TEXT_DRAW_FLAG_INSET ||| TEXT_DRAW_FLAG_OUTLINE)) :=
  ⟨by decide,
    initial_colour_flags shadeEnv demoColours (32 + 7)
      (originInfo (TEXT_DRAW_FLAG_INSET ||| TEXT_DRAW_FLAG_DARK)) (by decide) (by decide)
      (by decide) (by decide)⟩

/-- C28: inset shading ramp.  For a colour carrying the inset flag (and neither of the
two pass-through values), with `c` the colour without its two flag bits and 8-bit
shades in `ColourMapA`, `ttf_process_initial_colour` sets `palette[2] = palette[4] = 0`
and `(palette[1], palette[3])` to `(mid_light, lighter)` of `ColourMapA[c]` when the
DARK flag is clear, `(mid_dark, light)` when DARK is set without EXTRA_DARK, and
`(dark, mid_light)` when both are set; EXTRA_DARK without DARK behaves as not dark. -/
theorem inset_ramp (env : Env) (k : ColourConstants) (colour : Nat) (info : text_draw_info)
    (h254 : colour ≠ k.TEXT_COLOUR_254) (h255 : colour ≠ k.TEXT_COLOUR_255)
    (hdisj : k.COLOUR_FLAG_INSET &&& k.COLOUR_FLAG_OUTLINE = 0)
    (h32 : k.COLOUR_FLAG_INSET < 4294967296)
    (hinset : hasFlag colour k.COLOUR_FLAG_INSET = true)
    (hlen : info.palette.length = 8)
    (hbyte : ∀ c, (env.ColourMapA c).dark < 256 ∧ (env.ColourMapA c).mid_dark < 256 ∧
      (env.ColourMapA c).mid_light < 256 ∧ (env.ColourMapA c).light < 256 ∧
      (env.ColourMapA c).lighter < 256) :
    (ttf_process_initial_colour env k colour info).palette.getD 2 0 = 0 ∧
      (ttf_process_initial_colour env k colour info).palette.getD 4 0 = 0 ∧
      ((ttf_process_initial_colour env k colour info).palette.getD 1 0,
        (ttf_process_initial_colour env k colour info).palette.getD 3 0)
        = if hasFlag info.flags TEXT_DRAW_FLAG_DARK then
            if hasFlag info.flags TEXT_DRAW_FLAG_EXTRA_DARK then
              ((env.ColourMapA (clearFlag (clearFlag colour k.COLOUR_FLAG_OUTLINE)
                  k.COLOUR_FLAG_INSET)).dark,
                (env.ColourMapA (clearFlag (clearFlag colour k.COLOUR_FLAG_OUTLINE)
                  k.COLOUR_FLAG_INSET)).mid_light)
            else
              ((env.ColourMapA (clearFlag (clearFlag colour k.COLOUR_FLAG_OUTLINE)
                  k.COLOUR_FLAG_INSET)).mid_dark,
                (env.ColourMapA (clearFlag (clearFlag colour k.COLOUR_FLAG_OUTLINE)
                  k.COLOUR_FLAG_INSET)).light)
          else
            ((env.ColourMapA (clearFlag (clearFlag colour k.COLOUR_FLAG_OUTLINE)
                k.COLOUR_FLAG_INSET)).mid_light,
              (env.ColourMapA (clearFlag (clearFlag colour k.COLOUR_FLAG_OUTLINE)
                k.COLOUR_FLAG_INSET)).lighter) := by
  have hin : hasFlag (clearFlag colour k.COLOUR_FLAG_OUTLINE) k.COLOUR_FLAG_INSET = true := by
    rw [hasFlag_clear_disjoint _ _ _ hdisj (mask32_of_lt _ h32)]
    exact hinset
  rw [initial_colour_inset_palette env k colour info h254 h255 hin]
  obtain ⟨b1, b2, b3, b4, b5⟩ :=
    hbyte (clearFlag (clearFlag colour k.COLOUR_FLAG_OUTLINE) k.COLOUR_FLAG_INSET)
  have hl : 5 ≤ info.palette.length := by omega
  cases hd : hasFlag info.flags TEXT_DRAW_FLAG_DARK <;>
    cases he : hasFlag info.flags TEXT_DRAW_FLAG_EXTRA_DARK <;>
    simp only [Bool.false_eq_true, if_true, if_false]
  · obtain ⟨e1, e2, e3, e4⟩ := setPalette_entries info.palette _ hl
    obtain ⟨r1, r2, r3, r4⟩ := ramp_bytes _ _ b5 b3
    rw [e1, e2, e3, e4, r1, r2, r3, r4]
    exact ⟨rfl, rfl, rfl⟩
  · obtain ⟨e1, e2, e3, e4⟩ := setPalette_entries info.palette _ hl
    obtain ⟨r1, r2, r3, r4⟩ := ramp_bytes _ _ b5 b3
    rw [e1, e2, e3, e4, r1, r2, r3, r4]
    exact ⟨rfl, rfl, rfl⟩
  · obtain ⟨e1, e2, e3, e4⟩ := setPalette_entries info.palette _ hl
    obtain ⟨r1, r2, r3, r4⟩ := ramp_bytes _ _ b4 b2
    rw [e1, e2, e3, e4, r1, r2, r3, r4]
    exact ⟨rfl, rfl, rfl⟩
  · obtain ⟨e1, e2, e3, e4⟩ := setPalette_entries info.palette _ hl
    obtain ⟨r1, r2, r3, r4⟩ := ramp_bytes _ _ b3 b1
    rw [e1, e2, e3, e4, r1, r2, r3, r4]
    exact ⟨rfl, rfl, rfl⟩

/-- Witness for `inset_ramp`: inset colour 7 on a dark draw state, with the shades of
row 7 being 8, 9, 10, 11, 12; the palette gets `mid_dark = 9` and `light = 11`. -/
theorem inset_ramp_witness :
    (ttf_process_initial_colour shadeEnv demoColours (64 + 7)
        (originInfo TEXT_DRAW_FLAG_DARK)).palette = [0, 9, 0, 11, 0, 0, 0, 0] ∧
      ((ttf_process_initial_colour shadeEnv demoColours (64 + 7)
          (originInfo TEXT_DRAW_FLAG_DARK)).palette.getD 2 0 = 0 ∧
        (ttf_process_initial_colour shadeEnv demoColours (64 + 7)
          (originInfo TEXT_DRAW_FLAG_DARK)).palette.getD 4 0 = 0 ∧
        ((ttf_process_initial_colour shadeEnv demoColours (64 + 7)
            (originInfo TEXT_DRAW_FLAG_DARK)).palette.getD 1 0,
          (ttf_process_initial_colour shadeEnv demoColours (64 + 7)
            (originInfo TEXT_DRAW_FLAG_DARK)).palette.getD 3 0)
          = if hasFlag (originInfo TEXT_DRAW_FLAG_DARK).flags TEXT_DRAW_FLAG_DARK then
              if hasFlag (originInfo TEXT_DRAW_FLAG_DARK).flags TEXT_DRAW_FLAG_EXTRA_DARK then
                ((shadeEnv.ColourMapA (clearFlag (clearFlag (64 + 7)
                    demoColours.COLOUR_FLAG_OUTLINE) demoColours.COLOUR_FLAG_INSET)).dark,
                  (shadeEnv.ColourMapA (clearFlag (clearFlag (64 + 7)
                    demoColours.COLOUR_FLAG_OUTLINE) demoColours.COLOUR_FLAG_INSET)).mid_light)
              else
                ((shadeEnv.ColourMapA (clearFlag (clearFlag (64 + 7)
                    demoColours.COLOUR_FLAG_OUTLINE) demoColours.COLOUR_FLAG_INSET)).mid_dark,
                  (shadeEnv.ColourMapA (clearFlag (clearFlag (64 + 7)
                    demoColours.COLOUR_FLAG_OUTLINE) demoColours.COLOUR_FLAG_INSET)).light)
            else
              ((shadeEnv.ColourMapA (clearFlag (clearFlag (64 + 7)
                  demoColours.COLOUR_FLAG_OUTLINE) demoColours.COLOUR_FLAG_INSET)).mid_light,
                (shadeEnv.ColourMapA (clearFlag (clearFlag (64 + 7)
                  demoColours.COLOUR_FLAG_OUTLINE) demoColours.COLOUR_FLAG_INSET)).lighter)) :=
  ⟨by decide,
    inset_ramp shadeEnv demoColours (64 + 7) (originInfo TEXT_DRAW_FLAG_DARK) (by decide)
      (by decide) (by decide) (by decide) (by decide) rfl (by
        intro c
        show c % 32 + 1 < 256 ∧ c % 32 + 2 < 256 ∧ c % 32 + 3 < 256 ∧ c % 32 + 4 < 256 ∧
          c % 32 + 5 < 256
        omega)⟩


/-- C29: `ttf_process_string_literal` partitions the literal exactly.  With the TTF
flag set it renders the pieces `literalPieces` one after the other, a sprite piece
through `ttf_draw_character_sprite` and an outline piece through
`ttf_draw_string_raw_ttf` as one substring; the pieces concatenated give back the
literal; every sprite piece is an allow-listed codepoint, every outline piece a
non-empty run without allow-listed codepoints, and no two outline pieces are
neighbours (each run is maximal).  With the TTF flag clear every codepoint goes
through the sprite path, in order. -/
theorem literal_partition (env : Env) (dpi : rct_drawpixelinfo) (text : List Nat)
    (info : text_draw_info) :
    ttf_process_string_literal env dpi text info
        = (if hasFlag info.flags TEXT_DRAW_FLAG_TTF then
            (literalPieces env text).foldl (renderPiece env) (dpi, info)
          else
            text.foldl (fun st c => ttf_draw_character_sprite env st.1 c st.2) (dpi, info)) ∧
      (literalPieces env text).flatMap LiteralPiece.cells = text ∧
      (∀ p ∈ literalPieces env text, p.wellFormed env) ∧
      runsMaximal (literalPieces env text) := by
  refine ⟨?_, pieces_cells env text, pieces_wellFormed env text, pieces_maximal env text⟩
  unfold ttf_process_string_literal
  dsimp only
  cases ht : hasFlag info.flags TEXT_DRAW_FLAG_TTF
  · rfl
  · simp only [Bool.not_true, Bool.false_eq_true, if_false, if_true]
    exact ttfRuns_pieces env (CodepointView text) none (dpi, info)


/-- C30: the global text palette is loaded into the draw state before the text is
processed and written back after it, and only entries 1-4 are ever stored to.  For
every text, colour and font style and an 8-byte global palette, after `TtfDrawString`
and after `GfxDrawStringWithYOffsets` the global palette is the palette of the draw
state at the end of processing (entries 1-4 among them), and its entries 0, 5, 6 and 7
are the same as before; a null text leaves everything as it was. -/
theorem gTextPalette_frame (env : Env) (k : ColourConstants) (ctx : DrawContext)
    (text : List Nat) (colour : Nat) (coords : Int × Int) (noFormatting : Bool)
    (fontStyle : FontStyle) (darkness : TextDarkness) (yOffsets : List Int)
    (forceSpriteFont : Bool) (uninit : text_draw_info)
    (hlen : ctx.gTextPalette.length = 8) :
    TtfDrawString env k ctx none colour coords noFormatting fontStyle darkness uninit = ctx ∧
      ((TtfDrawString env k ctx (some text) colour coords noFormatting fontStyle darkness
            uninit).gTextPalette
          = (TtfDrawStringState env k ctx text colour coords noFormatting fontStyle darkness
              uninit).2.palette.take 8 ∧
        (TtfDrawString env k ctx (some text) colour coords noFormatting fontStyle darkness
            uninit).gTextPalette.length = 8 ∧
        (TtfDrawString env k ctx (some text) colour coords noFormatting fontStyle darkness
            uninit).gTextPalette.getD 0 0 = ctx.gTextPalette.getD 0 0 ∧
        (TtfDrawString env k ctx (some text) colour coords noFormatting fontStyle darkness
            uninit).gTextPalette.getD 5 0 = ctx.gTextPalette.getD 5 0 ∧
        (TtfDrawString env k ctx (some text) colour coords noFormatting fontStyle darkness
            uninit).gTextPalette.getD 6 0 = ctx.gTextPalette.getD 6 0 ∧
        (TtfDrawString env k ctx (some text) colour coords noFormatting fontStyle darkness
            uninit).gTextPalette.getD 7 0 = ctx.gTextPalette.getD 7 0) ∧
      ((GfxDrawStringWithYOffsets env k ctx text colour coords yOffsets forceSpriteFont
            fontStyle uninit).gTextPalette
          = (GfxDrawStringWithYOffsetsState env k ctx text colour coords yOffsets
              forceSpriteFont fontStyle uninit).2.palette.take 8 ∧
        (GfxDrawStringWithYOffsets env k ctx text colour coords yOffsets forceSpriteFont
            fontStyle uninit).gTextPalette.length = 8 ∧
        (GfxDrawStringWithYOffsets env k ctx text colour coords yOffsets forceSpriteFont
            fontStyle uninit).gTextPalette.getD 0 0 = ctx.gTextPalette.getD 0 0 ∧
        (GfxDrawStringWithYOffsets env k ctx text colour coords yOffsets forceSpriteFont
            fontStyle uninit).gTextPalette.getD 5 0 = ctx.gTextPalette.getD 5 0 ∧
        (GfxDrawStringWithYOffsets env k ctx text colour coords yOffsets forceSpriteFont
            fontStyle uninit).gTextPalette.getD 6 0 = ctx.gTextPalette.getD 6 0 ∧
        (GfxDrawStringWithYOffsets env k ctx text colour coords yOffsets forceSpriteFont
            fontStyle uninit).gTextPalette.getD 7 0 = ctx.gTextPalette.getD 7 0) :=
  ⟨rfl,
    write_back ctx.gTextPalette uninit.palette _ hlen
      (TtfDrawStringState_frame env k ctx text colour coords noFormatting fontStyle darkness
        uninit),
    write_back ctx.gTextPalette uninit.palette _ hlen
      (GfxDrawStringWithYOffsetsState_frame env k ctx text colour coords yOffsets
        forceSpriteFont fontStyle uninit)⟩

/-- Witness for `gTextPalette_frame`: the text `ab` drawn in colour 7 with the global
palette holding 9 in every entry; entries 1-4 are rewritten, the others keep 9. -/
theorem gTextPalette_frame_witness :
    (TtfDrawString shadeEnv demoColours
        ⟨⟨0, 0, 100, 100, 0, []⟩, (0, 0), [9, 9, 9, 9, 9, 9, 9, 9]⟩ (some [97, 98]) 7 (3, 4)
        false FontStyle.Medium TextDarkness.Regular (originInfo 0)).gTextPalette
        = [9, 13, 0, 0, 0, 9, 9, 9] ∧
      (TtfDrawString shadeEnv demoColours
          ⟨⟨0, 0, 100, 100, 0, []⟩, (0, 0), [9, 9, 9, 9, 9, 9, 9, 9]⟩ (some [97, 98]) 7 (3, 4)
          false FontStyle.Medium TextDarkness.Regular (originInfo 0)).gTextPalette.getD 5 0
        = ([9, 9, 9, 9, 9, 9, 9, 9] : List Nat).getD 5 0 :=
  ⟨by decide,
    (gTextPalette_frame shadeEnv demoColours
      ⟨⟨0, 0, 100, 100, 0, []⟩, (0, 0), [9, 9, 9, 9, 9, 9, 9, 9]⟩ [97, 98] 7 (3, 4) false
      FontStyle.Medium TextDarkness.Regular [] false (originInfo 0) rfl).2.1.2.2.2.1⟩


/-! ### The text after the last newline token -/

section AfterNewline

variable (env : Env)

theorem FmtString_append_control (Q : List Nat) (n : Nat) (S : List Nat) (k : FormatToken)
    (p : Int) (h : controlCode env n = some (k, p)) :
    FmtString env (Q ++ n :: S) = FmtString env Q ++ ⟨k, [n], p⟩ :: FmtString env S := by
  induction Q with
  | nil =>
    rw [List.nil_append, FmtString_cons_control env n S k p h]
    rfl
  | cons c Q ih =>
    cases hc : controlCode env c with
    | some kp =>
      obtain ⟨k2, p2⟩ := kp
      rw [List.cons_append, FmtString_cons_control env c _ k2 p2 hc,
        FmtString_cons_control env c Q k2 p2 hc, ih]
      rfl
    | none =>
      have hk : k ≠ FormatToken.Literal := by
        intro hk
        rw [hk] at h
        exact controlCode_ne_literal env n p h
      rw [List.cons_append, FmtString, hc, ih]
      conv_rhs => rw [FmtString, hc]
      dsimp only
      cases hQ : FmtString env Q with
      | nil =>
        simp only [List.nil_append]
        split
        · rename_i heq
          simp only [List.cons.injEq, token.mk.injEq] at heq
          exact absurd heq.1.1 hk
        · rfl
      | cons tok ts =>
        obtain ⟨kind, t, q⟩ := tok
        by_cases hl : kind = FormatToken.Literal
        · subst hl
          rfl
        · simp only [List.cons_append]
          split
          · rename_i heq
            simp only [List.cons.injEq, token.mk.injEq] at heq
            exact absurd heq.1.1 hl
          · split
            · rename_i heq
              simp only [List.cons.injEq, token.mk.injEq] at heq
              exact absurd heq.1.1 hl
            · rfl

theorem newLined_rest (fs : FontStyle) (toks : List token)
    (h : ∀ tok ∈ toks, isNewlineToken tok = false) :
    ∀ s : NewLinedState,
      (toks.foldl (newLinedToken env fs) s).maxWidth = s.maxWidth := by
  induction toks with
  | nil => exact fun s => rfl
  | cons tok rest ih =>
    intro s
    have ht := h tok (List.mem_cons_self _ _)
    have hk : ¬ (tok.kind = FormatToken.Newline ∨ tok.kind = FormatToken.NewlineSmall) := by
      simpa [isNewlineToken] using ht
    rw [List.foldl_cons, ih (fun t hm => h t (List.mem_cons_of_mem _ hm))]
    unfold newLinedToken
    rw [if_neg hk]

/-- The result for a text cut right after a newline token is the result for that text
followed by anything that holds no newline token. -/
theorem newLined_cut (fs : FontStyle) (Q : List Nat) (n : Nat) (S : List Nat)
    (k : FormatToken) (p : Int) (h : controlCode env n = some (k, p))
    (hk : k = FormatToken.Newline ∨ k = FormatToken.NewlineSmall)
    (hS : ∀ tok ∈ FmtString env S, isNewlineToken tok = false) :
    GfxGetStringWidthNewLined env (Q ++ n :: S) fs
      = GfxGetStringWidthNewLined env (Q ++ [n]) fs := by
  have hnil : ∀ tok ∈ FmtString env [], isNewlineToken tok = false := by
    intro tok ht
    simp [FmtString] at ht
  have key : ∀ R : List Nat, (∀ tok ∈ FmtString env R, isNewlineToken tok = false) →
      ((FmtString env (Q ++ n :: R)).foldl (newLinedToken env fs) ⟨[], none⟩).maxWidth
        = (newLinedToken env fs
            ((FmtString env Q).foldl (newLinedToken env fs) ⟨[], none⟩) ⟨k, [n], p⟩).maxWidth := by
    intro R hR
    rw [FmtString_append_control env Q n R k p h, List.foldl_append, List.foldl_cons,
      newLined_rest env fs _ hR]
  have hsome : ∃ m, (newLinedToken env fs
      ((FmtString env Q).foldl (newLinedToken env fs) ⟨[], none⟩) ⟨k, [n], p⟩).maxWidth
        = some m := by
    unfold newLinedToken
    rw [if_pos hk]
    dsimp only
    split
    · exact ⟨_, rfl⟩
    · split
      · exact ⟨_, rfl⟩
      · exact ⟨_, rfl⟩
  obtain ⟨m, hm⟩ := hsome
  have h1 := key S hS
  have h2 := key [] hnil
  rw [hm] at h1 h2
  unfold GfxGetStringWidthNewLined
  dsimp only
  rw [h1, h2]

end AfterNewline

/-! ### The bounding box holds the cursor -/

section BoundingBox

variable (env : Env)

theorem process_token_x_le (st : rct_drawpixelinfo × text_draw_info) (tok : token) :
    (ttf_process_token env st tok).2.x ≤ (ttf_process_token env st tok).2.maxX ∧
      (ttf_process_token env st tok).2.y ≤ (ttf_process_token env st tok).2.maxY := by
  unfold ttf_process_token updateMax
  exact ⟨le_max_right _ _, le_max_right _ _⟩

end BoundingBox

/-! ### The height of a text -/

section Heights

theorem heightToken_fold (toks : List token) :
    ∀ s : HeightState,
      (toks.foldl heightToken s).height = s.height + tokenHeights s.fontStyle toks := by
  induction toks with
  | nil =>
    intro s
    simp [tokenHeights]
  | cons tok rest ih =>
    intro s
    obtain ⟨height, fs⟩ := s
    obtain ⟨kind, text, p⟩ := tok
    rw [List.foldl_cons, ih]
    cases kind <;> cases fs <;>
      simp [heightToken, tokenHeights, lineHeightOf, smallLineHeightOf] <;> omega

theorem tokenHeights_none (fs : FontStyle) (toks : List token)
    (h : ∀ tok ∈ toks, isNewlineToken tok = false) : tokenHeights fs toks = 0 := by
  induction toks generalizing fs with
  | nil => rfl
  | cons tok rest ih =>
    have ht := h tok (List.mem_cons_self _ _)
    have hr : ∀ t ∈ rest, isNewlineToken t = false :=
      fun t hm => h t (List.mem_cons_of_mem _ hm)
    obtain ⟨kind, text, p⟩ := tok
    cases kind <;> simp [isNewlineToken] at ht <;> simp [tokenHeights, ih _ hr]

end Heights

/-! ### What SetType leaves alone -/

section SetTypeFrame

theorem SetType_upper (e : RCTObjectEntry) (t : ObjectType) :
    (e.SetType t).flags / 16 % 268435456 = e.flags / 16 % 268435456 := by
  unfold RCTObjectEntry.SetType
  dsimp only
  apply Nat.eq_of_testBit_eq
  intro i
  have h28 : (268435456 : Nat) = 2 ^ 28 := by decide
  have h16 : (16 : Nat) = 2 ^ 4 := by decide
  have h15 : (15 : Nat) = 2 ^ 4 - 1 := by decide
  have hmask : ∀ j, j < 28 → Nat.testBit 4294967280 (4 + j) = true := by
    intro j hj
    interval_cases j <;> decide
  rw [h28, Nat.testBit_mod_two_pow, Nat.testBit_mod_two_pow, h16,
    ← Nat.shiftRight_eq_div_pow, ← Nat.shiftRight_eq_div_pow]
  simp only [Nat.testBit_shiftRight, Nat.testBit_or, Nat.testBit_and, h15,
    Nat.testBit_two_pow_sub_one]
  by_cases hi : i < 28
  · have h4 : ¬ (4 + i < 4) := by omega
    simp [hi, hmask i hi, h4]
  · simp [hi]

end SetTypeFrame

/-! ### Texts without colour tokens keep the palette -/

section KeepPalette

variable (env : Env)

theorem format_code_palette (dpi : rct_drawpixelinfo) (tok : token) (info : text_draw_info)
    (h : isColourToken tok = false) :
    (ttf_process_format_code env dpi tok info).2.palette = info.palette := by
  obtain ⟨kind, text, p⟩ := tok
  cases kind <;> simp [isColourToken] at h
  all_goals first
    | rfl
    | skip
  simp only [ttf_process_format_code]
  split
  · split_ifs <;> rfl
  · rfl

theorem process_token_palette (st : rct_drawpixelinfo × text_draw_info) (tok : token)
    (h : isColourToken tok = false) :
    (ttf_process_token env st tok).2.palette = st.2.palette := by
  unfold ttf_process_token updateMax
  dsimp only
  split_ifs
  · rw [literal_palette]
  · unfold ttf_process_string_codepoint
    rw [literal_palette]
  · rw [format_code_palette env _ _ _ h]

theorem process_fold_palette (toks : List token)
    (h : ∀ tok ∈ toks, isColourToken tok = false) :
    ∀ st : rct_drawpixelinfo × text_draw_info,
      (toks.foldl (ttf_process_token env) st).2.palette = st.2.palette := by
  induction toks with
  | nil => exact fun st => rfl
  | cons t ts ih =>
    intro st
    rw [List.foldl_cons, ih (fun tok hm => h tok (List.mem_cons_of_mem _ hm)),
      process_token_palette env st t (h t (List.mem_cons_self _ _))]

theorem process_string_palette (dpi : rct_drawpixelinfo) (text : List Nat)
    (info : text_draw_info) (h : ∀ tok ∈ FmtString env text, isColourToken tok = false) :
    (ttf_process_string env dpi text info).2.palette = info.palette := by
  unfold ttf_process_string
  split_ifs
  · show (ttf_process_string_literal env dpi text info).2.palette = info.palette
    rw [literal_palette]
  · exact process_fold_palette env _ h (dpi, info)

theorem initial_colour_keep (k : ColourConstants) (colour : Nat) (info : text_draw_info)
    (hc : colour = k.TEXT_COLOUR_254 ∨ colour = k.TEXT_COLOUR_255) :
    ttf_process_initial_colour env k colour info = info := by
  unfold ttf_process_initial_colour
  have hn : ¬ (colour ≠ k.TEXT_COLOUR_254 ∧ colour ≠ k.TEXT_COLOUR_255) := by
    rintro ⟨h1, h2⟩
    rcases hc with h | h
    · exact h1 h
    · exact h2 h
  rw [if_neg hn]

theorem copyPalette_back (g u : List Nat) (h : g.length = 8) :
    copyPalette g (copyPalette u g) = g := by
  unfold copyPalette
  have h1 : g.take 8 = g := List.take_of_length_le (by omega)
  have h2 : g.drop 8 = [] := List.drop_of_length_le (by omega)
  rw [h1, h2, List.append_nil]
  have h3 : (g ++ u.drop 8).take 8 = g := by
    rw [List.take_append_eq_append_take]
    simp [h, h1]
  exact h3

end KeepPalette


/-! ### The separator loop of ShortenPath -/

section Shorten

variable (env : Env)

theorem separatorSuffixes_none (sep : Nat) (l : List Nat)
    (h : l.countP (isSeparator sep) = 0) : separatorSuffixes sep l = [] := by
  induction l with
  | nil => rfl
  | cons a t ih =>
    by_cases ha : isSeparator sep a = true
    · rw [List.countP_cons_of_pos _ _ ha] at h
      omega
    · rw [List.countP_cons_of_neg _ _ ha] at h
      rw [separatorSuffixes, if_neg ha]
      exact ih h

theorem separator_split (sep : Nat) (l : List Nat) (h : 0 < l.countP (isSeparator sep)) :
    ∃ pre c post, l = pre ++ c :: post ∧ (∀ a ∈ pre, isSeparator sep a = false) ∧
      isSeparator sep c = true := by
  induction l with
  | nil => simp at h
  | cons a t ih =>
    by_cases ha : isSeparator sep a = true
    · exact ⟨[], a, t, rfl, fun _ hm => by simp at hm, ha⟩
    · rw [List.countP_cons_of_neg _ _ ha] at h
      obtain ⟨pre, c, post, h1, h2, h3⟩ := ih h
      refine ⟨a :: pre, c, post, by rw [h1]; rfl, ?_, h3⟩
      intro b hb
      rcases List.mem_cons.mp hb with hb | hb
      · rw [hb]
        simpa using ha
      · exact h2 b hb

theorem separatorSuffixes_split (sep : Nat) (pre : List Nat) (c : Nat) (post : List Nat)
    (hpre : ∀ a ∈ pre, isSeparator sep a = false) (hc : isSeparator sep c = true) :
    separatorSuffixes sep (pre ++ c :: post) = (c :: post) :: separatorSuffixes sep post := by
  induction pre with
  | nil =>
    rw [List.nil_append, separatorSuffixes, if_pos hc]
  | cons a t ih =>
    have ha := hpre a (List.mem_cons_self _ _)
    rw [List.cons_append, separatorSuffixes, if_neg (by simp [ha])]
    exact ih (fun b hb => hpre b (List.mem_cons_of_mem _ hb))

theorem countP_split (sep : Nat) (pre : List Nat) (c : Nat) (post : List Nat)
    (hpre : ∀ a ∈ pre, isSeparator sep a = false) (hc : isSeparator sep c = true) :
    (pre ++ c :: post).countP (isSeparator sep) = post.countP (isSeparator sep) + 1 := by
  induction pre with
  | nil =>
    rw [List.nil_append, List.countP_cons_of_pos _ _ hc]
  | cons a t ih =>
    have ha := hpre a (List.mem_cons_self _ _)
    rw [List.cons_append, List.countP_cons_of_neg _ _ (by simp [ha])]
    exact ih (fun b hb => hpre b (List.mem_cons_of_mem _ hb))

theorem getD_of_drop (path : List Nat) (k a : Nat) (rest : List Nat)
    (h : path.drop k = a :: rest) : path.getD k 0 = a := by
  have h1 := List.head?_drop path k
  rw [h] at h1
  rw [List.getD_eq_getElem?_getD, ← h1]
  rfl

theorem drop_succ_of_drop (path : List Nat) (k a : Nat) (rest : List Nat)
    (h : path.drop k = a :: rest) : path.drop (k + 1) = rest := by
  rw [← List.tail_drop, h]
  rfl

/-- The scan stops at the first separator behind `begin`. -/
theorem nextSeparator_find (sep : Nat) (path : List Nat) (c : Nat) (post : List Nat)
    (hc : isSeparator sep c = true) (pre : List Nat) :
    ∀ (k fuel : Nat), path.drop k = pre ++ c :: post →
      (∀ a ∈ pre, isSeparator sep a = false) → pre.length < fuel →
      nextSeparator sep path fuel ((k : Int) - 1) = ((k + pre.length : Nat) : Int) := by
  induction pre with
  | nil =>
    intro k fuel hdrop _ hfuel
    obtain ⟨f, rfl⟩ : ∃ f, fuel = f + 1 := ⟨fuel - 1, by omega⟩
    rw [nextSeparator]
    have hk : (k : Int) - 1 + 1 = (k : Int) := by omega
    rw [hk, Int.toNat_ofNat, getD_of_drop path k c post hdrop, hc]
    simp
  | cons a t ih =>
    intro k fuel hdrop hpre hfuel
    obtain ⟨f, rfl⟩ : ∃ f, fuel = f + 1 := ⟨fuel - 1, by omega⟩
    have ha := hpre a (List.mem_cons_self _ _)
    rw [nextSeparator]
    have hk : (k : Int) - 1 + 1 = (k : Int) := by omega
    rw [hk, Int.toNat_ofNat, getD_of_drop path k a (t ++ c :: post) hdrop, ha]
    simp only [Bool.not_false, if_true]
    have hk2 : (k : Int) = ((k + 1 : Nat) : Int) - 1 := by omega
    rw [hk2, ih (k + 1) f (drop_succ_of_drop path k a _ hdrop)
      (fun b hb => hpre b (List.mem_cons_of_mem _ hb))
      (by simp only [List.length_cons] at hfuel; omega)]
    simp only [List.length_cons]
    omega

/-- The loop of `ShortenPath` returns the ellipsis followed by the earliest separator
suffix that fits, if there is one. -/
theorem abbreviateLoop_find (sep : Nat) (path : List Nat) (W : Int) (fs : FontStyle)
    (hnz : ∀ c ∈ path, c ≠ 0) :
    ∀ (rounds k : Nat), (path.drop k).countP (isSeparator sep) = rounds →
      abbreviateLoop env sep path W fs rounds ((k : Int) - 1)
        = ((separatorSuffixes sep (path.drop k)).find?
            (fun s => decide (GfxGetStringWidth env (ellipsis ++ s) fs ≤ W))).map
            (fun s => ellipsis ++ s) := by
  intro rounds
  induction rounds with
  | zero =>
    intro k hcount
    rw [separatorSuffixes_none sep _ hcount]
    rfl
  | succ n ih =>
    intro k hcount
    obtain ⟨pre, c, post, hsplit, hpre, hc⟩ :=
      separator_split sep (path.drop k) (by omega)
    have hlen : pre.length < path.length + 1 := by
      have h1 : (path.drop k).length = (pre ++ c :: post).length := by rw [hsplit]
      simp only [List.length_drop, List.length_append, List.length_cons] at h1
      omega
    have hbegin := nextSeparator_find sep path c post hc pre k (path.length + 1) hsplit hpre hlen
    have hdrop : path.drop (k + pre.length) = c :: post := by
      rw [← List.drop_drop, hsplit]
      simp
    have hcstr : cstr (ellipsis ++ c :: post) = ellipsis ++ c :: post := by
      apply cstr_eq_self
      intro a ha
      rcases List.mem_append.mp ha with h1 | h1
      · intro h0
        rw [h0] at h1
        simp [ellipsis] at h1
      · apply hnz a
        have h2 : a ∈ path.drop (k + pre.length) := by rw [hdrop]; exact h1
        exact List.mem_of_mem_drop h2
    rw [abbreviateLoop]
    rw [hbegin, Int.toNat_ofNat, hdrop, hcstr, hsplit,
      separatorSuffixes_split sep pre c post hpre hc]
    by_cases hfit : GfxGetStringWidth env (ellipsis ++ c :: post) fs ≤ W
    · rw [if_pos hfit, List.find?_cons_of_pos _ (by simpa using hfit)]
      rfl
    · rw [if_neg hfit, List.find?_cons_of_neg _ (by simpa using hfit)]
      have hk : ((k + pre.length : Nat) : Int) = ((k + pre.length + 1 : Nat) : Int) - 1 := by
        omega
      have hpost : path.drop (k + pre.length + 1) = post :=
        drop_succ_of_drop path _ c post hdrop
      have hcnt : (path.drop (k + pre.length + 1)).countP (isSeparator sep) = n := by
        rw [hpost]
        rw [hsplit, countP_split sep pre c post hpre hc] at hcount
        omega
      rw [hk, ih (k + pre.length + 1) hcnt, hpost]

end Shorten


/-! ### Colour and outline tokens do not move the cursor -/

section CursorOnly

variable (env : Env)

theorem cursorView_of_shape (dpi : rct_drawpixelinfo) (info : text_draw_info)
    (calls : List DrawCall) (palette : List Nat) (flags : Nat)
    (hf : clearFlag flags TEXT_DRAW_FLAG_OUTLINE = clearFlag info.flags TEXT_DRAW_FLAG_OUTLINE) :
    cursorView ({ dpi with calls := calls }, { info with palette := palette, flags := flags })
      = cursorView (dpi, info) := by
  simp [cursorView, hf]

end CursorOnly


/-! ## The claims about measurement invariants, heights, paths and kept palettes -/

/-- C31, evaluated.  A 1 by 1 glyph drawn with the INSET flag at the only pixel of a
1 by 1 destination plane (1 byte) stores the inset shadow at index 2; a 2 by 2 glyph
drawn at (2, 2) of a 4 by 4 plane (indices 0 to 15) stores inset shadows at the indices
16, 19 and 20.  With the OUTLINE flag instead, the four neighbours of the same glyph
are all stored inside the plane. -/
theorem ttf_blit_inset_outside :
    (ttf_blit ⟨1, 1, 1⟩ [255] ⟨0, 0, 1, 1, 0, []⟩ 0 0 TEXT_DRAW_FLAG_INSET false 0).writes
        = [2, 0] ∧
      planeSize ⟨0, 0, 1, 1, 0, []⟩ = 1 ∧
      (ttf_blit ⟨2, 2, 2⟩ [255, 255, 255, 255] ⟨0, 0, 4, 4, 0, []⟩ 2 2 TEXT_DRAW_FLAG_INSET
          false 0).writes = [15, 10, 16, 11, 19, 14, 20, 15] ∧
      planeSize ⟨0, 0, 4, 4, 0, []⟩ = 16 ∧
      (∀ i ∈ (ttf_blit ⟨2, 2, 2⟩ [255, 255, 255, 255] ⟨0, 0, 4, 4, 0, []⟩ 2 2
          TEXT_DRAW_FLAG_OUTLINE false 0).writes, 0 ≤ i ∧ i < 16) := by
  decide

/-- C32: for every text that contains a newline token (`Newline` or `NewlineSmall`) the
result of `GfxGetStringWidthNewLined` is the minimum of the widths of the segments that
end at a newline token, and it does not depend on the text after the last newline
token: with `n` the last newline cell, the text `Q n S1`, the text `Q n S2` and the
text `Q n` get the same result whenever `S1` and `S2` hold no newline token. -/
theorem GfxGetStringWidthNewLined_tail (env : Env) (fs : FontStyle) (Q : List Nat) (n : Nat)
    (S1 S2 : List Nat) (k : FormatToken) (p : Int)
    (hn : controlCode env n = some (k, p))
    (hk : k = FormatToken.Newline ∨ k = FormatToken.NewlineSmall)
    (h1 : ∀ tok ∈ FmtString env S1, isNewlineToken tok = false)
    (h2 : ∀ tok ∈ FmtString env S2, isNewlineToken tok = false) :
    ((∀ seg ∈ (segments isNewlineToken (FmtString env (Q ++ n :: S1))).dropLast,
          GfxGetStringWidthNewLined env (Q ++ n :: S1) fs ≤ GfxGetStringWidth env seg fs) ∧
        ∃ seg ∈ (segments isNewlineToken (FmtString env (Q ++ n :: S1))).dropLast,
          GfxGetStringWidth env seg fs = GfxGetStringWidthNewLined env (Q ++ n :: S1) fs) ∧
      GfxGetStringWidthNewLined env (Q ++ n :: S1) fs
        = GfxGetStringWidthNewLined env (Q ++ n :: S2) fs ∧
      GfxGetStringWidthNewLined env (Q ++ n :: S1) fs
        = GfxGetStringWidthNewLined env (Q ++ [n]) fs := by
  refine ⟨?_, ?_, newLined_cut env fs Q n S1 k p hn hk h1⟩
  · apply newLined_min env (Q ++ n :: S1) fs
    refine ⟨⟨k, [n], p⟩, ?_, ?_⟩
    · rw [FmtString_append_control env Q n S1 k p hn]
      exact List.mem_append_right _ (List.mem_cons_self _ _)
    · rcases hk with hk | hk <;> simp [isNewlineToken, hk]
  · rw [newLined_cut env fs Q n S1 k p hn hk h1, newLined_cut env fs Q n S2 k p hn hk h2]

/-- Witness for `GfxGetStringWidthNewLined_tail`: `Hello<newline>` followed by `Hi` and
by `World!` with 5 pixel glyphs; both results are 25. -/
theorem GfxGetStringWidthNewLined_tail_witness :
    GfxGetStringWidthNewLined fivePxEnv ([72, 101, 108, 108, 111] ++ 1 :: [72, 105])
        FontStyle.Medium = 25 ∧
      GfxGetStringWidthNewLined fivePxEnv ([72, 101, 108, 108, 111] ++ 1 :: [72, 105])
          FontStyle.Medium
        = GfxGetStringWidthNewLined fivePxEnv
            ([72, 101, 108, 108, 111] ++ 1 :: [87, 111, 114, 108, 100, 33])
            FontStyle.Medium :=
  ⟨by decide,
    (GfxGetStringWidthNewLined_tail fivePxEnv FontStyle.Medium [72, 101, 108, 108, 111] 1
      [72, 105] [87, 111, 114, 108, 100, 33] FormatToken.Newline 0 (by decide) (Or.inl rfl)
      (by decide) (by decide)).2.1⟩

/-- C33: for every text and font style `GfxGetStringWidth` returns a non-negative
value, and 0 for the empty text; the bounding box starts at 0, and after every token
the bounding box holds the cursor (`maxX >= x`) and `maxX` has not decreased, whatever
the token does to the cursor. -/
theorem GfxGetStringWidth_bounding_box (env : Env) (text : List Nat) (fs : FontStyle) :
    0 ≤ GfxGetStringWidth env text fs ∧ GfxGetStringWidth env [] fs = 0 ∧
      (measureInfo env fs false).maxX = 0 ∧
      ∀ (st : rct_drawpixelinfo × text_draw_info) (tok : token),
        (ttf_process_token env st tok).2.x ≤ (ttf_process_token env st tok).2.maxX ∧
          st.2.maxX ≤ (ttf_process_token env st tok).2.maxX :=
  ⟨GfxGetStringWidth_nonneg env text fs, GfxGetStringWidth_nil env fs, rfl,
    fun st tok => ⟨(process_token_x_le env st tok).1, process_token_maxX_le env st tok⟩⟩


/-- C35: `StringGetHeightRaw` is a base fixed by the initial font style alone (10 for
`Small` or `Medium`, 6 for `Tiny`) plus, for each `Newline` token, 10 or 6 and, for each
`NewlineSmall` token, 5 or 3, in the font style in force at that token; a text without
newline tokens has the base height, and a `NewlineSmall` adds exactly half of what a
`Newline` adds.  The style values are taken in the order `Small`, `Medium` below
`Tiny`, which the comparison of the source relies on. -/
theorem StringGetHeightRaw_sum (env : Env) (styleValue : FontStyle → Nat) (text : List Nat)
    (fs : FontStyle)
    (hsmall : styleValue FontStyle.Small ≤ styleValue FontStyle.Medium)
    (htiny : styleValue FontStyle.Medium < styleValue FontStyle.Tiny) :
    StringGetHeightRaw env styleValue text fs
        = lineHeightOf fs + tokenHeights fs (FmtString env text) ∧
      ((∀ tok ∈ FmtString env text, isNewlineToken tok = false) →
        StringGetHeightRaw env styleValue text fs = lineHeightOf fs) ∧
      ∀ style : FontStyle, 2 * smallLineHeightOf style = lineHeightOf style := by
  have hsum : StringGetHeightRaw env styleValue text fs
      = lineHeightOf fs + tokenHeights fs (FmtString env text) := by
    unfold StringGetHeightRaw
    dsimp only
    rw [heightToken_fold]
    cases fs
    · rw [if_pos hsmall]
      rfl
    · rw [if_pos (le_refl _)]
      rfl
    · rw [if_neg (by omega), if_pos rfl]
      rfl
  refine ⟨hsum, ?_, ?_⟩
  · intro hnone
    rw [hsum, tokenHeights_none fs _ hnone, add_zero]
  · intro style
    cases style <;> decide

/-- Witness for `StringGetHeightRaw_sum`: `a<Newline><FontTiny><Newline><NewlineSmall>`
from `Medium` has height 10 + 10 + 6 + 3 = 29. -/
theorem StringGetHeightRaw_sum_witness :
    StringGetHeightRaw paintEnv fontStyleValue [97, 1, 6, 1, 2] FontStyle.Medium = 29 ∧
      StringGetHeightRaw paintEnv fontStyleValue [97, 1, 6, 1, 2] FontStyle.Medium
        = lineHeightOf FontStyle.Medium
          + tokenHeights FontStyle.Medium (FmtString paintEnv [97, 1, 6, 1, 2]) :=
  ⟨by decide,
    (StringGetHeightRaw_sum paintEnv fontStyleValue [97, 1, 6, 1, 2] FontStyle.Medium
      (by decide) (by decide)).1⟩


/-- C36: `ShortenPath` with a buffer that is large enough.  If the path fits the
available width the buffer holds the path unchanged; otherwise it holds the ellipsis
followed by the suffix of the path that starts at the earliest path separator (`/` or
`PATH_SEPARATOR`) for which the abbreviated string fits, and the full path when no
such suffix fits. -/
theorem ShortenPath_earliest (env : Env) (PATH_SEPARATOR : Nat) (path : List Nat)
    (availableWidth : Int) (fontStyle : FontStyle) :
    ShortenPath env PATH_SEPARATOR path availableWidth fontStyle
      = shortenedPath env PATH_SEPARATOR (cstr path) availableWidth fontStyle := by
  unfold ShortenPath shortenedPath
  dsimp only
  by_cases hfit : GfxGetStringWidth env (cstr path) fontStyle ≤ availableWidth
  · rw [if_pos hfit, if_pos hfit]
  · rw [if_neg hfit, if_neg hfit]
    have h := abbreviateLoop_find env PATH_SEPARATOR (cstr path) availableWidth fontStyle
      (cstr_nonzero path) ((cstr path).countP (isSeparator PATH_SEPARATOR)) 0 rfl
    have h0 : ((0 : Nat) : Int) - 1 = -1 := by decide
    rw [h0, List.drop_zero] at h
    rw [h]
    cases (separatorSuffixes PATH_SEPARATOR (cstr path)).find?
        (fun s => decide (GfxGetStringWidth env (ellipsis ++ s) fontStyle ≤ availableWidth)) with
    | none => rfl
    | some s => rfl


/-- C37: `SetType` changes only the low nibble of `flags`.  For every entry and every
type argument `GetSourceGame()`, bits 4-31 of `flags`, the name and the checksum are
the same after `SetType` as before. -/
theorem SetType_frame (e : RCTObjectEntry) (t : ObjectType) :
    (e.SetType t).GetSourceGame = e.GetSourceGame ∧
      (e.SetType t).flags / 16 % 268435456 = e.flags / 16 % 268435456 ∧
      (e.SetType t).name = e.name ∧ (e.SetType t).checksum = e.checksum := by
  have h := SetType_upper e t
  refine ⟨?_, h, rfl, rfl⟩
  rw [GetSourceGame_div, GetSourceGame_div]
  omega

/-- C38: the colours `TEXT_COLOUR_254` and `TEXT_COLOUR_255` keep the current palette.
For them `ttf_process_initial_colour` returns the draw state as it was (flags and all
palette entries), so `TtfDrawString` with such a colour on a text without colour
tokens leaves the whole 8-byte global text palette as it was. -/
theorem keep_palette_colours (env : Env) (k : ColourConstants) (ctx : DrawContext)
    (text : List Nat) (colour : Nat) (coords : Int × Int) (noFormatting : Bool)
    (fontStyle : FontStyle) (darkness : TextDarkness) (uninit info : text_draw_info)
    (hc : colour = k.TEXT_COLOUR_254 ∨ colour = k.TEXT_COLOUR_255)
    (hlen : ctx.gTextPalette.length = 8)
    (htok : ∀ tok ∈ FmtString env (cstr text), isColourToken tok = false) :
    ttf_process_initial_colour env k colour info = info ∧
      (TtfDrawString env k ctx (some text) colour coords noFormatting fontStyle darkness
        uninit).gTextPalette = ctx.gTextPalette := by
  refine ⟨initial_colour_keep env k colour info hc, ?_⟩
  show copyPalette ctx.gTextPalette
      (TtfDrawStringState env k ctx text colour coords noFormatting fontStyle darkness
        uninit).2.palette = ctx.gTextPalette
  unfold TtfDrawStringState TtfDrawStringInfo
  rw [process_string_palette env _ _ _ htok]
  dsimp only
  rw [initial_colour_keep env k colour _ hc]
  exact copyPalette_back _ _ hlen

/-- Witness for `keep_palette_colours`: the text `ab` drawn with colour 254 on a global
palette holding 1 to 8. -/
theorem keep_palette_colours_witness :
    ttf_process_initial_colour shadeEnv demoColours 254 (originInfo TEXT_DRAW_FLAG_INSET)
        = originInfo TEXT_DRAW_FLAG_INSET ∧
      (TtfDrawString shadeEnv demoColours
          ⟨⟨0, 0, 100, 100, 0, []⟩, (0, 0), [1, 2, 3, 4, 5, 6, 7, 8]⟩ (some [97, 98]) 254
          (3, 4) false FontStyle.Medium TextDarkness.Regular (originInfo 0)).gTextPalette
        = [1, 2, 3, 4, 5, 6, 7, 8] :=
  keep_palette_colours shadeEnv demoColours
    ⟨⟨0, 0, 100, 100, 0, []⟩, (0, 0), [1, 2, 3, 4, 5, 6, 7, 8]⟩ [97, 98] 254 (3, 4) false
    FontStyle.Medium TextDarkness.Regular (originInfo 0) (originInfo TEXT_DRAW_FLAG_INSET)
    (Or.inl rfl) rfl (by decide)


end OpenRCT2
